import Mathlib

/-!
Verification development for the QBB perft program (qbb_perft.c).

The C program is shallowly embedded: 64-bit bitboards become `Nat` with
explicit truncation modulo `2 ^ 64` where C unsigned overflow matters,
the mutable `TBoard` becomes an immutable structure, and the global
position stack becomes an explicit state value.  All definitions follow
the source line by line; spec-level definitions (used to compare the
code against the natural-language specification) are clearly marked.
-/

/-- 2^64, the modulus of C `uint64_t` arithmetic. -/
def M64 : Nat := 2 ^ 64

/-- C left shift on `uint64_t`: shift then truncate to 64 bits. -/
def shl (x n : Nat) : Nat := (x <<< n) % M64

/-- C bitwise complement `~x` on `uint64_t` (for `x < 2^64`). -/
def bnot (x : Nat) : Nat := x ^^^ 0xFFFFFFFFFFFFFFFF

/-- C unary minus on `uint64_t`: two's complement negation. -/
def neg64 (x : Nat) : Nat := (M64 - x) % M64

/-- Fuel-driven count of trailing zero bits (semantics of `__builtin_ctzll`). -/
def ctzA : Nat → Nat → Nat
  | 0, _ => 0
  | f + 1, n => if n % 2 = 1 ∨ n = 0 then 0 else ctzA f (n / 2) + 1

/-- `LSB(bb)`: index of the least significant set bit (`__builtin_ctzll`). -/
def LSB (bb : Nat) : Nat := ctzA 64 bb

/-- Fuel-driven floor of the base-2 logarithm. -/
def msbA : Nat → Nat → Nat
  | 0, _ => 0
  | f + 1, n => if n < 2 then 0 else msbA f (n / 2) + 1

/-- `MSB(bb)`: index of the most significant set bit (`0x3F ^ __builtin_clzll`). -/
def MSB (bb : Nat) : Nat := msbA 64 bb

/-- `ExtractLSB(bb)`: `bb & (-bb)`, the least significant set bit as a mask. -/
def ExtractLSB (bb : Nat) : Nat := bb &&& neg64 bb

/-- `ClearLSB(bb)`: `bb & (bb - 1)`, clears the least significant set bit. -/
def ClearLSB (bb : Nat) : Nat := bb &&& (bb - 1)

/-- `RevBB(bb)`: byte reversal (`__builtin_bswap64`). -/
def RevBB (bb : Nat) : Nat :=
  ((bb &&& 0xFF) <<< 56) ||| (((bb >>> 8) &&& 0xFF) <<< 48) |||
  (((bb >>> 16) &&& 0xFF) <<< 40) ||| (((bb >>> 24) &&& 0xFF) <<< 32) |||
  (((bb >>> 32) &&& 0xFF) <<< 24) ||| (((bb >>> 40) &&& 0xFF) <<< 16) |||
  (((bb >>> 48) &&& 0xFF) <<< 8) ||| ((bb >>> 56) &&& 0xFF)

/-- Side constant `WHITE`. -/
def WHITE : Nat := 0

/-- Side constant `BLACK`. -/
def BLACK : Nat := 8

/-- Piece type `EMPTY`. -/
def EMPTY : Nat := 0

/-- Piece type `PAWN`. -/
def PAWN : Nat := 1

/-- Piece type `KNIGHT`. -/
def KNIGHT : Nat := 2

/-- Piece type `BISHOP`. -/
def BISHOP : Nat := 3

/-- Piece type `ROOK`. -/
def ROOK : Nat := 4

/-- Piece type `QUEEN`. -/
def QUEEN : Nat := 5

/-- Piece type `KING`. -/
def KING : Nat := 6

/-- Move flag `CASTLE`. -/
def CASTLE : Nat := 0x40

/-- Move flag `PROMO`. -/
def PROMO : Nat := 0x20

/-- Move flag `EP`. -/
def EP : Nat := 0x10

/-- Move flag `CAPTURE`. -/
def CAPTURE : Nat := 0x08

/-- The 64-entry knight destination table `KnightDest`. -/
def KnightDestL : List Nat :=
  [0x0000000000020400, 0x0000000000050800, 0x00000000000a1100, 0x0000000000142200,
   0x0000000000284400, 0x0000000000508800, 0x0000000000a01000, 0x0000000000402000,
   0x0000000002040004, 0x0000000005080008, 0x000000000a110011, 0x0000000014220022,
   0x0000000028440044, 0x0000000050880088, 0x00000000a0100010, 0x0000000040200020,
   0x0000000204000402, 0x0000000508000805, 0x0000000a1100110a, 0x0000001422002214,
   0x0000002844004428, 0x0000005088008850, 0x000000a0100010a0, 0x0000004020002040,
   0x0000020400040200, 0x0000050800080500, 0x00000a1100110a00, 0x0000142200221400,
   0x0000284400442800, 0x0000508800885000, 0x0000a0100010a000, 0x0000402000204000,
   0x0002040004020000, 0x0005080008050000, 0x000a1100110a0000, 0x0014220022140000,
   0x0028440044280000, 0x0050880088500000, 0x00a0100010a00000, 0x0040200020400000,
   0x0204000402000000, 0x0508000805000000, 0x0a1100110a000000, 0x1422002214000000,
   0x2844004428000000, 0x5088008850000000, 0xa0100010a0000000, 0x4020002040000000,
   0x0400040200000000, 0x0800080500000000, 0x1100110a00000000, 0x2200221400000000,
   0x4400442800000000, 0x8800885000000000, 0x100010a000000000, 0x2000204000000000,
   0x0004020000000000, 0x0008050000000000, 0x00110a0000000000, 0x0022140000000000,
   0x0044280000000000, 0x0088500000000000, 0x0010a00000000000, 0x0020400000000000]

/-- Lookup into the knight destination table. -/
def KnightDest (sq : Nat) : Nat := KnightDestL.getD sq 0

/-- The 64-entry king destination table `KingDest`. -/
def KingDestL : List Nat :=
  [0x0000000000000302, 0x0000000000000705, 0x0000000000000e0a, 0x0000000000001c14,
   0x0000000000003828, 0x0000000000007050, 0x000000000000e0a0, 0x000000000000c040,
   0x0000000000030203, 0x0000000000070507, 0x00000000000e0a0e, 0x00000000001c141c,
   0x0000000000382838, 0x0000000000705070, 0x0000000000e0a0e0, 0x0000000000c040c0,
   0x0000000003020300, 0x0000000007050700, 0x000000000e0a0e00, 0x000000001c141c00,
   0x0000000038283800, 0x0000000070507000, 0x00000000e0a0e000, 0x00000000c040c000,
   0x0000000302030000, 0x0000000705070000, 0x0000000e0a0e0000, 0x0000001c141c0000,
   0x0000003828380000, 0x0000007050700000, 0x000000e0a0e00000, 0x000000c040c00000,
   0x0000030203000000, 0x0000070507000000, 0x00000e0a0e000000, 0x00001c141c000000,
   0x0000382838000000, 0x0000705070000000, 0x0000e0a0e0000000, 0x0000c040c0000000,
   0x0003020300000000, 0x0007050700000000, 0x000e0a0e00000000, 0x001c141c00000000,
   0x0038283800000000, 0x0070507000000000, 0x00e0a0e000000000, 0x00c040c000000000,
   0x0302030000000000, 0x0705070000000000, 0x0e0a0e0000000000, 0x1c141c0000000000,
   0x3828380000000000, 0x7050700000000000, 0xe0a0e00000000000, 0xc040c00000000000,
   0x0203000000000000, 0x0507000000000000, 0x0a0e000000000000, 0x141c000000000000,
   0x2838000000000000, 0x5070000000000000, 0xa0e0000000000000, 0x40c0000000000000]

/-- Lookup into the king destination table. -/
def KingDest (sq : Nat) : Nat := KingDestL.getD sq 0

/-- The 8-entry `EnPassant` mask table used by move generation. -/
def EnPassantL : List Nat :=
  [0x0000000200000000, 0x0000000500000000, 0x0000000A00000000, 0x0000001400000000,
   0x0000002800000000, 0x0000005000000000, 0x000000A000000000, 0x0000004000000000]

/-- Lookup into the generation-time en-passant mask table. -/
def EnPassant (i : Nat) : Nat := EnPassantL.getD i 0

/-- The 8-entry `EnPassantM` mask table used by `Make`. -/
def EnPassantML : List Nat :=
  [0x0000000002000000, 0x0000000005000000, 0x000000000A000000, 0x0000000014000000,
   0x0000000028000000, 0x0000000050000000, 0x00000000A0000000, 0x0000000040000000]

/-- Lookup into the make-time en-passant mask table. -/
def EnPassantM (i : Nat) : Nat := EnPassantML.getD i 0

/-- The board structure `TBoard`: four bitboards plus flags. -/
structure TBoard where
  PM : Nat
  P0 : Nat
  P1 : Nat
  P2 : Nat
  CastleFlags : Nat
  EnPassant : Nat
  STM : Nat
deriving Repr, DecidableEq

/-- The move structure `TMove`. -/
structure TMove where
  MoveType : Nat
  From : Nat
  To : Nat
  Prom : Nat
deriving Repr, DecidableEq

/-- Macro `Occupation`: all occupied squares. -/
def Occupation (p : TBoard) : Nat := p.P0 ||| p.P1 ||| p.P2

/-- Macro `Pawns`. -/
def Pawns (p : TBoard) : Nat := p.P0 &&& bnot p.P1 &&& bnot p.P2

/-- Macro `Knights`. -/
def Knights (p : TBoard) : Nat := bnot p.P0 &&& p.P1 &&& bnot p.P2

/-- Macro `Bishops`. -/
def Bishops (p : TBoard) : Nat := p.P0 &&& p.P1

/-- Macro `Rooks`. -/
def Rooks (p : TBoard) : Nat := bnot p.P0 &&& bnot p.P1 &&& p.P2

/-- Macro `Queens`. -/
def Queens (p : TBoard) : Nat := p.P0 &&& p.P2

/-- Macro `Kings`. -/
def Kings (p : TBoard) : Nat := p.P1 &&& p.P2

/-- Macro `CastleSM`: short castling right of the side to move. -/
def CastleSM (p : TBoard) : Nat := p.CastleFlags &&& 0x02

/-- Macro `CastleLM`: long castling right of the side to move. -/
def CastleLM (p : TBoard) : Nat := p.CastleFlags &&& 0x01

/-- Macro `CastleSO`: short castling right of the opponent. -/
def CastleSO (p : TBoard) : Nat := p.CastleFlags &&& 0x20

/-- Macro `CastleLO`: long castling right of the opponent. -/
def CastleLO (p : TBoard) : Nat := p.CastleFlags &&& 0x10

/-- Macro `Piece(sq)`: 3-bit piece code on a square. -/
def Piece (p : TBoard) (sq : Nat) : Nat :=
  (((p.P2 >>> sq) &&& 1) <<< 2) ||| (((p.P1 >>> sq) &&& 1) <<< 1) ||| ((p.P0 >>> sq) &&& 1)

/-- Macro `OppSq`: mirror a square to the opponent's perspective. -/
def OppSq (sp : Nat) : Nat := sp ^^^ 0x38

/-- Macro `ChangeSide`: flip the board to the opponent's perspective. -/
def ChangeSide (p : TBoard) : TBoard :=
  { PM := RevBB (p.PM ^^^ Occupation p)
    P0 := RevBB p.P0
    P1 := RevBB p.P1
    P2 := RevBB p.P2
    CastleFlags := ((p.CastleFlags >>> 4) ||| (p.CastleFlags <<< 4)) % 256
    EnPassant := p.EnPassant
    STM := p.STM ^^^ BLACK }

/-- `GenRook`: rook destination bitboard from a square under an occupancy. -/
def GenRook (sq : Nat) (occupation : Nat) : Nat :=
  let piece := shl 1 sq
  let occ2 := occupation ^^^ piece
  let piecesup := shl 0x0101010101010101 sq &&& (occ2 ||| 0xFF00000000000000)
  let piecesdo := (0x8080808080808080 >>> (63 - sq)) &&& (occ2 ||| 0x00000000000000FF)
  let piecesri := shl 0x00000000000000FF sq &&& (occ2 ||| 0x8080808080808080)
  let piecesle := (0xFF00000000000000 >>> (63 - sq)) &&& (occ2 ||| 0x0101010101010101)
  (((0x8080808080808080 >>> (63 - LSB piecesup)) &&& shl 0x0101010101010101 (MSB piecesdo)) |||
   ((0xFF00000000000000 >>> (63 - LSB piecesri)) &&& shl 0x00000000000000FF (MSB piecesle))) ^^^ piece

/-- `GenBishop`: bishop destination bitboard from a square under an occupancy. -/
def GenBishop (sq : Nat) (occupation : Nat) : Nat :=
  let piece := shl 1 sq
  let occ2 := occupation ^^^ piece
  let piecesup := shl 0x8040201008040201 sq &&& (occ2 ||| 0xFF80808080808080)
  let piecesdo := (0x8040201008040201 >>> (63 - sq)) &&& (occ2 ||| 0x01010101010101FF)
  let piecesle := shl 0x8102040810204081 sq &&& (occ2 ||| 0xFF01010101010101)
  let piecesri := (0x8102040810204081 >>> (63 - sq)) &&& (occ2 ||| 0x80808080808080FF)
  (((0x8040201008040201 >>> (63 - LSB piecesup)) &&& shl 0x8040201008040201 (MSB piecesdo)) |||
   ((0x8102040810204081 >>> (63 - LSB piecesle)) &&& shl 0x8102040810204081 (MSB piecesri))) ^^^ piece

/-- `BBPieces`: the bitboard of all pieces of one type. -/
def BBPieces (p : TBoard) (piece : Nat) : Nat :=
  if piece = PAWN then Pawns p
  else if piece = KNIGHT then Knights p
  else if piece = BISHOP then Bishops p
  else if piece = ROOK then Rooks p
  else if piece = QUEEN then Queens p
  else if piece = KING then Kings p
  else 0

/-- `BBDestinations`: destination bitboard of a non-pawn piece on a square. -/
def BBDestinations (piece : Nat) (sq : Nat) (occupation : Nat) : Nat :=
  if piece = KNIGHT then KnightDest sq
  else if piece = BISHOP then GenBishop sq occupation
  else if piece = ROOK then GenRook sq occupation
  else if piece = QUEEN then GenRook sq occupation ||| GenBishop sq occupation
  else if piece = KING then KingDest sq
  else 0

/-- `Illegal`: attackers of the mover's king after (analytically) applying a move. -/
def Illegal (p : TBoard) (move : TMove) : Nat :=
  let fromBB := shl 1 move.From
  let toBB := shl 1 move.To
  let occupation := Occupation p
  let opposing := p.PM ^^^ occupation
  let newoccupation0 := (occupation ^^^ fromBB) ||| toBB
  let newopposing0 := opposing &&& bnot toBB
  let isK := move.MoveType &&& 0x07 = KING
  let king := if isK then toBB else Kings p &&& p.PM
  let kingsq := if isK then move.To else LSB (Kings p &&& p.PM)
  let isEP := ¬isK ∧ move.MoveType &&& EP ≠ 0
  let newopposing := if isEP then newopposing0 ^^^ (toBB >>> 8) else newopposing0
  let newoccupation := if isEP then newoccupation0 ^^^ (toBB >>> 8) else newoccupation0
  ((KnightDest kingsq &&& Knights p) |||
   (GenRook kingsq newoccupation &&& (Rooks p ||| Queens p)) |||
   (GenBishop kingsq newoccupation &&& (Bishops p ||| Queens p)) |||
   (((shl king 9 &&& 0xFEFEFEFEFEFEFEFE) ||| (shl king 7 &&& 0x7F7F7F7F7F7F7F7F)) &&& Pawns p) |||
   (KingDest kingsq &&& Kings p)) &&& newopposing

/-- Fuel-driven enumeration of the set bits of a bitboard, least significant first
(the iteration order of the C `for (bb; bb; bb = ClearLSB(bb))` loops). -/
def bitsA : Nat → Nat → List Nat
  | 0, _ => []
  | f + 1, bb => if bb = 0 then [] else LSB bb :: bitsA f (ClearLSB bb)

/-- All set bits of a bitboard, least significant first. -/
def bitList (bb : Nat) : List Nat := bitsA 64 bb

/-- Quiet moves of all pieces of one (non-pawn) type, as emitted by `GenerateQuiets`. -/
def quietMovesFor (p : TBoard) (piece : Nat) : List TMove :=
  let occupation := Occupation p
  (bitList (BBPieces p piece &&& p.PM)).flatMap (fun sq =>
    (bitList (bnot occupation &&& BBDestinations piece sq occupation)).map (fun t =>
      { MoveType := piece, From := sq, To := t, Prom := EMPTY }))

/-- `GenerateQuiets`: all pseudo-legal quiet moves, in emission order. -/
def GenerateQuiets (p : TBoard) : List TMove :=
  let occupation := Occupation p
  let opposing := occupation ^^^ p.PM
  let pieceQuiets := [KING, QUEEN, ROOK, BISHOP, KNIGHT].flatMap (quietMovesFor p)
  let push1 := (shl (Pawns p &&& p.PM) 8 &&& bnot occupation) &&& 0x00FFFFFFFFFFFFFF
  let push1Moves := (bitList push1).map (fun t =>
    { MoveType := PAWN, From := t - 8, To := t, Prom := EMPTY })
  let push2 := shl push1 8 &&& bnot occupation &&& 0x00000000FF000000
  let push2Moves := (bitList push2).map (fun t =>
    { MoveType := PAWN, From := t - 16, To := t, Prom := EMPTY })
  let castleLong : List TMove :=
    if CastleLM p ≠ 0 ∧ occupation &&& 0x0E = 0 then
      let roo := ExtractLSB (0x1010101010101000 &&& occupation) |||
                 ExtractLSB (0x0808080808080800 &&& occupation) |||
                 ExtractLSB (0x0404040404040400 &&& occupation) |||
                 ExtractLSB (0x00000000000000E0 &&& occupation)
      let bis := ExtractLSB (0x0000000102040800 &&& occupation) |||
                 ExtractLSB (0x0000000001020400 &&& occupation) |||
                 ExtractLSB (0x0000000000010200 &&& occupation) |||
                 ExtractLSB (0x0000000080402000 &&& occupation) |||
                 ExtractLSB (0x0000008040201000 &&& occupation) |||
                 ExtractLSB (0x0000804020100800 &&& occupation)
      if ((roo &&& (Rooks p ||| Queens p)) ||| (bis &&& (Bishops p ||| Queens p)) |||
          (0x00000000003E7700 &&& Knights p) ||| (0x0000000000003E00 &&& Pawns p) |||
          (Kings p &&& 0x0000000000000600)) &&& opposing = 0 then
        [{ MoveType := KING ||| CASTLE, From := 4, To := 2, Prom := EMPTY }]
      else []
    else []
  let castleShort : List TMove :=
    if CastleSM p ≠ 0 ∧ occupation &&& 0x60 = 0 then
      let roo := ExtractLSB (0x1010101010101000 &&& occupation) |||
                 ExtractLSB (0x2020202020202000 &&& occupation) |||
                 ExtractLSB (0x4040404040404000 &&& occupation) |||
                 shl 1 (MSB (0x000000000000000F &&& (occupation ||| 0x1)))
      let bis := ExtractLSB (0x0000000102040800 &&& occupation) |||
                 ExtractLSB (0x0000010204081000 &&& occupation) |||
                 ExtractLSB (0x0001020408102000 &&& occupation) |||
                 ExtractLSB (0x0000000080402000 &&& occupation) |||
                 ExtractLSB (0x0000000000804000 &&& occupation) |||
                 0x0000000000008000
      if ((roo &&& (Rooks p ||| Queens p)) ||| (bis &&& (Bishops p ||| Queens p)) |||
          (0x0000000000F8DC00 &&& Knights p) ||| (0x000000000000F800 &&& Pawns p) |||
          (Kings p &&& 0x0000000000004000)) &&& opposing = 0 then
        [{ MoveType := KING ||| CASTLE, From := 4, To := 6, Prom := EMPTY }]
      else []
    else []
  pieceQuiets ++ push1Moves ++ push2Moves ++ castleLong ++ castleShort

/-- Capture moves of all pieces of one (non-pawn) type, as emitted by `GenerateCapture`. -/
def captMovesFor (p : TBoard) (piece : Nat) : List TMove :=
  let occupation := Occupation p
  let opposing := p.PM ^^^ occupation
  (bitList (BBPieces p piece &&& p.PM)).flatMap (fun sq =>
    (bitList (opposing &&& BBDestinations piece sq occupation)).map (fun t =>
      { MoveType := piece ||| CAPTURE, From := sq, To := t, Prom := EMPTY }))

/-- `GenerateCapture`: all pseudo-legal captures, promotions and en-passant moves. -/
def GenerateCapture (p : TBoard) : List TMove :=
  let occupation := Occupation p
  let opposing := p.PM ^^^ occupation
  let pieceCaps := [KING, QUEEN, ROOK, BISHOP, KNIGHT].flatMap (captMovesFor p)
  let pieces := Pawns p &&& p.PM
  let capRi := (bitList (shl pieces 9 &&& 0x00FEFEFEFEFEFEFE &&& opposing)).map (fun t =>
    { MoveType := PAWN ||| CAPTURE, From := t - 9, To := t, Prom := EMPTY })
  let capLe := (bitList (shl pieces 7 &&& 0x007F7F7F7F7F7F7F &&& opposing)).map (fun t =>
    { MoveType := PAWN ||| CAPTURE, From := t - 7, To := t, Prom := EMPTY })
  let promos : List TMove :=
    if pieces &&& 0x00FF000000000000 ≠ 0 then
      (bitList (shl pieces 9 &&& 0xFE00000000000000 &&& opposing)).flatMap (fun t =>
        [QUEEN, ROOK, BISHOP, KNIGHT].map (fun pr =>
          { MoveType := PAWN ||| PROMO ||| CAPTURE, From := t - 9, To := t, Prom := pr })) ++
      (bitList (shl pieces 7 &&& 0x7F00000000000000 &&& opposing)).flatMap (fun t =>
        [QUEEN, ROOK, BISHOP, KNIGHT].map (fun pr =>
          { MoveType := PAWN ||| PROMO ||| CAPTURE, From := t - 7, To := t, Prom := pr })) ++
      (bitList (shl pieces 8 &&& bnot occupation &&& 0xFF00000000000000)).flatMap (fun t =>
        [QUEEN, ROOK, BISHOP, KNIGHT].map (fun pr =>
          { MoveType := PAWN ||| PROMO, From := t - 8, To := t, Prom := pr }))
    else []
  let eps : List TMove :=
    if p.EnPassant ≠ 8 then
      (bitList (pieces &&& EnPassant p.EnPassant)).map (fun s =>
        { MoveType := PAWN ||| EP ||| CAPTURE, From := s, To := 40 + p.EnPassant, Prom := EMPTY })
    else []
  pieceCaps ++ capRi ++ capLe ++ promos ++ eps

/-- `Make`, pawn case: the mutated copy of the position (before any later use). -/
def MakePawn (p : TBoard) (move : TMove) (part dest : Nat) : TBoard :=
  if move.MoveType &&& EP ≠ 0 then
    { p with PM := p.PM ^^^ (part ||| dest)
             P0 := (p.P0 ^^^ (part ||| dest)) ^^^ (dest >>> 8)
             EnPassant := 8 }
  else
    let p1 := if move.MoveType &&& CAPTURE ≠ 0 then
        { p with P0 := p.P0 &&& bnot dest, P1 := p.P1 &&& bnot dest, P2 := p.P2 &&& bnot dest }
      else p
    let p2 :=
      if move.MoveType &&& PROMO ≠ 0 then
        { p1 with PM := p1.PM ^^^ (part ||| dest)
                  P0 := (p1.P0 ^^^ part) ||| shl (move.Prom &&& 1) move.To
                  P1 := p1.P1 ||| shl ((move.Prom >>> 1) &&& 1) move.To
                  P2 := p1.P2 ||| shl (move.Prom >>> 2) move.To
                  EnPassant := 8 }
      else
        let pmid := { p1 with PM := p1.PM ^^^ (part ||| dest)
                              P0 := p1.P0 ^^^ (part ||| dest)
                              EnPassant := 8 }
        if move.To = move.From + 16 ∧
           EnPassantM (move.To &&& 0x07) &&& Pawns pmid &&& (pmid.PM ^^^ Occupation pmid) ≠ 0 then
          { pmid with EnPassant := move.To &&& 0x07 }
        else pmid
    if move.MoveType &&& CAPTURE ≠ 0 then
      if move.To = 63 then { p2 with CastleFlags := p2.CastleFlags &&& 0xDF }
      else if move.To = 56 then { p2 with CastleFlags := p2.CastleFlags &&& 0xEF }
      else p2
    else p2

/-- `Make`, knight/bishop/rook/queen case. -/
def MakeSlider (p : TBoard) (move : TMove) (part dest : Nat) : TBoard :=
  let p1 := if move.MoveType &&& CAPTURE ≠ 0 then
      { p with P0 := p.P0 &&& bnot dest, P1 := p.P1 &&& bnot dest, P2 := p.P2 &&& bnot dest }
    else p
  let p2 := { p1 with
    PM := p1.PM ^^^ (part ||| dest)
    P0 := if move.MoveType &&& 1 ≠ 0 then p1.P0 ^^^ (part ||| dest) else p1.P0
    P1 := if move.MoveType &&& 2 ≠ 0 then p1.P1 ^^^ (part ||| dest) else p1.P1
    P2 := if move.MoveType &&& 4 ≠ 0 then p1.P2 ^^^ (part ||| dest) else p1.P2
    EnPassant := 8 }
  let p3 := if move.MoveType &&& 0x7 = ROOK then
      if move.From = 7 then { p2 with CastleFlags := p2.CastleFlags &&& 0xFD }
      else if move.From = 0 then { p2 with CastleFlags := p2.CastleFlags &&& 0xFE }
      else p2
    else p2
  if move.MoveType &&& CAPTURE ≠ 0 then
    if move.To = 63 then { p3 with CastleFlags := p3.CastleFlags &&& 0xDF }
    else if move.To = 56 then { p3 with CastleFlags := p3.CastleFlags &&& 0xEF }
    else p3
  else p3

/-- `Make`, king case. -/
def MakeKing (p : TBoard) (move : TMove) (part dest : Nat) : TBoard :=
  let p1 := if move.MoveType &&& CAPTURE ≠ 0 then
      { p with P0 := p.P0 &&& bnot dest, P1 := p.P1 &&& bnot dest, P2 := p.P2 &&& bnot dest }
    else p
  let p2 := { p1 with
    PM := p1.PM ^^^ (part ||| dest)
    P1 := p1.P1 ^^^ (part ||| dest)
    P2 := p1.P2 ^^^ (part ||| dest)
    CastleFlags := p1.CastleFlags &&& 0xFD &&& 0xFE
    EnPassant := 8 }
  if move.MoveType &&& CAPTURE ≠ 0 then
    if CastleSO p2 ≠ 0 ∧ move.To = 63 then { p2 with CastleFlags := p2.CastleFlags &&& 0xDF }
    else if CastleLO p2 ≠ 0 ∧ move.To = 56 then { p2 with CastleFlags := p2.CastleFlags &&& 0xEF }
    else p2
  else if move.MoveType &&& CASTLE ≠ 0 then
    if move.To = 6 then
      { p2 with PM := p2.PM ^^^ 0x00000000000000A0, P2 := p2.P2 ^^^ 0x00000000000000A0 }
    else
      { p2 with PM := p2.PM ^^^ 0x0000000000000009, P2 := p2.P2 ^^^ 0x0000000000000009 }
  else p2

/-- `Make`: the position pushed on top of the stack after making a move
(the C function mutates a fresh copy of the current position). -/
def Make (p : TBoard) (move : TMove) : TBoard :=
  let part := shl 1 move.From
  let dest := shl 1 move.To
  let mt := move.MoveType &&& 0x07
  if mt = PAWN then ChangeSide (MakePawn p move part dest)
  else if mt = KING then ChangeSide (MakeKing p move part dest)
  else if KNIGHT ≤ mt ∧ mt ≤ QUEEN then ChangeSide (MakeSlider p move part dest)
  else p

/-- The moves surviving the legality filter, in generation order
(captures first, then quiets, exactly what `Perft` iterates over). -/
def legalMoves (p : TBoard) : List TMove :=
  (GenerateCapture p ++ GenerateQuiets p).filter (fun m => Illegal p m = 0)

/-- `Perft`: the C function counts at `depth <= 1` and recurses above. -/
def Perft (p : TBoard) : Nat → Nat
  | 0 => (legalMoves p).length
  | 1 => (legalMoves p).length
  | d + 2 => ((legalMoves p).map (fun m => Perft (Make p m) (d + 1))).foldl (fun a b => a + b) 0

/-- State threaded through the FEN board-field parsing loop of `LoadPosition`
(the C locals `piece`, `pieceside`, `square` plus the board being filled). -/
structure LoadSt where
  board : TBoard
  piece : Nat
  pieceside : Nat
  square : Nat

/-- One step of the FEN board-field loop: classify a letter. -/
def fenPiece (c : Char) (st : LoadSt) : Nat × Nat :=
  if c = 'p' then (PAWN, BLACK)
  else if c = 'n' then (KNIGHT, BLACK)
  else if c = 'b' then (BISHOP, BLACK)
  else if c = 'r' then (ROOK, BLACK)
  else if c = 'q' then (QUEEN, BLACK)
  else if c = 'k' then (KING, BLACK)
  else if c = 'P' then (PAWN, WHITE)
  else if c = 'N' then (KNIGHT, WHITE)
  else if c = 'B' then (BISHOP, WHITE)
  else if c = 'R' then (ROOK, WHITE)
  else if c = 'Q' then (QUEEN, WHITE)
  else if c = 'K' then (KING, WHITE)
  else (st.piece, st.pieceside)

/-- The FEN board-field loop of `LoadPosition` (runs until the first space). -/
def loadBoardChars : List Char → LoadSt → List Char × LoadSt
  | [], st => ([], st)
  | c :: rest, st =>
    if c = ' ' then (rest, st)
    else if '1' ≤ c ∧ c ≤ '8' then
      loadBoardChars rest { st with square := st.square + (c.toNat - '0'.toNat) }
    else if c = '/' then loadBoardChars rest st
    else
      let pos := OppSq st.square
      let pp := fenPiece c st
      let piece := pp.1
      let pieceside := pp.2
      let b := st.board
      let b := { b with P0 := b.P0 ||| shl (piece &&& 1) pos
                        P1 := b.P1 ||| shl ((piece >>> 1) &&& 1) pos
                        P2 := b.P2 ||| shl (piece >>> 2) pos }
      let bp := if pieceside = WHITE then
          ({ b with PM := b.PM ||| shl 1 pos }, piece ||| BLACK)
        else (b, piece)
      loadBoardChars rest
        { board := bp.1, piece := bp.2, pieceside := pieceside, square := st.square + 1 }

/-- The FEN castling-rights loop of `LoadPosition` (runs until the next space). -/
def loadCastle : List Char → Nat → List Char × Nat
  | [], cf => ([], cf)
  | c :: rest, cf =>
    if c = ' ' then (rest, cf)
    else loadCastle rest
      (if c = 'K' then cf ||| 0x02
       else if c = 'Q' then cf ||| 0x01
       else if c = 'k' then cf ||| 0x20
       else if c = 'q' then cf ||| 0x10
       else cf)

/-- `LoadPosition`: build the root position from a FEN string (no validation,
exactly as in the C source). -/
def LoadPosition (fen : String) : TBoard :=
  let init : TBoard :=
    { PM := 0, P0 := 0, P1 := 0, P2 := 0, CastleFlags := 0, EnPassant := 8, STM := WHITE }
  let r1 := loadBoardChars fen.toList
    { board := init, piece := PAWN, pieceside := WHITE, square := 0 }
  let cs := r1.1
  let b := r1.2.board
  let stmArgs : Nat × List Char :=
    match cs with
    | 'w' :: rest => (WHITE, rest.drop 1)
    | 'b' :: rest => (BLACK, rest.drop 1)
    | _ :: rest => (WHITE, rest.drop 1)
    | [] => (WHITE, [])
  let sidetomove := stmArgs.1
  let cs2 := stmArgs.2
  let castleArgs : List Char × Nat :=
    match cs2 with
    | '-' :: rest => (rest.drop 1, 0)
    | [] => ([], 0)
    | l => loadCastle l 0
  let cs3 := castleArgs.1
  let cf := castleArgs.2
  let ep : Nat :=
    match cs3 with
    | c :: _ => if c ≠ '-' then c.toNat - 'a'.toNat else 8
    | [] => 8
  let b2 := { b with CastleFlags := cf, EnPassant := ep }
  if sidetomove = BLACK then ChangeSide b2 else b2

/-- The global position stack `Game[MAX_PLY]` with its cursor `Position`. -/
structure StackState where
  game : Nat → TBoard
  cursor : Nat

/-- `Make` acting on the stack: advance the cursor and write the new
position at the new top (`Position++; *Position = ...`). -/
def MakeS (s : StackState) (move : TMove) : StackState :=
  { game := fun i => if i = s.cursor + 1 then Make (s.game s.cursor) move else s.game i
    cursor := s.cursor + 1 }

/-- The unmake step of `Perft`: `Position--`, a bare cursor retreat. -/
def retreatS (s : StackState) : StackState :=
  { game := s.game, cursor := s.cursor - 1 }

/-- The current position of a stack state (the board the cursor points at). -/
def currentS (s : StackState) : TBoard := s.game s.cursor

/-- A sample middlegame board (the standard start position as loaded). -/
def sampleBoard : TBoard :=
  { PM := 65535, P0 := 3242310256730111788, P1 := 8502796096475496566,
    P2 := 11024811887802974361, CastleFlags := 51, EnPassant := 8, STM := 0 }

/-- A minimal two-king board: white king a1 (mover), black king h8. -/
def kings2Board : TBoard :=
  { PM := 1, P0 := 0, P1 := 0x8000000000000001, P2 := 0x8000000000000001,
    CastleFlags := 0, EnPassant := 8, STM := 0 }

/-- A sample stack state for the round-trip witness. -/
def sampleStack : StackState :=
  { game := fun _ => sampleBoard, cursor := 0 }

/-- A sample move (1. e2e4) for the round-trip witness. -/
def sampleMove : TMove := { MoveType := 1, From := 12, To := 28, Prom := 0 }

/-- A position in which a double pawn push sets the en-passant file although
the adjacent opposing pawn is pinned: black Ka8 and pawn a4, white Ra1,
pawn b2, Kh1. -/
def c5Board : TBoard := LoadPosition "k7/8/8/8/p7/8/1P6/R6K w - - 0 1"

/-- The double push b2-b4 in `c5Board`. -/
def c5Move : TMove := { MoveType := PAWN, From := 9, To := 25, Prom := EMPTY }

/-- A position whose en-passant flag points at a file where the victim square
holds one of the mover's own pawns: white pawns a5, b5, Kh1; black Ka8;
en-passant file a. -/
def c9Board : TBoard := LoadPosition "k7/8/8/PP6/8/8/8/7K w - a6 0 1"

/-- The generated en-passant capture b5xa6 in `c9Board`. -/
def c9Move : TMove := { MoveType := PAWN ||| EP ||| CAPTURE, From := 33, To := 40, Prom := EMPTY }

/-- A position with the long-castle right, empty b1-d1, and a black rook on
a1 attacking e1 along rank 1: white Ke1, black Ra1, black Kh8. -/
def c4board : TBoard :=
  { PM := 0x10, P0 := 0, P1 := 0x8000000000000010, P2 := 0x8000000000000011,
    CastleFlags := 0x01, EnPassant := 8, STM := 0 }

/-- Spec-level geometry: squares on the same file. -/
def sameFile (a b : Nat) : Prop := a % 8 = b % 8

/-- Spec-level geometry: squares on the same rank. -/
def sameRank (a b : Nat) : Prop := a / 8 = b / 8

/-- Spec-level geometry: squares on the same rising diagonal. -/
def sameDiag (a b : Nat) : Prop := a % 8 + b / 8 = b % 8 + a / 8

/-- Spec-level geometry: squares on the same falling (anti) diagonal. -/
def sameAnti (a b : Nat) : Prop := a % 8 + a / 8 = b % 8 + b / 8

/-- Spec-level geometry: y lies strictly between a and b on their common
rank or file (rook ray). -/
def rookBetween (a b y : Nat) : Prop :=
  (sameFile a b ∧ sameFile a y ∧ min a b < y ∧ y < max a b) ∨
  (sameRank a b ∧ sameRank a y ∧ min a b < y ∧ y < max a b)

/-- Spec-level geometry: y lies strictly between a and b on their common
diagonal (bishop ray). -/
def bishopBetween (a b y : Nat) : Prop :=
  (sameDiag a b ∧ sameDiag a y ∧ min a b < y ∧ y < max a b) ∨
  (sameAnti a b ∧ sameAnti a y ∧ min a b < y ∧ y < max a b)

/-- Spec-level contract of the sliding-attack generator (spec section 4.1):
x is attacked by a rook on sq under the given occupancy, i.e. x lies on one
of the 4 rank/file rays from sq and every square strictly between sq and x
is empty (so x is reachable up to and including the first blocker, the
origin excluded). -/
def rookAttacked (sq occ x : Nat) : Prop :=
  x < 64 ∧ x ≠ sq ∧ (sameFile sq x ∨ sameRank sq x) ∧
  ∀ y, y < 64 → rookBetween sq x y → occ.testBit y = false

/-- Spec-level contract of the sliding-attack generator for bishops. -/
def bishopAttacked (sq occ x : Nat) : Prop :=
  x < 64 ∧ x ≠ sq ∧ (sameDiag sq x ∨ sameAnti sq x) ∧
  ∀ y, y < 64 → bishopBetween sq x y → occ.testBit y = false

instance instDecSameFile (a b : Nat) : Decidable (sameFile a b) := by
  unfold sameFile
  infer_instance

instance instDecSameRank (a b : Nat) : Decidable (sameRank a b) := by
  unfold sameRank
  infer_instance

instance instDecSameDiag (a b : Nat) : Decidable (sameDiag a b) := by
  unfold sameDiag
  infer_instance

instance instDecSameAnti (a b : Nat) : Decidable (sameAnti a b) := by
  unfold sameAnti
  infer_instance

instance instDecRookBetween (a b y : Nat) : Decidable (rookBetween a b y) := by
  unfold rookBetween
  infer_instance

instance instDecBishopBetween (a b y : Nat) : Decidable (bishopBetween a b y) := by
  unfold bishopBetween
  infer_instance

instance instDecRookAttacked (sq occ x : Nat) : Decidable (rookAttacked sq occ x) := by
  unfold rookAttacked
  infer_instance

instance instDecBishopAttacked (sq occ x : Nat) : Decidable (bishopAttacked sq occ x) := by
  unfold bishopAttacked
  infer_instance

/-- Spec-level geometry: a knight on square a attacks square k. -/
def knightGeom (a k : Nat) : Prop :=
  ((a % 8 + 1 = k % 8 ∨ k % 8 + 1 = a % 8) ∧ (a / 8 + 2 = k / 8 ∨ k / 8 + 2 = a / 8)) ∨
  ((a % 8 + 2 = k % 8 ∨ k % 8 + 2 = a % 8) ∧ (a / 8 + 1 = k / 8 ∨ k / 8 + 1 = a / 8))

/-- Spec-level geometry: a king on square a attacks square k. -/
def kingGeom (a k : Nat) : Prop :=
  a ≠ k ∧ a % 8 ≤ k % 8 + 1 ∧ k % 8 ≤ a % 8 + 1 ∧ a / 8 ≤ k / 8 + 1 ∧ k / 8 ≤ a / 8 + 1

/-- Spec-level geometry: an opposing pawn on square a attacks square k
(mover-relative boards: opposing pawns capture toward lower ranks). -/
def pawnGeomDown (a k : Nat) : Prop :=
  k / 8 + 1 = a / 8 ∧ (k % 8 + 1 = a % 8 ∨ a % 8 + 1 = k % 8)

instance instDecKnightGeom (a k : Nat) : Decidable (knightGeom a k) := by
  unfold knightGeom
  infer_instance

instance instDecKingGeom (a k : Nat) : Decidable (kingGeom a k) := by
  unfold kingGeom
  infer_instance

instance instDecPawnGeomDown (a k : Nat) : Decidable (pawnGeomDown a k) := by
  unfold pawnGeomDown
  infer_instance

/-- Facts every move produced by the two generators satisfies: square
bounds, the moved piece really is of the encoded type and belongs to the
mover (king moves excepted, where only the type is fixed), and en-passant
moves carry the stored file. -/
def MoveFacts (p : TBoard) (m : TMove) : Prop :=
  m.From < 64 ∧ m.To < 64 ∧
  (m.MoveType &&& 0x07 = KING ∨
    (BBPieces p (m.MoveType &&& 0x07) &&& p.PM).testBit m.From = true) ∧
  (m.MoveType &&& EP ≠ 0 → m.MoveType = 25 ∧ p.EnPassant < 8 ∧ m.To = 40 + p.EnPassant)

/-- Spec-level restatement of the legality contract (spec section 4.3, and
the claim's analytic application of the move): after moving the piece from
From to To, removing any captured piece at To, and for en-passant moves
removing the captured pawn one rank behind the destination, some surviving
opposing knight, rook or queen, bishop or queen, pawn, or king attacks the
mover's king square (the destination for king moves, the king's square k
otherwise).  Sliding attacks use the spec-level ray predicates over the
updated occupancy. -/
def IllegalSpec (p : TBoard) (m : TMove) (k : Nat) : Prop :=
  let occupation := Occupation p
  let opposing := p.PM ^^^ occupation
  let isK := m.MoveType &&& 0x07 = KING
  let kingsq := if isK then m.To else k
  let baseOcc := (occupation ^^^ shl 1 m.From) ||| shl 1 m.To
  let baseOpp := opposing &&& bnot (shl 1 m.To)
  let isEP := ¬isK ∧ m.MoveType &&& EP ≠ 0
  let newOcc := if isEP then baseOcc ^^^ shl 1 (m.To - 8) else baseOcc
  let newOpp := if isEP then baseOpp ^^^ shl 1 (m.To - 8) else baseOpp
  ∃ a, a < 64 ∧ newOpp.testBit a = true ∧
    (((Knights p).testBit a = true ∧ knightGeom a kingsq) ∨
     ((Rooks p ||| Queens p).testBit a = true ∧ rookAttacked a newOcc kingsq) ∨
     ((Bishops p ||| Queens p).testBit a = true ∧ bishopAttacked a newOcc kingsq) ∨
     ((Pawns p).testBit a = true ∧ pawnGeomDown a kingsq) ∨
     ((Kings p).testBit a = true ∧ kingGeom a kingsq))

/-- Spec-level reading of the long-castle attack scan: some opposing piece
covered by the scanned directions attacks c1, d1 or e1 - an opposing
rook/queen from above one of the three files or from the east of e1 on
rank 1, an opposing bishop/queen along a diagonal, an opposing knight or
pawn on its geometric attack squares, or the opposing king on b2/c2. -/
def longCastleUnsafe (p : TBoard) : Prop :=
  ∃ a, a < 64 ∧ (p.PM ^^^ Occupation p).testBit a = true ∧
    (((Rooks p ||| Queens p).testBit a = true ∧
        ((8 ≤ a ∧ a % 8 = 2 ∧ rookAttacked a (Occupation p) 2) ∨
         (8 ≤ a ∧ a % 8 = 3 ∧ rookAttacked a (Occupation p) 3) ∨
         (8 ≤ a ∧ a % 8 = 4 ∧ rookAttacked a (Occupation p) 4) ∨
         (a / 8 = 0 ∧ 4 < a ∧ rookAttacked a (Occupation p) 4))) ∨
     ((Bishops p ||| Queens p).testBit a = true ∧
        (bishopAttacked a (Occupation p) 2 ∨ bishopAttacked a (Occupation p) 3 ∨
         bishopAttacked a (Occupation p) 4)) ∨
     ((Knights p).testBit a = true ∧
        (knightGeom a 2 ∨ knightGeom a 3 ∨ knightGeom a 4)) ∨
     ((Pawns p).testBit a = true ∧
        (pawnGeomDown a 2 ∨ pawnGeomDown a 3 ∨ pawnGeomDown a 4)) ∨
     ((Kings p).testBit a = true ∧ (a = 9 ∨ a = 10)))

/-- Spec-level reading of the short-castle attack scan: some opposing piece
covered by the scanned directions attacks e1, f1 or g1 - an opposing
rook/queen from above one of the three files or from the west of e1 on
rank 1, an opposing bishop/queen along a diagonal, an opposing knight or
pawn on its geometric attack squares, or the opposing king on g2. -/
def shortCastleUnsafe (p : TBoard) : Prop :=
  ∃ a, a < 64 ∧ (p.PM ^^^ Occupation p).testBit a = true ∧
    (((Rooks p ||| Queens p).testBit a = true ∧
        ((8 ≤ a ∧ a % 8 = 4 ∧ rookAttacked a (Occupation p) 4) ∨
         (8 ≤ a ∧ a % 8 = 5 ∧ rookAttacked a (Occupation p) 5) ∨
         (8 ≤ a ∧ a % 8 = 6 ∧ rookAttacked a (Occupation p) 6) ∨
         (a < 4 ∧ a / 8 = 0 ∧ rookAttacked a (Occupation p) 4))) ∨
     ((Bishops p ||| Queens p).testBit a = true ∧
        (bishopAttacked a (Occupation p) 4 ∨ bishopAttacked a (Occupation p) 5 ∨
         bishopAttacked a (Occupation p) 6)) ∨
     ((Knights p).testBit a = true ∧
        (knightGeom a 4 ∨ knightGeom a 5 ∨ knightGeom a 6)) ∨
     ((Pawns p).testBit a = true ∧
        (pawnGeomDown a 4 ∨ pawnGeomDown a 5 ∨ pawnGeomDown a 6)) ∨
     ((Kings p).testBit a = true ∧ a = 14))

/-- The occupancy with the moving piece removed (`occupation ^= piece`). -/
def occX (sq occ : Nat) : Nat := occ ^^^ shl 1 sq

/-- Subterm of `GenRook`: the blocker candidates upward. -/
def piecesupR (sq occ : Nat) : Nat :=
  shl 0x0101010101010101 sq &&& (occX sq occ ||| 0xFF00000000000000)

/-- Subterm of `GenRook`: the blocker candidates downward. -/
def piecesdoR (sq occ : Nat) : Nat :=
  (0x8080808080808080 >>> (63 - sq)) &&& (occX sq occ ||| 0x00000000000000FF)

/-- Subterm of `GenRook`: the blocker candidates to the right. -/
def piecesriR (sq occ : Nat) : Nat :=
  shl 0x00000000000000FF sq &&& (occX sq occ ||| 0x8080808080808080)

/-- Subterm of `GenRook`: the blocker candidates to the left. -/
def piecesleR (sq occ : Nat) : Nat :=
  (0xFF00000000000000 >>> (63 - sq)) &&& (occX sq occ ||| 0x0101010101010101)

/-- Subterm of `GenRook`: the vertical attack span. -/
def vSpanR (sq occ : Nat) : Nat :=
  (0x8080808080808080 >>> (63 - LSB (piecesupR sq occ))) &&&
    shl 0x0101010101010101 (MSB (piecesdoR sq occ))

/-- Subterm of `GenRook`: the horizontal attack span. -/
def hSpanR (sq occ : Nat) : Nat :=
  (0xFF00000000000000 >>> (63 - LSB (piecesriR sq occ))) &&&
    shl 0x00000000000000FF (MSB (piecesleR sq occ))

/-- Subterm of `GenBishop`: blocker candidates up the rising diagonal. -/
def piecesupB (sq occ : Nat) : Nat :=
  shl 0x8040201008040201 sq &&& (occX sq occ ||| 0xFF80808080808080)

/-- Subterm of `GenBishop`: blocker candidates down the rising diagonal. -/
def piecesdoB (sq occ : Nat) : Nat :=
  (0x8040201008040201 >>> (63 - sq)) &&& (occX sq occ ||| 0x01010101010101FF)

/-- Subterm of `GenBishop`: blocker candidates up the anti diagonal. -/
def piecesleB (sq occ : Nat) : Nat :=
  shl 0x8102040810204081 sq &&& (occX sq occ ||| 0xFF01010101010101)

/-- Subterm of `GenBishop`: blocker candidates down the anti diagonal. -/
def piecesriB (sq occ : Nat) : Nat :=
  (0x8102040810204081 >>> (63 - sq)) &&& (occX sq occ ||| 0x80808080808080FF)

/-- Subterm of `GenBishop`: the rising-diagonal attack span. -/
def dSpanB (sq occ : Nat) : Nat :=
  (0x8040201008040201 >>> (63 - LSB (piecesupB sq occ))) &&&
    shl 0x8040201008040201 (MSB (piecesdoB sq occ))

/-- Subterm of `GenBishop`: the anti-diagonal attack span. -/
def aSpanB (sq occ : Nat) : Nat :=
  (0x8102040810204081 >>> (63 - LSB (piecesleB sq occ))) &&&
    shl 0x8102040810204081 (MSB (piecesriB sq occ))

/-! ### Bit-level toolkit -/

theorem M64_eq : M64 = 2 ^ 64 := rfl

theorem allones_eq : (0xFFFFFFFFFFFFFFFF : Nat) = 2 ^ 64 - 1 := by norm_num

theorem testBit_ge64 {x i : Nat} (hx : x < M64) (hi : 64 ≤ i) : x.testBit i = false :=
  Nat.testBit_lt_two_pow
    (lt_of_lt_of_le hx (Nat.pow_le_pow_right (by norm_num) hi))

theorem shl_lt (x n : Nat) : shl x n < M64 :=
  Nat.mod_lt _ (by unfold M64; positivity)

theorem and_lt64 (x : Nat) {y : Nat} (hy : y < M64) : x &&& y < M64 :=
  Nat.and_lt_two_pow x hy

theorem and_lt64l {x : Nat} (hx : x < M64) (y : Nat) : x &&& y < M64 := by
  rw [Nat.and_comm]; exact Nat.and_lt_two_pow y hx

theorem or_lt64 {x y : Nat} (hx : x < M64) (hy : y < M64) : x ||| y < M64 :=
  Nat.or_lt_two_pow hx hy

theorem xor_lt64 {x y : Nat} (hx : x < M64) (hy : y < M64) : x ^^^ y < M64 :=
  Nat.xor_lt_two_pow hx hy

theorem bnot_lt {x : Nat} (hx : x < M64) : bnot x < M64 :=
  Nat.xor_lt_two_pow hx (by norm_num)

theorem shr_lt {x : Nat} (hx : x < M64) (n : Nat) : x >>> n < M64 := by
  rw [Nat.shiftRight_eq_div_pow]
  exact lt_of_le_of_lt (Nat.div_le_self _ _) hx

theorem testBit_shl (x n i : Nat) :
    (shl x n).testBit i = (decide (i < 64) && (decide (n ≤ i) && x.testBit (i - n))) := by
  rw [shl, M64_eq, Nat.testBit_mod_two_pow, Nat.testBit_shiftLeft]

theorem testBit_bnot (x i : Nat) :
    (bnot x).testBit i = (x.testBit i != decide (i < 64)) := by
  rw [bnot, allones_eq, Nat.testBit_xor, Nat.testBit_two_pow_sub_one]

theorem testBit_bnot_lt (x : Nat) {i : Nat} (hi : i < 64) :
    (bnot x).testBit i = !x.testBit i := by
  simp [testBit_bnot, hi]

theorem testBit_0xFF (j : Nat) : Nat.testBit 0xFF j = decide (j < 8) := by
  have h : (0xFF : Nat) = 2 ^ 8 - 1 := by norm_num
  rw [h, Nat.testBit_two_pow_sub_one]

/-! LSB and MSB characterizations. -/

theorem ctzA_spec : ∀ (f n : Nat), n ≠ 0 → n < 2 ^ f →
    n.testBit (ctzA f n) = true ∧ ∀ j, j < ctzA f n → n.testBit j = false := by
  intro f
  induction f with
  | zero => intro n hn hlt; omega
  | succ f ih =>
    intro n hn hlt
    by_cases hcs : n % 2 = 1 ∨ n = 0
    · have hm : n % 2 = 1 := by omega
      simp [ctzA, hcs, Nat.testBit_zero, hm]
    · have hm : ¬ (n % 2 = 1 ∨ n = 0) := hcs
      have hnd : n / 2 ≠ 0 := by omega
      have hld : n / 2 < 2 ^ f := by
        have : 2 ^ (f + 1) = 2 * 2 ^ f := by ring
        omega
      obtain ⟨h1, h2⟩ := ih (n / 2) hnd hld
      constructor
      · simp only [ctzA, hm, if_false]
        rw [Nat.testBit_add_one]
        exact h1
      · intro j hj
        simp only [ctzA, hm, if_false] at hj
        match j with
        | 0 => simp [Nat.testBit_zero]; omega
        | j + 1 =>
          rw [Nat.testBit_add_one]
          exact h2 j (by omega)

theorem LSB_spec {bb : Nat} (hne : bb ≠ 0) (hlt : bb < M64) :
    bb.testBit (LSB bb) = true ∧ ∀ j, j < LSB bb → bb.testBit j = false :=
  ctzA_spec 64 bb hne hlt

theorem LSB_eq {bb i : Nat} (hlt : bb < M64) (h : bb.testBit i = true)
    (hmin : ∀ j, j < i → bb.testBit j = false) : LSB bb = i := by
  have hne : bb ≠ 0 := by
    intro h0
    rw [h0] at h
    simp at h
  obtain ⟨h1, h2⟩ := LSB_spec hne hlt
  rcases lt_trichotomy (LSB bb) i with hc | hc | hc
  · rw [hmin _ hc] at h1; exact absurd h1 (by simp)
  · exact hc
  · rw [h2 _ hc] at h; exact absurd h (by simp)

theorem msbA_spec : ∀ (f n : Nat), n ≠ 0 → n < 2 ^ f →
    n.testBit (msbA f n) = true ∧ ∀ j, msbA f n < j → n.testBit j = false := by
  intro f
  induction f with
  | zero => intro n hn hlt; omega
  | succ f ih =>
    intro n hn hlt
    by_cases hc : n < 2
    · have h1 : n = 1 := by omega
      subst h1
      constructor
      · simp [msbA, hc]
      · intro j hj
        simp only [msbA, hc, if_true] at hj
        exact Nat.testBit_lt_two_pow (by calc 1 < 2 ^ 1 := by norm_num
                                           _ ≤ 2 ^ j := Nat.pow_le_pow_right (by norm_num) hj)
    · have hnd : n / 2 ≠ 0 := by omega
      have hld : n / 2 < 2 ^ f := by
        have : 2 ^ (f + 1) = 2 * 2 ^ f := by ring
        omega
      obtain ⟨h1, h2⟩ := ih (n / 2) hnd hld
      constructor
      · simp only [msbA, hc, if_false]
        rw [Nat.testBit_add_one]
        exact h1
      · intro j hj
        simp only [msbA, hc, if_false] at hj
        match j with
        | 0 => omega
        | j + 1 =>
          rw [Nat.testBit_add_one]
          exact h2 j (by omega)

theorem MSB_spec {bb : Nat} (hne : bb ≠ 0) (hlt : bb < M64) :
    bb.testBit (MSB bb) = true ∧ ∀ j, MSB bb < j → bb.testBit j = false :=
  msbA_spec 64 bb hne hlt

theorem MSB_eq {bb i : Nat} (hlt : bb < M64) (h : bb.testBit i = true)
    (hmax : ∀ j, i < j → bb.testBit j = false) : MSB bb = i := by
  have hne : bb ≠ 0 := by
    intro h0
    rw [h0] at h
    simp at h
  obtain ⟨h1, h2⟩ := MSB_spec hne hlt
  rcases lt_trichotomy (MSB bb) i with hc | hc | hc
  · rw [h2 _ hc] at h; exact absurd h (by simp)
  · exact hc
  · rw [hmax _ hc] at h1; exact absurd h1 (by simp)

/-! Byte reversal. -/

theorem RevBB_lt (x : Nat) : RevBB x < M64 := by
  rw [M64_eq]
  apply Nat.lt_pow_two_of_testBit
  intro i hi
  have h1 : ∀ (z s : Nat), s ≤ 56 → ((z &&& 0xFF) <<< s).testBit i = false := by
    intro z s hs
    rw [Nat.testBit_shiftLeft, Nat.testBit_and, testBit_0xFF]
    have hh : ¬ (i - s < 8) := by omega
    simp [hh]
  have h2 : ((x >>> 56) &&& 0xFF).testBit i = false := by
    rw [Nat.testBit_and, testBit_0xFF]
    have hh : ¬ (i < 8) := by omega
    simp [hh]
  unfold RevBB
  simp only [Nat.testBit_or, Bool.or_eq_false_iff]
  exact ⟨⟨⟨⟨⟨⟨⟨h1 _ _ (by norm_num), h1 _ _ (by norm_num)⟩, h1 _ _ (by norm_num)⟩,
    h1 _ _ (by norm_num)⟩, h1 _ _ (by norm_num)⟩, h1 _ _ (by norm_num)⟩,
    h1 _ _ (by norm_num)⟩, h2⟩

theorem testBit_RevBB (x : Nat) {i : Nat} (hi : i < 64) :
    (RevBB x).testBit i = x.testBit (8 * (7 - i / 8) + i % 8) := by
  unfold RevBB
  interval_cases i <;>
    simp [Nat.testBit_or, Nat.testBit_shiftLeft, Nat.testBit_and,
      Nat.testBit_shiftRight, testBit_0xFF]

theorem RevBB_RevBB {x : Nat} (hx : x < M64) : RevBB (RevBB x) = x := by
  apply Nat.eq_of_testBit_eq
  intro i
  by_cases hi : i < 64
  · rw [testBit_RevBB _ hi, testBit_RevBB _ (by omega)]
    congr 1
    omega
  · rw [testBit_ge64 (RevBB_lt _) (by omega), testBit_ge64 hx (by omega)]

theorem RevBB_xor (a b : Nat) : RevBB (a ^^^ b) = RevBB a ^^^ RevBB b := by
  apply Nat.eq_of_testBit_eq
  intro i
  by_cases hi : i < 64
  · rw [Nat.testBit_xor, testBit_RevBB _ hi, testBit_RevBB _ hi, testBit_RevBB _ hi,
      Nat.testBit_xor]
  · rw [Nat.testBit_xor, testBit_ge64 (RevBB_lt _) (by omega),
      testBit_ge64 (RevBB_lt _) (by omega), testBit_ge64 (RevBB_lt _) (by omega)]
    rfl

theorem RevBB_or (a b : Nat) : RevBB (a ||| b) = RevBB a ||| RevBB b := by
  apply Nat.eq_of_testBit_eq
  intro i
  by_cases hi : i < 64
  · rw [Nat.testBit_or, testBit_RevBB _ hi, testBit_RevBB _ hi, testBit_RevBB _ hi,
      Nat.testBit_or]
  · rw [Nat.testBit_or, testBit_ge64 (RevBB_lt _) (by omega),
      testBit_ge64 (RevBB_lt _) (by omega), testBit_ge64 (RevBB_lt _) (by omega)]
    rfl

theorem RevBB_and (a b : Nat) : RevBB (a &&& b) = RevBB a &&& RevBB b := by
  apply Nat.eq_of_testBit_eq
  intro i
  by_cases hi : i < 64
  · rw [Nat.testBit_and, testBit_RevBB _ hi, testBit_RevBB _ hi, testBit_RevBB _ hi,
      Nat.testBit_and]
  · rw [Nat.testBit_and, testBit_ge64 (RevBB_lt _) (by omega),
      testBit_ge64 (RevBB_lt _) (by omega), testBit_ge64 (RevBB_lt _) (by omega)]
    rfl

theorem nibble_or_eq {d : Nat} (hd : d < 256) : (d >>> 4) ||| (d <<< 4) = d * 16 + d / 16 := by
  have e1 : d >>> 4 = d / 16 := by rw [Nat.shiftRight_eq_div_pow]
  have e2 : d <<< 4 = d * 16 := by rw [Nat.shiftLeft_eq]
  have h3 : d / 16 < 2 ^ 4 := by omega
  have h4 : 16 * d + d / 16 = 16 * d ||| d / 16 := by
    have h5 := Nat.mul_add_lt_is_or h3 d
    norm_num at h5
    exact h5
  rw [e1, e2, Nat.or_comm, Nat.mul_comm d 16]
  omega

/-! ### Claim C8: the side-to-move flip is an involution -/

theorem nibble_swap_invol {c : Nat} (hc : c < 256) :
    (((((c >>> 4) ||| (c <<< 4)) % 256) >>> 4) ||| ((((c >>> 4) ||| (c <<< 4)) % 256) <<< 4)) % 256
      = c := by
  rw [nibble_or_eq hc, nibble_or_eq (show (c * 16 + c / 16) % 256 < 256 by omega)]
  have h1 : (c * 16 + c / 16) % 256 = 16 * (c % 16) + c / 16 := by omega
  rw [h1]
  have h2 : (16 * (c % 16) + c / 16) / 16 = c % 16 := by omega
  rw [h2]
  omega

/-- C8: the side-to-move flip `ChangeSide` (XOR `PM` with the occupancy,
byte-reverse the four bitboards, nibble-rotate `CastleFlags`, toggle `STM`)
is an involution on well-formed field values: applying it twice restores
every field of the position. -/
theorem changeSide_involution (p : TBoard) (h0 : p.PM < M64) (h1 : p.P0 < M64)
    (h2 : p.P1 < M64) (h3 : p.P2 < M64) (hc : p.CastleFlags < 256) :
    ChangeSide (ChangeSide p) = p := by
  obtain ⟨PM, P0, P1, P2, CF, EPc, STMc⟩ := p
  simp only [Occupation] at h0 h1 h2 h3 hc
  simp only [ChangeSide, Occupation, TBoard.mk.injEq, eq_self_iff_true, and_true, true_and]
  refine ⟨?_, RevBB_RevBB h1, RevBB_RevBB h2, RevBB_RevBB h3, nibble_swap_invol hc, ?_⟩
  · rw [← RevBB_or P0 P1, ← RevBB_or (P0 ||| P1) P2, ← RevBB_xor, Nat.xor_assoc,
      Nat.xor_self, Nat.xor_zero, RevBB_RevBB h0]
  · rw [Nat.xor_assoc, Nat.xor_self, Nat.xor_zero]

/-- Witness for C8 at a concrete position. -/
theorem changeSide_involution_witness :
    ChangeSide (ChangeSide sampleBoard) = sampleBoard :=
  changeSide_involution sampleBoard (by decide) (by decide) (by decide) (by decide) (by decide)

/-! ### Claim C7: make then cursor retreat restores the position -/

/-- C7: with the cursor below the last stack entry, `Make` writes only the
new top snapshot: every entry at or below the old cursor is untouched, and
retreating the cursor by one after `Make` yields a current position
bit-for-bit identical to the one before the move. -/
theorem make_retreat_roundtrip (s : StackState) (m : TMove) (h : s.cursor + 1 < 32) :
    currentS (retreatS (MakeS s m)) = currentS s ∧
    ∀ i, i ≤ s.cursor → (MakeS s m).game i = s.game i := by
  constructor
  · show (MakeS s m).game (s.cursor + 1 - 1) = s.game s.cursor
    simp only [MakeS, Nat.add_sub_cancel]
    rw [if_neg (by omega)]
  · intro i hi
    simp only [MakeS]
    rw [if_neg (by omega)]

/-- Witness for C7 at a concrete stack state and move. -/
theorem make_retreat_roundtrip_witness :
    currentS (retreatS (MakeS sampleStack sampleMove)) = currentS sampleStack ∧
    ∀ i, i ≤ sampleStack.cursor → (MakeS sampleStack sampleMove).game i = sampleStack.game i :=
  make_retreat_roundtrip sampleStack sampleMove (by decide)

/-! ### Claim C6: Perft at depth 0 -/

/-- Counterexample to C6: on the two-king board (which satisfies the
encoding invariants: `PM` inside the occupancy, one king per side),
`Perft` at depth 0 returns the number of legal moves, 3, not 1. -/
theorem perft_depth0_not_one :
    Perft kings2Board 0 = 3 ∧ Perft kings2Board 0 ≠ 1 ∧
    kings2Board.PM &&& Occupation kings2Board = kings2Board.PM ∧
    Kings kings2Board &&& kings2Board.PM = 1 ∧
    Kings kings2Board &&& bnot kings2Board.PM = 0x8000000000000000 := by
  refine ⟨by decide, by decide, by decide, by decide, by decide⟩

/-- C6 amended: `Perft` bottoms out at depth 1 by counting, so depth 0 is
treated exactly like depth 1 and returns the number of legal moves from the
position (not the constant 1). -/
theorem perft_depth0_eq_legal_count (p : TBoard) :
    Perft p 0 = (legalMoves p).length ∧ Perft p 0 = Perft p 1 :=
  ⟨rfl, rfl⟩

/-! ### Constant-mask bit characterizations -/

theorem shl_one {sq : Nat} (hsq : sq < 64) : shl 1 sq = 2 ^ sq := by
  rw [shl, Nat.shiftLeft_eq, one_mul, M64_eq]
  exact Nat.mod_eq_of_lt (Nat.pow_lt_pow_right (by norm_num) hsq)

theorem tb_fileA (j : Nat) :
    Nat.testBit 0x0101010101010101 j = decide (j < 64 ∧ j % 8 = 0) := by
  by_cases hj : j < 64
  · have h := (by decide :
      ∀ jj : Fin 64, Nat.testBit 0x0101010101010101 jj.val = decide (jj.val % 8 = 0))
    have h2 : Nat.testBit 0x0101010101010101 j = decide (j % 8 = 0) := h ⟨j, hj⟩
    rw [h2]
    exact decide_eq_decide.mpr (by omega)
  · rw [testBit_ge64 (by decide) (by omega)]
    have hh : ¬ (j < 64 ∧ j % 8 = 0) := by omega
    simp [hh]

theorem tb_fileH (j : Nat) :
    Nat.testBit 0x8080808080808080 j = decide (j < 64 ∧ j % 8 = 7) := by
  by_cases hj : j < 64
  · have h := (by decide :
      ∀ jj : Fin 64, Nat.testBit 0x8080808080808080 jj.val = decide (jj.val % 8 = 7))
    have h2 : Nat.testBit 0x8080808080808080 j = decide (j % 8 = 7) := h ⟨j, hj⟩
    rw [h2]
    exact decide_eq_decide.mpr (by omega)
  · rw [testBit_ge64 (by decide) (by omega)]
    have hh : ¬ (j < 64 ∧ j % 8 = 7) := by omega
    simp [hh]

theorem tb_rank8 (j : Nat) :
    Nat.testBit 0xFF00000000000000 j = decide (j < 64 ∧ 56 ≤ j) := by
  by_cases hj : j < 64
  · have h := (by decide :
      ∀ jj : Fin 64, Nat.testBit 0xFF00000000000000 jj.val = decide (56 ≤ jj.val))
    have h2 : Nat.testBit 0xFF00000000000000 j = decide (56 ≤ j) := h ⟨j, hj⟩
    rw [h2]
    exact decide_eq_decide.mpr (by omega)
  · rw [testBit_ge64 (by decide) (by omega)]
    have hh : ¬ (j < 64 ∧ 56 ≤ j) := by omega
    simp [hh]

theorem tb_diagM (j : Nat) :
    Nat.testBit 0x8040201008040201 j = decide (j < 64 ∧ j % 9 = 0) := by
  by_cases hj : j < 64
  · have h := (by decide :
      ∀ jj : Fin 64, Nat.testBit 0x8040201008040201 jj.val = decide (jj.val % 9 = 0))
    have h2 : Nat.testBit 0x8040201008040201 j = decide (j % 9 = 0) := h ⟨j, hj⟩
    rw [h2]
    exact decide_eq_decide.mpr (by omega)
  · rw [testBit_ge64 (by decide) (by omega)]
    have hh : ¬ (j < 64 ∧ j % 9 = 0) := by omega
    simp [hh]

theorem tb_antiM (j : Nat) :
    Nat.testBit 0x8102040810204081 j = decide (j < 64 ∧ j % 7 = 0) := by
  by_cases hj : j < 64
  · have h := (by decide :
      ∀ jj : Fin 64, Nat.testBit 0x8102040810204081 jj.val = decide (jj.val % 7 = 0))
    have h2 : Nat.testBit 0x8102040810204081 j = decide (j % 7 = 0) := h ⟨j, hj⟩
    rw [h2]
    exact decide_eq_decide.mpr (by omega)
  · rw [testBit_ge64 (by decide) (by omega)]
    have hh : ¬ (j < 64 ∧ j % 7 = 0) := by omega
    simp [hh]

theorem tb_edgeDup (j : Nat) :
    Nat.testBit 0xFF80808080808080 j = decide (j < 64 ∧ (56 ≤ j ∨ j % 8 = 7)) := by
  by_cases hj : j < 64
  · have h := (by decide :
      ∀ jj : Fin 64, Nat.testBit 0xFF80808080808080 jj.val = decide (56 ≤ jj.val ∨ jj.val % 8 = 7))
    have h2 : Nat.testBit 0xFF80808080808080 j = decide (56 ≤ j ∨ j % 8 = 7) := h ⟨j, hj⟩
    rw [h2]
    exact decide_eq_decide.mpr (by omega)
  · rw [testBit_ge64 (by decide) (by omega)]
    have hh : ¬ (j < 64 ∧ (56 ≤ j ∨ j % 8 = 7)) := by omega
    simp [hh]

theorem tb_edgeDdo (j : Nat) :
    Nat.testBit 0x01010101010101FF j = decide (j < 64 ∧ (j < 8 ∨ j % 8 = 0)) := by
  by_cases hj : j < 64
  · have h := (by decide :
      ∀ jj : Fin 64, Nat.testBit 0x01010101010101FF jj.val = decide (jj.val < 8 ∨ jj.val % 8 = 0))
    have h2 : Nat.testBit 0x01010101010101FF j = decide (j < 8 ∨ j % 8 = 0) := h ⟨j, hj⟩
    rw [h2]
    exact decide_eq_decide.mpr (by omega)
  · rw [testBit_ge64 (by decide) (by omega)]
    have hh : ¬ (j < 64 ∧ (j < 8 ∨ j % 8 = 0)) := by omega
    simp [hh]

theorem tb_edgeAup (j : Nat) :
    Nat.testBit 0xFF01010101010101 j = decide (j < 64 ∧ (56 ≤ j ∨ j % 8 = 0)) := by
  by_cases hj : j < 64
  · have h := (by decide :
      ∀ jj : Fin 64, Nat.testBit 0xFF01010101010101 jj.val = decide (56 ≤ jj.val ∨ jj.val % 8 = 0))
    have h2 : Nat.testBit 0xFF01010101010101 j = decide (56 ≤ j ∨ j % 8 = 0) := h ⟨j, hj⟩
    rw [h2]
    exact decide_eq_decide.mpr (by omega)
  · rw [testBit_ge64 (by decide) (by omega)]
    have hh : ¬ (j < 64 ∧ (56 ≤ j ∨ j % 8 = 0)) := by omega
    simp [hh]

theorem tb_edgeAdo (j : Nat) :
    Nat.testBit 0x80808080808080FF j = decide (j < 64 ∧ (j < 8 ∨ j % 8 = 7)) := by
  by_cases hj : j < 64
  · have h := (by decide :
      ∀ jj : Fin 64, Nat.testBit 0x80808080808080FF jj.val = decide (jj.val < 8 ∨ jj.val % 8 = 7))
    have h2 : Nat.testBit 0x80808080808080FF j = decide (j < 8 ∨ j % 8 = 7) := h ⟨j, hj⟩
    rw [h2]
    exact decide_eq_decide.mpr (by omega)
  · rw [testBit_ge64 (by decide) (by omega)]
    have hh : ¬ (j < 64 ∧ (j < 8 ∨ j % 8 = 7)) := by omega
    simp [hh]

/-! ### Shifted ray-mask characterizations -/

theorem maskUpFile (sq x : Nat) :
    (shl 0x0101010101010101 sq).testBit x
      = decide (x < 64 ∧ sq ≤ x ∧ (x - sq) % 8 = 0) := by
  rw [testBit_shl, tb_fileA]
  cases hd : decide (x < 64) <;> cases hd2 : decide (sq ≤ x) <;>
    simp_all <;> omega

theorem maskDoFile {sq : Nat} (hsq : sq < 64) (x : Nat) :
    ((0x8080808080808080 : Nat) >>> (63 - sq)).testBit x
      = decide (x ≤ sq ∧ (sq - x) % 8 = 0) := by
  rw [Nat.testBit_shiftRight, tb_fileH]
  exact decide_eq_decide.mpr (by omega)

theorem maskRiRank (sq x : Nat) :
    (shl 0x00000000000000FF sq).testBit x
      = decide (x < 64 ∧ sq ≤ x ∧ x - sq < 8) := by
  rw [testBit_shl, testBit_0xFF]
  cases hd : decide (x < 64) <;> cases hd2 : decide (sq ≤ x) <;>
    simp_all <;> omega

theorem maskLeRank {sq : Nat} (hsq : sq < 64) (x : Nat) :
    ((0xFF00000000000000 : Nat) >>> (63 - sq)).testBit x
      = decide (x ≤ sq ∧ sq - x < 8) := by
  rw [Nat.testBit_shiftRight, tb_rank8]
  exact decide_eq_decide.mpr (by omega)

theorem maskUpDiag (sq x : Nat) :
    (shl 0x8040201008040201 sq).testBit x
      = decide (x < 64 ∧ sq ≤ x ∧ (x - sq) % 9 = 0) := by
  rw [testBit_shl, tb_diagM]
  cases hd : decide (x < 64) <;> cases hd2 : decide (sq ≤ x) <;>
    simp_all <;> omega

theorem maskDoDiag {sq : Nat} (hsq : sq < 64) (x : Nat) :
    ((0x8040201008040201 : Nat) >>> (63 - sq)).testBit x
      = decide (x ≤ sq ∧ (sq - x) % 9 = 0) := by
  rw [Nat.testBit_shiftRight, tb_diagM]
  exact decide_eq_decide.mpr (by omega)

theorem maskUpAnti (sq x : Nat) :
    (shl 0x8102040810204081 sq).testBit x
      = decide (x < 64 ∧ sq ≤ x ∧ (x - sq) % 7 = 0) := by
  rw [testBit_shl, tb_antiM]
  cases hd : decide (x < 64) <;> cases hd2 : decide (sq ≤ x) <;>
    simp_all <;> omega

theorem maskDoAnti {sq : Nat} (hsq : sq < 64) (x : Nat) :
    ((0x8102040810204081 : Nat) >>> (63 - sq)).testBit x
      = decide (x ≤ sq ∧ (sq - x) % 7 = 0) := by
  rw [Nat.testBit_shiftRight, tb_antiM]
  exact decide_eq_decide.mpr (by omega)

/-! ### Blocker-set membership and span characterizations -/

theorem xor_bit_mem {occ sq y : Nat} (hb : occ.testBit sq = true) :
    (occ.testBit y ≠ (2 ^ sq).testBit y) ↔ (y ≠ sq ∧ occ.testBit y = true) := by
  rw [Nat.testBit_two_pow]
  by_cases h1 : sq = y
  · subst h1
    simp [hb]
  · have h2 : decide (sq = y) = false := by simp [h1]
    rw [h2]
    constructor
    · intro h
      exact ⟨fun hc => h1 hc.symm, by revert h; cases occ.testBit y <;> simp⟩
    · intro h
      rw [h.2]
      simp

theorem LSB_of_iff {bb : Nat} {P : Nat → Prop} (hbb : bb < M64)
    (hchar : ∀ y, bb.testBit y = true ↔ P y) {t : Nat} (ht : P t) :
    P (LSB bb) ∧ LSB bb ≤ t ∧ ∀ j, j < LSB bb → ¬ P j := by
  have hne : bb ≠ 0 := by
    intro h0
    have hbt := (hchar t).mpr ht
    rw [h0] at hbt
    simp at hbt
  obtain ⟨h1, h2⟩ := LSB_spec hne hbb
  refine ⟨(hchar _).mp h1, ?_, ?_⟩
  · by_contra hc
    push_neg at hc
    have hbt := (hchar t).mpr ht
    rw [h2 t hc] at hbt
    exact absurd hbt (by simp)
  · intro j hj hPj
    have hbt := (hchar j).mpr hPj
    rw [h2 j hj] at hbt
    exact absurd hbt (by simp)

theorem MSB_of_iff {bb : Nat} {P : Nat → Prop} (hbb : bb < M64)
    (hchar : ∀ y, bb.testBit y = true ↔ P y) {t : Nat} (ht : P t) :
    P (MSB bb) ∧ t ≤ MSB bb ∧ ∀ j, MSB bb < j → ¬ P j := by
  have hne : bb ≠ 0 := by
    intro h0
    have hbt := (hchar t).mpr ht
    rw [h0] at hbt
    simp at hbt
  obtain ⟨h1, h2⟩ := MSB_spec hne hbb
  refine ⟨(hchar _).mp h1, ?_, ?_⟩
  · by_contra hc
    push_neg at hc
    have hbt := (hchar t).mpr ht
    rw [h2 t hc] at hbt
    exact absurd hbt (by simp)
  · intro j hj hPj
    have hbt := (hchar j).mpr hPj
    rw [h2 j hj] at hbt
    exact absurd hbt (by simp)

theorem piecesupR_mem {sq occ : Nat} (hsq : sq < 64) (hb : occ.testBit sq = true) (y : Nat) :
    (piecesupR sq occ).testBit y = true ↔
      (y < 64 ∧ sq ≤ y ∧ (y - sq) % 8 = 0 ∧ (56 ≤ y ∨ (y ≠ sq ∧ occ.testBit y = true))) := by
  rw [piecesupR, Nat.testBit_and, Nat.testBit_or, occX, shl_one hsq, Nat.testBit_xor,
    maskUpFile, tb_rank8]
  simp only [Bool.and_eq_true, Bool.or_eq_true, decide_eq_true_eq, Bool.xor_iff_ne]
  rw [xor_bit_mem hb]
  constructor
  · rintro ⟨⟨h1, h2, h3⟩, h4 | h4⟩
    · exact ⟨h1, h2, h3, Or.inr h4⟩
    · exact ⟨h1, h2, h3, Or.inl h4.2⟩
  · rintro ⟨h1, h2, h3, h4 | h4⟩
    · exact ⟨⟨h1, h2, h3⟩, Or.inr ⟨h1, h4⟩⟩
    · exact ⟨⟨h1, h2, h3⟩, Or.inl h4⟩

theorem piecesdoR_mem {sq occ : Nat} (hsq : sq < 64) (hb : occ.testBit sq = true) (y : Nat) :
    (piecesdoR sq occ).testBit y = true ↔
      (y ≤ sq ∧ (sq - y) % 8 = 0 ∧ (y < 8 ∨ (y ≠ sq ∧ occ.testBit y = true))) := by
  rw [piecesdoR, Nat.testBit_and, Nat.testBit_or, occX, shl_one hsq, Nat.testBit_xor,
    maskDoFile hsq, testBit_0xFF]
  simp only [Bool.and_eq_true, Bool.or_eq_true, decide_eq_true_eq, Bool.xor_iff_ne]
  rw [xor_bit_mem hb]
  constructor
  · rintro ⟨⟨h1, h2⟩, h4 | h4⟩
    · exact ⟨h1, h2, Or.inr h4⟩
    · exact ⟨h1, h2, Or.inl h4⟩
  · rintro ⟨h1, h2, h4 | h4⟩
    · exact ⟨⟨h1, h2⟩, Or.inr h4⟩
    · exact ⟨⟨h1, h2⟩, Or.inl h4⟩

theorem piecesupR_lt (sq occ : Nat) : piecesupR sq occ < M64 := and_lt64l (shl_lt _ _) _

theorem piecesdoR_lt {occ : Nat} (hocc : occ < M64) (sq : Nat) : piecesdoR sq occ < M64 := by
  refine and_lt64 _ (or_lt64 (xor_lt64 hocc (shl_lt _ _)) (by decide))

/-- Characterization of the vertical rook span: exactly the squares of
sq's file from which no occupied square strictly intervenes toward sq. -/
theorem vSpanR_mem {sq occ : Nat} (hsq : sq < 64) (hocc : occ < M64)
    (hb : occ.testBit sq = true) (x : Nat) :
    (vSpanR sq occ).testBit x = true ↔
      (x < 64 ∧ x % 8 = sq % 8 ∧
        ∀ y, y % 8 = sq % 8 → min sq x < y → y < max sq x → occ.testBit y = false) := by
  have htop : (sq % 8 + 56 < 64 ∧ sq ≤ sq % 8 + 56 ∧ (sq % 8 + 56 - sq) % 8 = 0 ∧
      (56 ≤ sq % 8 + 56 ∨ (sq % 8 + 56 ≠ sq ∧ occ.testBit (sq % 8 + 56) = true))) := by
    refine ⟨by omega, by omega, by omega, Or.inl (by omega)⟩
  have hbot : (sq % 8 ≤ sq ∧ (sq - sq % 8) % 8 = 0 ∧
      (sq % 8 < 8 ∨ (sq % 8 ≠ sq ∧ occ.testBit (sq % 8) = true))) := by
    refine ⟨by omega, by omega, Or.inl (by omega)⟩
  obtain ⟨hPu, hule, humin⟩ :=
    LSB_of_iff (piecesupR_lt sq occ) (piecesupR_mem hsq hb) htop
  obtain ⟨hPd, hdge, hdmax⟩ :=
    MSB_of_iff (piecesdoR_lt hocc sq) (piecesdoR_mem hsq hb) hbot
  set u := LSB (piecesupR sq occ) with hu
  set d := MSB (piecesdoR sq occ) with hd
  obtain ⟨hu1, hu2, hu3, hu4⟩ := hPu
  obtain ⟨hd1, hd2, hd4⟩ := hPd
  rw [vSpanR, Nat.testBit_and, ← hu, ← hd, maskDoFile hu1, maskUpFile]
  simp only [Bool.and_eq_true, decide_eq_true_eq]
  constructor
  · rintro ⟨⟨hx1, hx2⟩, hx3, hx4, hx5⟩
    refine ⟨hx3, by omega, ?_⟩
    intro y hy1 hy2 hy3
    by_contra hyc
    have hyb : occ.testBit y = true := by
      revert hyc
      cases occ.testBit y <;> simp
    rcases le_or_lt sq x with hxs | hxs
    · -- y strictly between sq and x, with sq ≤ y is a blocker above
      have hsy : sq < y := by omega
      have hyx : y < x := by omega
      exact humin y (by omega) ⟨by omega, by omega, by omega, Or.inr ⟨by omega, hyb⟩⟩
    · -- y strictly between x and sq is a blocker below
      exact hdmax y (by omega) ⟨by omega, by omega, Or.inr ⟨by omega, hyb⟩⟩
  · rintro ⟨hx1, hx2, hfree⟩
    have hxu : x ≤ u := by
      rcases le_or_lt x sq with hxs | hxs
      · omega
      · by_contra hc
        push_neg at hc
        have husq : sq < u := by
          rcases Nat.lt_or_ge sq u with h | h
          · exact h
          · have : u = sq := by omega
            rw [this] at hu4
            rcases hu4 with h56 | hne
            · omega
            · exact absurd rfl hne.1
        have hofree : occ.testBit u = false := hfree u (by omega) (by omega) (by omega)
        rcases hu4 with h56 | hne
        · omega
        · rw [hofree] at hne
          exact absurd hne.2 (by simp)
    have hdx : d ≤ x := by
      rcases le_or_lt sq x with hxs | hxs
      · omega
      · by_contra hc
        push_neg at hc
        have hdsq : d < sq := by
          rcases Nat.lt_or_ge d sq with h | h
          · exact h
          · have : d = sq := by omega
            rw [this] at hd4
            rcases hd4 with h8 | hne
            · omega
            · exact absurd rfl hne.1
        have hofree : occ.testBit d = false := hfree d (by omega) (by omega) (by omega)
        rcases hd4 with h8 | hne
        · omega
        · rw [hofree] at hne
          exact absurd hne.2 (by simp)
    exact ⟨⟨hxu, by omega⟩, hx1, hdx, by omega⟩

theorem piecesriR_mem {sq occ : Nat} (hsq : sq < 64) (hb : occ.testBit sq = true) (y : Nat) :
    (piecesriR sq occ).testBit y = true ↔
      (y < 64 ∧ sq ≤ y ∧ y - sq < 8 ∧ (y % 8 = 7 ∨ (y ≠ sq ∧ occ.testBit y = true))) := by
  rw [piecesriR, Nat.testBit_and, Nat.testBit_or, occX, shl_one hsq, Nat.testBit_xor,
    maskRiRank, tb_fileH]
  simp only [Bool.and_eq_true, Bool.or_eq_true, decide_eq_true_eq, Bool.xor_iff_ne]
  rw [xor_bit_mem hb]
  constructor
  · rintro ⟨⟨h1, h2, h3⟩, h4 | h4⟩
    · exact ⟨h1, h2, h3, Or.inr h4⟩
    · exact ⟨h1, h2, h3, Or.inl h4.2⟩
  · rintro ⟨h1, h2, h3, h4 | h4⟩
    · exact ⟨⟨h1, h2, h3⟩, Or.inr ⟨h1, h4⟩⟩
    · exact ⟨⟨h1, h2, h3⟩, Or.inl h4⟩

theorem piecesleR_mem {sq occ : Nat} (hsq : sq < 64) (hb : occ.testBit sq = true) (y : Nat) :
    (piecesleR sq occ).testBit y = true ↔
      (y ≤ sq ∧ sq - y < 8 ∧ (y % 8 = 0 ∨ (y ≠ sq ∧ occ.testBit y = true))) := by
  rw [piecesleR, Nat.testBit_and, Nat.testBit_or, occX, shl_one hsq, Nat.testBit_xor,
    maskLeRank hsq, tb_fileA]
  simp only [Bool.and_eq_true, Bool.or_eq_true, decide_eq_true_eq, Bool.xor_iff_ne]
  rw [xor_bit_mem hb]
  constructor
  · rintro ⟨⟨h1, h2⟩, h4 | h4⟩
    · exact ⟨h1, h2, Or.inr h4⟩
    · exact ⟨h1, h2, Or.inl h4.2⟩
  · rintro ⟨h1, h2, h4 | h4⟩
    · exact ⟨⟨h1, h2⟩, Or.inr ⟨by omega, h4⟩⟩
    · exact ⟨⟨h1, h2⟩, Or.inl h4⟩

theorem piecesriR_lt (sq occ : Nat) : piecesriR sq occ < M64 := and_lt64l (shl_lt _ _) _

theorem piecesleR_lt {occ : Nat} (hocc : occ < M64) (sq : Nat) : piecesleR sq occ < M64 :=
  and_lt64 _ (or_lt64 (xor_lt64 hocc (shl_lt _ _)) (by decide))

/-- Characterization of the horizontal rook span. -/
theorem hSpanR_mem {sq occ : Nat} (hsq : sq < 64) (hocc : occ < M64)
    (hb : occ.testBit sq = true) (x : Nat) :
    (hSpanR sq occ).testBit x = true ↔
      (x < 64 ∧ x / 8 = sq / 8 ∧
        ∀ y, y / 8 = sq / 8 → min sq x < y → y < max sq x → occ.testBit y = false) := by
  have hend : (8 * (sq / 8) + 7 < 64 ∧ sq ≤ 8 * (sq / 8) + 7 ∧ 8 * (sq / 8) + 7 - sq < 8 ∧
      ((8 * (sq / 8) + 7) % 8 = 7 ∨ (8 * (sq / 8) + 7 ≠ sq ∧
        occ.testBit (8 * (sq / 8) + 7) = true))) := by
    refine ⟨by omega, by omega, by omega, Or.inl (by omega)⟩
  have hstart : (8 * (sq / 8) ≤ sq ∧ sq - 8 * (sq / 8) < 8 ∧
      ((8 * (sq / 8)) % 8 = 0 ∨ (8 * (sq / 8) ≠ sq ∧ occ.testBit (8 * (sq / 8)) = true))) := by
    refine ⟨by omega, by omega, Or.inl (by omega)⟩
  obtain ⟨hPu, hule, humin⟩ :=
    LSB_of_iff (piecesriR_lt sq occ) (piecesriR_mem hsq hb) hend
  obtain ⟨hPd, hdge, hdmax⟩ :=
    MSB_of_iff (piecesleR_lt hocc sq) (piecesleR_mem hsq hb) hstart
  set u := LSB (piecesriR sq occ) with hu
  set d := MSB (piecesleR sq occ) with hd
  obtain ⟨hu1, hu2, hu3, hu4⟩ := hPu
  obtain ⟨hd1, hd2, hd4⟩ := hPd
  rw [hSpanR, Nat.testBit_and, ← hu, ← hd, maskLeRank hu1, maskRiRank]
  simp only [Bool.and_eq_true, decide_eq_true_eq]
  constructor
  · rintro ⟨⟨hx1, hx2⟩, hx3, hx4, hx5⟩
    refine ⟨hx3, by omega, ?_⟩
    intro y hy1 hy2 hy3
    by_contra hyc
    have hyb : occ.testBit y = true := by
      revert hyc
      cases occ.testBit y <;> simp
    rcases le_or_lt sq x with hxs | hxs
    · exact humin y (by omega) ⟨by omega, by omega, by omega, Or.inr ⟨by omega, hyb⟩⟩
    · exact hdmax y (by omega) ⟨by omega, by omega, Or.inr ⟨by omega, hyb⟩⟩
  · rintro ⟨hx1, hx2, hfree⟩
    have hxu : x ≤ u := by
      rcases le_or_lt x sq with hxs | hxs
      · omega
      · by_contra hc
        push_neg at hc
        have husq : sq < u := by
          rcases Nat.lt_or_ge sq u with h | h
          · exact h
          · have he : u = sq := by omega
            rw [he] at hu4
            rcases hu4 with h7 | hne
            · omega
            · exact absurd rfl hne.1
        have hofree : occ.testBit u = false := hfree u (by omega) (by omega) (by omega)
        rcases hu4 with h7 | hne
        · omega
        · rw [hofree] at hne
          exact absurd hne.2 (by simp)
    have hdx : d ≤ x := by
      rcases le_or_lt sq x with hxs | hxs
      · omega
      · by_contra hc
        push_neg at hc
        have hdsq : d < sq := by
          rcases Nat.lt_or_ge d sq with h | h
          · exact h
          · have he : d = sq := by omega
            rw [he] at hd4
            rcases hd4 with h0 | hne
            · omega
            · exact absurd rfl hne.1
        have hofree : occ.testBit d = false := hfree d (by omega) (by omega) (by omega)
        rcases hd4 with h0 | hne
        · omega
        · rw [hofree] at hne
          exact absurd hne.2 (by simp)
    exact ⟨⟨hxu, by omega⟩, hx1, hdx, by omega⟩

/-- Full bit-level correctness of `GenRook` against the spec-level ray
attack predicate (for occupancies containing the origin square). -/
theorem genRook_testBit {sq occ : Nat} (hsq : sq < 64) (hocc : occ < M64)
    (hb : occ.testBit sq = true) (x : Nat) :
    (GenRook sq occ).testBit x = true ↔ rookAttacked sq occ x := by
  have hGen : GenRook sq occ = (vSpanR sq occ ||| hSpanR sq occ) ^^^ shl 1 sq := rfl
  rw [hGen, Nat.testBit_xor, shl_one hsq, Nat.testBit_two_pow, Nat.testBit_or]
  by_cases hxsq : x = sq
  · subst hxsq
    have hv : (vSpanR x occ).testBit x = true := by
      rw [vSpanR_mem hsq hocc hb]
      exact ⟨hsq, rfl, fun y hy1 hy2 hy3 => by omega⟩
    rw [hv]
    constructor
    · intro h
      simp at h
    · intro h
      exact absurd rfl h.2.1
  · have hne : decide (sq = x) = false := by
      simp
      omega
    rw [hne]
    simp only [Bool.xor_false, Bool.or_eq_true]
    rw [vSpanR_mem hsq hocc hb, hSpanR_mem hsq hocc hb]
    unfold rookAttacked rookBetween sameFile sameRank
    constructor
    · rintro (⟨h1, h2, h3⟩ | ⟨h1, h2, h3⟩)
      · refine ⟨h1, hxsq, Or.inl (by omega), ?_⟩
        rintro y hy1 (⟨a1, a2, a3, a4⟩ | ⟨b1, b2, b3, b4⟩)
        · exact h3 y (by omega) a3 a4
        · exact absurd (show x = sq by omega) hxsq
      · refine ⟨h1, hxsq, Or.inr (by omega), ?_⟩
        rintro y hy1 (⟨a1, a2, a3, a4⟩ | ⟨b1, b2, b3, b4⟩)
        · exact absurd (show x = sq by omega) hxsq
        · exact h3 y (by omega) b3 b4
    · rintro ⟨h1, h2, h3 | h3, h4⟩
      · refine Or.inl ⟨h1, by omega, ?_⟩
        intro y hy1 hy2 hy3
        exact h4 y (by omega) (Or.inl ⟨h3, by omega, hy2, hy3⟩)
      · refine Or.inr ⟨h1, by omega, ?_⟩
        intro y hy1 hy2 hy3
        exact h4 y (by omega) (Or.inr ⟨h3, by omega, hy2, hy3⟩)

theorem piecesupB_mem {sq occ : Nat} (hsq : sq < 64) (hb : occ.testBit sq = true) (y : Nat) :
    (piecesupB sq occ).testBit y = true ↔
      (y < 64 ∧ sq ≤ y ∧ (y - sq) % 9 = 0 ∧
        ((56 ≤ y ∨ y % 8 = 7) ∨ (y ≠ sq ∧ occ.testBit y = true))) := by
  rw [piecesupB, Nat.testBit_and, Nat.testBit_or, occX, shl_one hsq, Nat.testBit_xor,
    maskUpDiag, tb_edgeDup]
  simp only [Bool.and_eq_true, Bool.or_eq_true, decide_eq_true_eq, Bool.xor_iff_ne]
  rw [xor_bit_mem hb]
  constructor
  · rintro ⟨⟨h1, h2, h3⟩, h4 | h4⟩
    · exact ⟨h1, h2, h3, Or.inr h4⟩
    · exact ⟨h1, h2, h3, Or.inl h4.2⟩
  · rintro ⟨h1, h2, h3, h4 | h4⟩
    · exact ⟨⟨h1, h2, h3⟩, Or.inr ⟨h1, h4⟩⟩
    · exact ⟨⟨h1, h2, h3⟩, Or.inl h4⟩

theorem piecesdoB_mem {sq occ : Nat} (hsq : sq < 64) (hb : occ.testBit sq = true) (y : Nat) :
    (piecesdoB sq occ).testBit y = true ↔
      (y ≤ sq ∧ (sq - y) % 9 = 0 ∧
        ((y < 8 ∨ y % 8 = 0) ∨ (y ≠ sq ∧ occ.testBit y = true))) := by
  rw [piecesdoB, Nat.testBit_and, Nat.testBit_or, occX, shl_one hsq, Nat.testBit_xor,
    maskDoDiag hsq, tb_edgeDdo]
  simp only [Bool.and_eq_true, Bool.or_eq_true, decide_eq_true_eq, Bool.xor_iff_ne]
  rw [xor_bit_mem hb]
  constructor
  · rintro ⟨⟨h1, h2⟩, h4 | h4⟩
    · exact ⟨h1, h2, Or.inr h4⟩
    · exact ⟨h1, h2, Or.inl h4.2⟩
  · rintro ⟨h1, h2, h4 | h4⟩
    · exact ⟨⟨h1, h2⟩, Or.inr ⟨by omega, h4⟩⟩
    · exact ⟨⟨h1, h2⟩, Or.inl h4⟩

theorem piecesleB_mem {sq occ : Nat} (hsq : sq < 64) (hb : occ.testBit sq = true) (y : Nat) :
    (piecesleB sq occ).testBit y = true ↔
      (y < 64 ∧ sq ≤ y ∧ (y - sq) % 7 = 0 ∧
        ((56 ≤ y ∨ y % 8 = 0) ∨ (y ≠ sq ∧ occ.testBit y = true))) := by
  rw [piecesleB, Nat.testBit_and, Nat.testBit_or, occX, shl_one hsq, Nat.testBit_xor,
    maskUpAnti, tb_edgeAup]
  simp only [Bool.and_eq_true, Bool.or_eq_true, decide_eq_true_eq, Bool.xor_iff_ne]
  rw [xor_bit_mem hb]
  constructor
  · rintro ⟨⟨h1, h2, h3⟩, h4 | h4⟩
    · exact ⟨h1, h2, h3, Or.inr h4⟩
    · exact ⟨h1, h2, h3, Or.inl h4.2⟩
  · rintro ⟨h1, h2, h3, h4 | h4⟩
    · exact ⟨⟨h1, h2, h3⟩, Or.inr ⟨h1, h4⟩⟩
    · exact ⟨⟨h1, h2, h3⟩, Or.inl h4⟩

theorem piecesriB_mem {sq occ : Nat} (hsq : sq < 64) (hb : occ.testBit sq = true) (y : Nat) :
    (piecesriB sq occ).testBit y = true ↔
      (y ≤ sq ∧ (sq - y) % 7 = 0 ∧
        ((y < 8 ∨ y % 8 = 7) ∨ (y ≠ sq ∧ occ.testBit y = true))) := by
  rw [piecesriB, Nat.testBit_and, Nat.testBit_or, occX, shl_one hsq, Nat.testBit_xor,
    maskDoAnti hsq, tb_edgeAdo]
  simp only [Bool.and_eq_true, Bool.or_eq_true, decide_eq_true_eq, Bool.xor_iff_ne]
  rw [xor_bit_mem hb]
  constructor
  · rintro ⟨⟨h1, h2⟩, h4 | h4⟩
    · exact ⟨h1, h2, Or.inr h4⟩
    · exact ⟨h1, h2, Or.inl h4.2⟩
  · rintro ⟨h1, h2, h4 | h4⟩
    · exact ⟨⟨h1, h2⟩, Or.inr ⟨by omega, h4⟩⟩
    · exact ⟨⟨h1, h2⟩, Or.inl h4⟩

theorem piecesupB_lt (sq occ : Nat) : piecesupB sq occ < M64 := and_lt64l (shl_lt _ _) _

theorem piecesdoB_lt {occ : Nat} (hocc : occ < M64) (sq : Nat) : piecesdoB sq occ < M64 :=
  and_lt64 _ (or_lt64 (xor_lt64 hocc (shl_lt _ _)) (by decide))

theorem piecesleB_lt (sq occ : Nat) : piecesleB sq occ < M64 := and_lt64l (shl_lt _ _) _

theorem piecesriB_lt {occ : Nat} (hocc : occ < M64) (sq : Nat) : piecesriB sq occ < M64 :=
  and_lt64 _ (or_lt64 (xor_lt64 hocc (shl_lt _ _)) (by decide))

/-- Characterization of the rising-diagonal bishop span. -/
theorem dSpanB_mem {sq occ : Nat} (hsq : sq < 64) (hocc : occ < M64)
    (hb : occ.testBit sq = true) (x : Nat) :
    (dSpanB sq occ).testBit x = true ↔
      (x < 64 ∧ x % 8 + sq / 8 = sq % 8 + x / 8 ∧
        ∀ y, y % 8 + sq / 8 = sq % 8 + y / 8 → min sq x < y → y < max sq x →
          occ.testBit y = false) := by
  have htop : (sq + 9 * min (7 - sq % 8) (7 - sq / 8) < 64 ∧
      sq ≤ sq + 9 * min (7 - sq % 8) (7 - sq / 8) ∧
      (sq + 9 * min (7 - sq % 8) (7 - sq / 8) - sq) % 9 = 0 ∧
      ((56 ≤ sq + 9 * min (7 - sq % 8) (7 - sq / 8) ∨
        (sq + 9 * min (7 - sq % 8) (7 - sq / 8)) % 8 = 7) ∨
       (sq + 9 * min (7 - sq % 8) (7 - sq / 8) ≠ sq ∧
        occ.testBit (sq + 9 * min (7 - sq % 8) (7 - sq / 8)) = true))) := by
    refine ⟨by omega, by omega, by omega, Or.inl (by omega)⟩
  have hbot : (sq - 9 * min (sq % 8) (sq / 8) ≤ sq ∧
      (sq - (sq - 9 * min (sq % 8) (sq / 8))) % 9 = 0 ∧
      ((sq - 9 * min (sq % 8) (sq / 8) < 8 ∨ (sq - 9 * min (sq % 8) (sq / 8)) % 8 = 0) ∨
       (sq - 9 * min (sq % 8) (sq / 8) ≠ sq ∧
        occ.testBit (sq - 9 * min (sq % 8) (sq / 8)) = true))) := by
    refine ⟨by omega, by omega, Or.inl (by omega)⟩
  obtain ⟨hPu, hule, humin⟩ :=
    LSB_of_iff (piecesupB_lt sq occ) (piecesupB_mem hsq hb) htop
  obtain ⟨hPd, hdge, hdmax⟩ :=
    MSB_of_iff (piecesdoB_lt hocc sq) (piecesdoB_mem hsq hb) hbot
  set u := LSB (piecesupB sq occ) with hu
  set d := MSB (piecesdoB sq occ) with hd
  obtain ⟨hu1, hu2, hu3, hu4⟩ := hPu
  obtain ⟨hd1, hd2, hd4⟩ := hPd
  have hudiag : u % 8 + sq / 8 = sq % 8 + u / 8 := by omega
  have hddiag : d % 8 + sq / 8 = sq % 8 + d / 8 := by omega
  rw [dSpanB, Nat.testBit_and, ← hu, ← hd, maskDoDiag hu1, maskUpDiag]
  simp only [Bool.and_eq_true, decide_eq_true_eq]
  constructor
  · rintro ⟨⟨hx1, hx2⟩, hx3, hx4, hx5⟩
    refine ⟨hx3, by omega, ?_⟩
    intro y hy1 hy2 hy3
    by_contra hyc
    have hyb : occ.testBit y = true := by
      revert hyc
      cases occ.testBit y <;> simp
    rcases le_or_lt sq x with hxs | hxs
    · exact humin y (by omega) ⟨by omega, by omega, by omega, Or.inr ⟨by omega, hyb⟩⟩
    · exact hdmax y (by omega) ⟨by omega, by omega, Or.inr ⟨by omega, hyb⟩⟩
  · rintro ⟨hx1, hx2, hfree⟩
    have hxu : x ≤ u := by
      rcases le_or_lt x sq with hxs | hxs
      · omega
      · by_contra hc
        push_neg at hc
        have husq : sq < u := by
          rcases Nat.lt_or_ge sq u with h | h
          · exact h
          · have he : u = sq := by omega
            rw [he] at hu4
            rcases hu4 with h7 | hne
            · omega
            · exact absurd rfl hne.1
        have hofree : occ.testBit u = false := hfree u (by omega) (by omega) (by omega)
        rcases hu4 with h7 | hne
        · omega
        · rw [hofree] at hne
          exact absurd hne.2 (by simp)
    have hdx : d ≤ x := by
      rcases le_or_lt sq x with hxs | hxs
      · omega
      · by_contra hc
        push_neg at hc
        have hdsq : d < sq := by
          rcases Nat.lt_or_ge d sq with h | h
          · exact h
          · have he : d = sq := by omega
            rw [he] at hd4
            rcases hd4 with h0 | hne
            · omega
            · exact absurd rfl hne.1
        have hofree : occ.testBit d = false := hfree d (by omega) (by omega) (by omega)
        rcases hd4 with h0 | hne
        · omega
        · rw [hofree] at hne
          exact absurd hne.2 (by simp)
    exact ⟨⟨hxu, by omega⟩, hx1, hdx, by omega⟩

/-- Characterization of the anti-diagonal bishop span. -/
theorem aSpanB_mem {sq occ : Nat} (hsq : sq < 64) (hocc : occ < M64)
    (hb : occ.testBit sq = true) (x : Nat) :
    (aSpanB sq occ).testBit x = true ↔
      (x < 64 ∧ x % 8 + x / 8 = sq % 8 + sq / 8 ∧
        ∀ y, y % 8 + y / 8 = sq % 8 + sq / 8 → min sq x < y → y < max sq x →
          occ.testBit y = false) := by
  have htop : (sq + 7 * min (sq % 8) (7 - sq / 8) < 64 ∧
      sq ≤ sq + 7 * min (sq % 8) (7 - sq / 8) ∧
      (sq + 7 * min (sq % 8) (7 - sq / 8) - sq) % 7 = 0 ∧
      ((56 ≤ sq + 7 * min (sq % 8) (7 - sq / 8) ∨
        (sq + 7 * min (sq % 8) (7 - sq / 8)) % 8 = 0) ∨
       (sq + 7 * min (sq % 8) (7 - sq / 8) ≠ sq ∧
        occ.testBit (sq + 7 * min (sq % 8) (7 - sq / 8)) = true))) := by
    refine ⟨by omega, by omega, by omega, Or.inl (by omega)⟩
  have hbot : (sq - 7 * min (7 - sq % 8) (sq / 8) ≤ sq ∧
      (sq - (sq - 7 * min (7 - sq % 8) (sq / 8))) % 7 = 0 ∧
      ((sq - 7 * min (7 - sq % 8) (sq / 8) < 8 ∨
        (sq - 7 * min (7 - sq % 8) (sq / 8)) % 8 = 7) ∨
       (sq - 7 * min (7 - sq % 8) (sq / 8) ≠ sq ∧
        occ.testBit (sq - 7 * min (7 - sq % 8) (sq / 8)) = true))) := by
    refine ⟨by omega, by omega, Or.inl (by omega)⟩
  obtain ⟨hPu, hule, humin⟩ :=
    LSB_of_iff (piecesleB_lt sq occ) (piecesleB_mem hsq hb) htop
  obtain ⟨hPd, hdge, hdmax⟩ :=
    MSB_of_iff (piecesriB_lt hocc sq) (piecesriB_mem hsq hb) hbot
  set u := LSB (piecesleB sq occ) with hu
  set d := MSB (piecesriB sq occ) with hd
  obtain ⟨hu1, hu2, hu3, hu4⟩ := hPu
  obtain ⟨hd1, hd2, hd4⟩ := hPd
  have hudiag : u % 8 + u / 8 = sq % 8 + sq / 8 := by omega
  have hddiag : d % 8 + d / 8 = sq % 8 + sq / 8 := by omega
  rw [aSpanB, Nat.testBit_and, ← hu, ← hd, maskDoAnti hu1, maskUpAnti]
  simp only [Bool.and_eq_true, decide_eq_true_eq]
  constructor
  · rintro ⟨⟨hx1, hx2⟩, hx3, hx4, hx5⟩
    refine ⟨hx3, by omega, ?_⟩
    intro y hy1 hy2 hy3
    by_contra hyc
    have hyb : occ.testBit y = true := by
      revert hyc
      cases occ.testBit y <;> simp
    rcases le_or_lt sq x with hxs | hxs
    · exact humin y (by omega) ⟨by omega, by omega, by omega, Or.inr ⟨by omega, hyb⟩⟩
    · exact hdmax y (by omega) ⟨by omega, by omega, Or.inr ⟨by omega, hyb⟩⟩
  · rintro ⟨hx1, hx2, hfree⟩
    have hxu : x ≤ u := by
      rcases le_or_lt x sq with hxs | hxs
      · omega
      · by_contra hc
        push_neg at hc
        have husq : sq < u := by
          rcases Nat.lt_or_ge sq u with h | h
          · exact h
          · have he : u = sq := by omega
            rw [he] at hu4
            rcases hu4 with h7 | hne
            · omega
            · exact absurd rfl hne.1
        have hofree : occ.testBit u = false := hfree u (by omega) (by omega) (by omega)
        rcases hu4 with h7 | hne
        · omega
        · rw [hofree] at hne
          exact absurd hne.2 (by simp)
    have hdx : d ≤ x := by
      rcases le_or_lt sq x with hxs | hxs
      · omega
      · by_contra hc
        push_neg at hc
        have hdsq : d < sq := by
          rcases Nat.lt_or_ge d sq with h | h
          · exact h
          · have he : d = sq := by omega
            rw [he] at hd4
            rcases hd4 with h0 | hne
            · omega
            · exact absurd rfl hne.1
        have hofree : occ.testBit d = false := hfree d (by omega) (by omega) (by omega)
        rcases hd4 with h0 | hne
        · omega
        · rw [hofree] at hne
          exact absurd hne.2 (by simp)
    exact ⟨⟨hxu, by omega⟩, hx1, hdx, by omega⟩

/-- Full bit-level correctness of `GenBishop` against the spec-level ray
attack predicate (for occupancies containing the origin square). -/
theorem genBishop_testBit {sq occ : Nat} (hsq : sq < 64) (hocc : occ < M64)
    (hb : occ.testBit sq = true) (x : Nat) :
    (GenBishop sq occ).testBit x = true ↔ bishopAttacked sq occ x := by
  have hGen : GenBishop sq occ = (dSpanB sq occ ||| aSpanB sq occ) ^^^ shl 1 sq := rfl
  rw [hGen, Nat.testBit_xor, shl_one hsq, Nat.testBit_two_pow, Nat.testBit_or]
  by_cases hxsq : x = sq
  · subst hxsq
    have hv : (dSpanB x occ).testBit x = true := by
      rw [dSpanB_mem hsq hocc hb]
      exact ⟨hsq, by omega, fun y hy1 hy2 hy3 => by omega⟩
    rw [hv]
    constructor
    · intro h
      simp at h
    · intro h
      exact absurd rfl h.2.1
  · have hne : decide (sq = x) = false := by
      simp
      omega
    rw [hne]
    simp only [Bool.xor_false, Bool.or_eq_true]
    rw [dSpanB_mem hsq hocc hb, aSpanB_mem hsq hocc hb]
    unfold bishopAttacked bishopBetween sameDiag sameAnti
    constructor
    · rintro (⟨h1, h2, h3⟩ | ⟨h1, h2, h3⟩)
      · refine ⟨h1, hxsq, Or.inl (by omega), ?_⟩
        rintro y hy1 (⟨a1, a2, a3, a4⟩ | ⟨b1, b2, b3, b4⟩)
        · exact h3 y (by omega) a3 a4
        · exact absurd (show x = sq by omega) hxsq
      · refine ⟨h1, hxsq, Or.inr (by omega), ?_⟩
        rintro y hy1 (⟨a1, a2, a3, a4⟩ | ⟨b1, b2, b3, b4⟩)
        · exact absurd (show x = sq by omega) hxsq
        · exact h3 y (by omega) b3 b4
    · rintro ⟨h1, h2, h3 | h3, h4⟩
      · refine Or.inl ⟨h1, by omega, ?_⟩
        intro y hy1 hy2 hy3
        exact h4 y (by omega) (Or.inl ⟨h3, by omega, hy2, hy3⟩)
      · refine Or.inr ⟨h1, by omega, ?_⟩
        intro y hy1 hy2 hy3
        exact h4 y (by omega) (Or.inr ⟨h3, by omega, hy2, hy3⟩)

/-! ### Claim C3: sliding-piece attack generation -/

/-- Counterexample to C3 as stated: the claim quantifies over every 64-bit
occupancy, but for an occupancy that does not contain the origin square
(here the empty occupancy with a rook square a1) `GenRook` returns the
empty bitboard although the spec-level ray set is nonempty (a2 is attacked
by a rook on a1 over an empty board). -/
theorem genRook_empty_occupancy_counterexample :
    GenRook 0 0 = 0 ∧ (GenRook 0 0).testBit 8 = false ∧ rookAttacked 0 0 8 := by
  refine ⟨by decide, by decide, ?_⟩
  refine ⟨by decide, by decide, Or.inl (by decide), ?_⟩
  decide

/-- C3 (amended): for every square and every occupancy that contains the
origin square (`GenRook`/`GenBishop` begin by removing the moving piece
from the occupancy, so an occupancy without it is outside their contract):
`GenRook` computes exactly the spec-level rook ray attack set (each of the
four rank/file rays up to and including the first occupied square, origin
excluded), `GenBishop` likewise for the diagonal rays, and the queen
destinations used by generation are the union of the two. -/
theorem genSliders_spec (sq occ : Nat) (hsq : sq < 64) (hocc : occ < M64)
    (hb : occ.testBit sq = true) :
    (∀ x, (GenRook sq occ).testBit x = true ↔ rookAttacked sq occ x) ∧
    (∀ x, (GenBishop sq occ).testBit x = true ↔ bishopAttacked sq occ x) ∧
    BBDestinations QUEEN sq occ = GenRook sq occ ||| GenBishop sq occ :=
  ⟨fun x => genRook_testBit hsq hocc hb x, fun x => genBishop_testBit hsq hocc hb x, rfl⟩

/-- Witness for C3 at a concrete square (e4) and occupancy. -/
theorem genSliders_spec_witness :
    (∀ x, (GenRook 28 0x0000100014000000).testBit x = true
        ↔ rookAttacked 28 0x0000100014000000 x) ∧
    (∀ x, (GenBishop 28 0x0000100014000000).testBit x = true
        ↔ bishopAttacked 28 0x0000100014000000 x) ∧
    BBDestinations QUEEN 28 0x0000100014000000
      = GenRook 28 0x0000100014000000 ||| GenBishop 28 0x0000100014000000 :=
  genSliders_spec 28 0x0000100014000000 (by decide) (by decide) (by decide)

/-! ### Attack-table and generator-soundness lemmas -/

theorem tb_notFileA (j : Nat) :
    Nat.testBit 0xFEFEFEFEFEFEFEFE j = decide (j < 64 ∧ j % 8 ≠ 0) := by
  by_cases hj : j < 64
  · have h := (by decide :
      ∀ jj : Fin 64, Nat.testBit 0xFEFEFEFEFEFEFEFE jj.val = decide (jj.val % 8 ≠ 0))
    have h2 : Nat.testBit 0xFEFEFEFEFEFEFEFE j = decide (j % 8 ≠ 0) := h ⟨j, hj⟩
    rw [h2]
    exact decide_eq_decide.mpr (by omega)
  · rw [testBit_ge64 (by decide) (by omega)]
    have hh : ¬ (j < 64 ∧ j % 8 ≠ 0) := by omega
    simp [hh]

theorem tb_notFileH (j : Nat) :
    Nat.testBit 0x7F7F7F7F7F7F7F7F j = decide (j < 64 ∧ j % 8 ≠ 7) := by
  by_cases hj : j < 64
  · have h := (by decide :
      ∀ jj : Fin 64, Nat.testBit 0x7F7F7F7F7F7F7F7F jj.val = decide (jj.val % 8 ≠ 7))
    have h2 : Nat.testBit 0x7F7F7F7F7F7F7F7F j = decide (j % 8 ≠ 7) := h ⟨j, hj⟩
    rw [h2]
    exact decide_eq_decide.mpr (by omega)
  · rw [testBit_ge64 (by decide) (by omega)]
    have hh : ¬ (j < 64 ∧ j % 8 ≠ 7) := by omega
    simp [hh]

set_option maxHeartbeats 2000000 in
theorem knightDest_geom_fin :
    ∀ (k a : Fin 64), (KnightDest k.val).testBit a.val = decide (knightGeom a.val k.val) := by
  decide

set_option maxHeartbeats 2000000 in
theorem kingDest_geom_fin :
    ∀ (k a : Fin 64), (KingDest k.val).testBit a.val = decide (kingGeom a.val k.val) := by
  decide

theorem knightDest_lt_fin : ∀ k : Fin 64, KnightDest k.val < M64 := by decide

theorem kingDest_lt_fin : ∀ k : Fin 64, KingDest k.val < M64 := by decide

theorem knightDest_geom {k a : Nat} (hk : k < 64) (ha : a < 64) :
    (KnightDest k).testBit a = true ↔ knightGeom a k := by
  have h : (KnightDest k).testBit a = decide (knightGeom a k) :=
    knightDest_geom_fin ⟨k, hk⟩ ⟨a, ha⟩
  rw [h, decide_eq_true_eq]

theorem kingDest_geom {k a : Nat} (hk : k < 64) (ha : a < 64) :
    (KingDest k).testBit a = true ↔ kingGeom a k := by
  have h : (KingDest k).testBit a = decide (kingGeom a k) :=
    kingDest_geom_fin ⟨k, hk⟩ ⟨a, ha⟩
  rw [h, decide_eq_true_eq]

theorem rookAttacked_symm {a k occ : Nat} (ha : a < 64) (hk : k < 64) :
    rookAttacked a occ k ↔ rookAttacked k occ a := by
  unfold rookAttacked rookBetween sameFile sameRank
  constructor <;>
  · rintro ⟨h1, h2, h3, h4⟩
    refine ⟨by omega, by omega, by omega, ?_⟩
    rintro y hy (⟨f1, f2, f3, f4⟩ | ⟨r1, r2, r3, r4⟩)
    · exact h4 y hy (Or.inl ⟨by omega, by omega, by omega, by omega⟩)
    · exact h4 y hy (Or.inr ⟨by omega, by omega, by omega, by omega⟩)

theorem bishopAttacked_symm {a k occ : Nat} (ha : a < 64) (hk : k < 64) :
    bishopAttacked a occ k ↔ bishopAttacked k occ a := by
  unfold bishopAttacked bishopBetween sameDiag sameAnti
  constructor <;>
  · rintro ⟨h1, h2, h3, h4⟩
    refine ⟨by omega, by omega, by omega, ?_⟩
    rintro y hy (⟨f1, f2, f3, f4⟩ | ⟨r1, r2, r3, r4⟩)
    · exact h4 y hy (Or.inl ⟨by omega, by omega, by omega, by omega⟩)
    · exact h4 y hy (Or.inr ⟨by omega, by omega, by omega, by omega⟩)

theorem mem_bitsA : ∀ (f : Nat) {bb : Nat}, bb < M64 → ∀ {x : Nat}, x ∈ bitsA f bb →
    bb.testBit x = true := by
  intro f
  induction f with
  | zero => intro bb hbb x hx; simp [bitsA] at hx
  | succ f ih =>
    intro bb hbb x hx
    rw [bitsA] at hx
    by_cases hz : bb = 0
    · simp [hz] at hx
    · rw [if_neg hz] at hx
      rcases List.mem_cons.mp hx with h | h
      · subst h
        exact (LSB_spec hz hbb).1
      · have hcl : ClearLSB bb < M64 := and_lt64l hbb _
        have := ih hcl h
        rw [ClearLSB, Nat.testBit_and, Bool.and_eq_true] at this
        exact this.1

theorem mem_bitList {bb x : Nat} (hbb : bb < M64) (hx : x ∈ bitList bb) :
    bb.testBit x = true ∧ x < 64 := by
  have h := mem_bitsA 64 hbb hx
  refine ⟨h, ?_⟩
  by_contra hc
  rw [testBit_ge64 hbb (by omega)] at h
  exact absurd h (by simp)

theorem and_testBit_l {x y t : Nat} (h : (x &&& y).testBit t = true) : x.testBit t = true := by
  rw [Nat.testBit_and, Bool.and_eq_true] at h
  exact h.1

theorem and_testBit_r {x y t : Nat} (h : (x &&& y).testBit t = true) : y.testBit t = true := by
  rw [Nat.testBit_and, Bool.and_eq_true] at h
  exact h.2

theorem shl_testBit_extract {x n t : Nat} (h : (shl x n).testBit t = true) :
    n ≤ t ∧ x.testBit (t - n) = true ∧ t < 64 := by
  rw [testBit_shl] at h
  simp only [Bool.and_eq_true, decide_eq_true_eq] at h
  exact ⟨h.2.1, h.2.2, h.1⟩

theorem and16_eq_zero {x : Nat} (h : x < 16) : x &&& 16 = 0 := by
  apply Nat.eq_of_testBit_eq
  intro i
  rw [Nat.testBit_and, Nat.zero_testBit]
  rw [show (16 : Nat) = 2 ^ 4 from rfl, Nat.testBit_two_pow]
  by_cases hi : 4 = i
  · subst hi
    rw [Nat.testBit_lt_two_pow h]
    rfl
  · simp [hi]

theorem moveFacts_of_piece {p : TBoard} {piece : Nat} {m : TMove}
    (hp2 : 2 ≤ piece) (hp6 : piece ≤ 6)
    (hMT : m.MoveType = piece ∨ m.MoveType = piece ||| CAPTURE)
    (hFrom : (BBPieces p piece &&& p.PM).testBit m.From = true)
    (hF64 : m.From < 64) (hT64 : m.To < 64) : MoveFacts p m := by
  have h7 : (0x07 : Nat) = 2 ^ 3 - 1 := by norm_num
  have hstep : piece &&& 7 = piece := by
    rw [show (7 : Nat) = 2 ^ 3 - 1 from by norm_num]
    exact Nat.and_pow_two_sub_one_of_lt_two_pow (by omega)
  have hand : m.MoveType &&& 0x07 = piece := by
    rcases hMT with h | h <;> rw [h]
    · exact hstep
    · rw [CAPTURE, Nat.and_distrib_right, hstep, show (8 : Nat) &&& 7 = 0 from by decide,
        Nat.or_zero]
  have hep : m.MoveType &&& EP = 0 := by
    rcases hMT with h | h <;> rw [h, EP]
    · exact and16_eq_zero (by omega)
    · rw [CAPTURE, Nat.and_distrib_right, and16_eq_zero (by omega),
        and16_eq_zero (by omega), Nat.or_zero]
  refine ⟨hF64, hT64, ?_, fun hc => absurd hep hc⟩
  rw [hand]
  by_cases h6 : piece = 6
  · exact Or.inl h6
  · exact Or.inr hFrom

theorem moveFacts_pawn {p : TBoard} {m : TMove}
    (hMT : m.MoveType = 1 ∨ m.MoveType = 9 ∨ m.MoveType = 0x21 ∨ m.MoveType = 0x29)
    (hFrom : (Pawns p &&& p.PM).testBit m.From = true)
    (hF64 : m.From < 64) (hT64 : m.To < 64) : MoveFacts p m := by
  have hand : m.MoveType &&& 0x07 = 1 := by
    rcases hMT with h | h | h | h <;> rw [h] <;> decide
  have hep : m.MoveType &&& EP = 0 := by
    rcases hMT with h | h | h | h <;> rw [h] <;> decide
  refine ⟨hF64, hT64, Or.inr ?_, fun hc => absurd hep hc⟩
  rw [hand]
  exact hFrom

theorem mem_quietMovesFor {p : TBoard} (hPM : p.PM < M64) (hP0 : p.P0 < M64)
    (hP1 : p.P1 < M64) (hP2 : p.P2 < M64) {piece : Nat} {m : TMove}
    (hm : m ∈ quietMovesFor p piece) :
    m.MoveType = piece ∧ m.Prom = 0 ∧
    (BBPieces p piece &&& p.PM).testBit m.From = true ∧ m.From < 64 ∧
    (Occupation p).testBit m.To = false ∧ m.To < 64 := by
  have hocc : Occupation p < M64 := or_lt64 (or_lt64 hP0 hP1) hP2
  unfold quietMovesFor at hm
  simp only [List.mem_flatMap, List.mem_map] at hm
  obtain ⟨sq, hsq, t, ht, rfl⟩ := hm
  have h1 := mem_bitList (and_lt64 _ hPM) hsq
  have h2 := mem_bitList (and_lt64l (bnot_lt hocc) _) ht
  have h3 : (Occupation p).testBit t = false := by
    have hb := and_testBit_l h2.1
    rw [testBit_bnot_lt _ h2.2] at hb
    cases hcc : (Occupation p).testBit t
    · rfl
    · rw [hcc] at hb
      exact absurd hb (by simp)
  exact ⟨rfl, rfl, h1.1, h1.2, h3, h2.2⟩

theorem mem_captMovesFor {p : TBoard} (hPM : p.PM < M64) (hP0 : p.P0 < M64)
    (hP1 : p.P1 < M64) (hP2 : p.P2 < M64) {piece : Nat} {m : TMove}
    (hm : m ∈ captMovesFor p piece) :
    m.MoveType = piece ||| CAPTURE ∧ m.Prom = 0 ∧
    (BBPieces p piece &&& p.PM).testBit m.From = true ∧ m.From < 64 ∧
    ((p.PM ^^^ Occupation p)).testBit m.To = true ∧ m.To < 64 := by
  have hocc : Occupation p < M64 := or_lt64 (or_lt64 hP0 hP1) hP2
  unfold captMovesFor at hm
  simp only [List.mem_flatMap, List.mem_map] at hm
  obtain ⟨sq, hsq, t, ht, rfl⟩ := hm
  have h1 := mem_bitList (and_lt64 _ hPM) hsq
  have h2 := mem_bitList (and_lt64l (xor_lt64 hPM hocc) _) ht
  exact ⟨rfl, rfl, h1.1, h1.2, and_testBit_l h2.1, h2.2⟩

theorem EnPassant_ge8 {col : Nat} (h : 8 ≤ col) : EnPassant col = 0 := by
  unfold EnPassant
  have hl : EnPassantL.length ≤ col := by
    rw [show EnPassantL.length = 8 from rfl]
    exact h
  exact List.getD_eq_default _ _ hl

/-- Generator soundness: every move emitted by `GenerateCapture` or
`GenerateQuiets` satisfies `MoveFacts`. -/
theorem gen_moveFacts (p : TBoard) (hPM : p.PM < M64) (hP0 : p.P0 < M64)
    (hP1 : p.P1 < M64) (hP2 : p.P2 < M64) :
    ∀ m ∈ GenerateCapture p ++ GenerateQuiets p, MoveFacts p m := by
  have hocc : Occupation p < M64 := or_lt64 (or_lt64 hP0 hP1) hP2
  have hPawns : Pawns p &&& p.PM < M64 := and_lt64 _ hPM
  have hopp : p.PM ^^^ Occupation p < M64 := xor_lt64 hPM hocc
  intro m hm
  rw [List.mem_append] at hm
  rcases hm with hm | hm
  · unfold GenerateCapture at hm
    simp only [List.mem_append] at hm
    rcases hm with (((hm | hm) | hm) | hm) | hm
    · -- piece captures
      simp only [List.mem_flatMap, List.mem_cons, List.not_mem_nil, or_false] at hm
      obtain ⟨piece, hpiece, hmm⟩ := hm
      obtain ⟨hMT, hProm, hFrom, hF, hTb, hT⟩ := mem_captMovesFor hPM hP0 hP1 hP2 hmm
      rcases hpiece with h | h | h | h | h <;> subst h <;>
        exact moveFacts_of_piece (by decide) (by decide) (Or.inr hMT) hFrom hF hT
    · -- pawn right captures
      simp only [List.mem_map] at hm
      obtain ⟨t, ht, rfl⟩ := hm
      have h1 := mem_bitList (and_lt64l (and_lt64l (shl_lt _ _) _) _) ht
      have h2 := shl_testBit_extract (and_testBit_l (and_testBit_l h1.1))
      exact moveFacts_pawn (Or.inr (Or.inl rfl)) h2.2.1 (by show t - 9 < 64; omega) h1.2
    · -- pawn left captures
      simp only [List.mem_map] at hm
      obtain ⟨t, ht, rfl⟩ := hm
      have h1 := mem_bitList (and_lt64l (and_lt64l (shl_lt _ _) _) _) ht
      have h2 := shl_testBit_extract (and_testBit_l (and_testBit_l h1.1))
      exact moveFacts_pawn (Or.inr (Or.inl rfl)) h2.2.1 (by show t - 7 < 64; omega) h1.2
    · -- promotions
      split at hm
      · simp only [List.mem_append, List.mem_flatMap, List.mem_map, List.mem_cons,
          List.not_mem_nil, or_false] at hm
        rcases hm with (⟨t, ht, pr, hpr, rfl⟩ | ⟨t, ht, pr, hpr, rfl⟩) | ⟨t, ht, pr, hpr, rfl⟩
        · have h1 := mem_bitList (and_lt64l (and_lt64l (shl_lt _ _) _) _) ht
          have h2 := shl_testBit_extract (and_testBit_l (and_testBit_l h1.1))
          exact moveFacts_pawn (Or.inr (Or.inr (Or.inr rfl))) h2.2.1 (by show t - 9 < 64; omega) h1.2
        · have h1 := mem_bitList (and_lt64l (and_lt64l (shl_lt _ _) _) _) ht
          have h2 := shl_testBit_extract (and_testBit_l (and_testBit_l h1.1))
          exact moveFacts_pawn (Or.inr (Or.inr (Or.inr rfl))) h2.2.1 (by show t - 7 < 64; omega) h1.2
        · have h1 := mem_bitList (and_lt64l (and_lt64l (shl_lt _ _) _) _) ht
          have h2 := shl_testBit_extract (and_testBit_l (and_testBit_l h1.1))
          exact moveFacts_pawn (Or.inr (Or.inr (Or.inl rfl))) h2.2.1 (by show t - 8 < 64; omega) h1.2
      · simp at hm
    · -- en passant
      by_cases hne : p.EnPassant ≠ 8
      · rw [if_pos hne] at hm
        simp only [List.mem_map] at hm
        obtain ⟨s, hs, rfl⟩ := hm
        have hcol : p.EnPassant < 8 := by
          by_contra hc
          rw [EnPassant_ge8 (by omega), Nat.and_zero] at hs
          simp [bitList, bitsA] at hs
        have h1 := mem_bitList (and_lt64l hPawns _) hs
        refine ⟨h1.2, by show 40 + p.EnPassant < 64; omega, Or.inr ?_, fun _ => ⟨rfl, hcol, rfl⟩⟩
        have hand : (25 : Nat) &&& 0x07 = 1 := by decide
        show (BBPieces p ((25 : Nat) &&& 0x07) &&& p.PM).testBit s = true
        rw [hand]
        exact and_testBit_l h1.1
      · rw [if_neg hne] at hm
        simp at hm
  · unfold GenerateQuiets at hm
    simp only [List.mem_append] at hm
    rcases hm with (((hm | hm) | hm) | hm) | hm
    · -- piece quiets
      simp only [List.mem_flatMap, List.mem_cons, List.not_mem_nil, or_false] at hm
      obtain ⟨piece, hpiece, hmm⟩ := hm
      obtain ⟨hMT, hProm, hFrom, hF, hTb, hT⟩ := mem_quietMovesFor hPM hP0 hP1 hP2 hmm
      rcases hpiece with h | h | h | h | h <;> subst h <;>
        exact moveFacts_of_piece (by decide) (by decide) (Or.inl hMT) hFrom hF hT
    · -- single pushes
      simp only [List.mem_map] at hm
      obtain ⟨t, ht, rfl⟩ := hm
      have h1 := mem_bitList (and_lt64l (and_lt64l (shl_lt _ _) _) _) ht
      have h2 := shl_testBit_extract (and_testBit_l (and_testBit_l h1.1))
      exact moveFacts_pawn (Or.inl rfl) h2.2.1 (by show t - 8 < 64; omega) h1.2
    · -- double pushes
      simp only [List.mem_map] at hm
      obtain ⟨t, ht, rfl⟩ := hm
      have h1 := mem_bitList (and_lt64l (and_lt64l (shl_lt _ _) _) _) ht
      have h2 := shl_testBit_extract (and_testBit_l (and_testBit_l h1.1))
      have h3 := shl_testBit_extract (and_testBit_l (and_testBit_l h2.2.1))
      have h4 : t - 8 - 8 = t - 16 := by omega
      rw [h4] at h3
      exact moveFacts_pawn (Or.inl rfl) h3.2.1 (by show t - 16 < 64; omega) h1.2
    · -- long castling
      by_cases hc1 : CastleLM p ≠ 0 ∧ Occupation p &&& 0x0E = 0
      · rw [if_pos hc1] at hm
        split at hm
        · simp only [List.mem_cons, List.not_mem_nil, or_false] at hm
          subst hm
          exact ⟨by decide, by decide, Or.inl (by decide), fun hc => absurd (by decide) hc⟩
        · simp at hm
      · rw [if_neg hc1] at hm
        simp at hm
    · -- short castling
      by_cases hc1 : CastleSM p ≠ 0 ∧ Occupation p &&& 0x60 = 0
      · rw [if_pos hc1] at hm
        split at hm
        · simp only [List.mem_cons, List.not_mem_nil, or_false] at hm
          subst hm
          exact ⟨by decide, by decide, Or.inl (by decide), fun hc => absurd (by decide) hc⟩
        · simp at hm
      · rw [if_neg hc1] at hm
        simp at hm

theorem ne_zero_iff_testBit {n : Nat} (hn : n < M64) :
    n ≠ 0 ↔ ∃ a, a < 64 ∧ n.testBit a = true := by
  constructor
  · intro h
    obtain ⟨i, hi⟩ := Nat.ne_zero_implies_bit_true h
    refine ⟨i, ?_, hi⟩
    by_contra hc
    rw [testBit_ge64 hn (by omega)] at hi
    exact absurd hi (by simp)
  · rintro ⟨a, ha, hbit⟩ h0
    rw [h0, Nat.zero_testBit] at hbit
    exact absurd hbit (by simp)

theorem LSB_two_pow {k : Nat} (hk : k < 64) : LSB (2 ^ k) = k := by
  apply LSB_eq
  · rw [M64_eq]
    exact Nat.pow_lt_pow_right (by norm_num) hk
  · exact Nat.testBit_two_pow_self
  · intro j hj
    exact Nat.testBit_two_pow_of_ne (by omega)

theorem pow_shr8 {t : Nat} (ht : 8 ≤ t) : (2 ^ t) >>> 8 = 2 ^ (t - 8) := by
  rw [Nat.shiftRight_eq_div_pow]
  exact Nat.pow_div ht (by norm_num)

theorem testBit_or_two_pow_self (x t : Nat) : (x ||| 2 ^ t).testBit t = true := by
  rw [Nat.testBit_or, Nat.testBit_two_pow_self]
  simp

theorem testBit_or_two_pow_ne {t i : Nat} (x : Nat) (h : i ≠ t) :
    (x ||| 2 ^ t).testBit i = x.testBit i := by
  rw [Nat.testBit_or, Nat.testBit_two_pow_of_ne (by omega)]
  simp

theorem testBit_xor_two_pow_ne {t i : Nat} (x : Nat) (h : i ≠ t) :
    (x ^^^ 2 ^ t).testBit i = x.testBit i := by
  rw [Nat.testBit_xor, Nat.testBit_two_pow_of_ne (by omega)]
  simp

theorem PM_occ_testBit {p : TBoard} (hsub : p.PM &&& Occupation p = p.PM) {i : Nat}
    (h : p.PM.testBit i = true) : (Occupation p).testBit i = true := by
  have hc := congrArg (fun x => x.testBit i) hsub
  simp only [Nat.testBit_and] at hc
  rw [h] at hc
  cases hocc : (Occupation p).testBit i
  · rw [hocc] at hc
    exact absurd hc (by simp)
  · rfl

theorem bbpieces_ne_king {p : TBoard} (h7 : p.P0 &&& p.P1 &&& p.P2 = 0) {mt s k : Nat}
    (hmt : mt ≠ KING) (hs64 : s < 64) (hs : (BBPieces p mt &&& p.PM).testBit s = true)
    (hkk : (Kings p).testBit k = true) : s ≠ k := by
  intro heq
  subst heq
  have hbb : (BBPieces p mt).testBit s = true := and_testBit_l hs
  have hK1 : p.P1.testBit s = true := and_testBit_l hkk
  have hK2 : p.P2.testBit s = true := and_testBit_r hkk
  have h70 : (p.P0 &&& p.P1 &&& p.P2).testBit s = false := by
    rw [h7]
    exact Nat.zero_testBit s
  rw [Nat.testBit_and, Nat.testBit_and, hK1, hK2] at h70
  simp only [Bool.and_true] at h70
  unfold BBPieces at hbb
  by_cases h1 : mt = PAWN
  · rw [if_pos h1, Pawns] at hbb
    have hx := and_testBit_r hbb
    rw [testBit_bnot_lt _ hs64, hK2] at hx
    simp at hx
  · rw [if_neg h1] at hbb
    by_cases h2 : mt = KNIGHT
    · rw [if_pos h2, Knights] at hbb
      have hx := and_testBit_r hbb
      rw [testBit_bnot_lt _ hs64, hK2] at hx
      simp at hx
    · rw [if_neg h2] at hbb
      by_cases h3 : mt = BISHOP
      · rw [if_pos h3, Bishops] at hbb
        have hx := and_testBit_l hbb
        rw [hx] at h70
        simp at h70
      · rw [if_neg h3] at hbb
        by_cases h4 : mt = ROOK
        · rw [if_pos h4, Rooks] at hbb
          have hx := and_testBit_r (and_testBit_l hbb)
          rw [testBit_bnot_lt _ hs64, hK1] at hx
          simp at hx
        · rw [if_neg h4] at hbb
          by_cases h5 : mt = QUEEN
          · rw [if_pos h5, Queens] at hbb
            have hx := and_testBit_l hbb
            rw [hx] at h70
            simp at h70
          · rw [if_neg h5, if_neg hmt] at hbb
            rw [Nat.zero_testBit] at hbb
            exact absurd hbb (by simp)

theorem pawn_attack_iff {ksq a : Nat} (hksq : ksq < 64) (ha : a < 64) :
    (((shl (2 ^ ksq) 9 &&& 0xFEFEFEFEFEFEFEFE) |||
      (shl (2 ^ ksq) 7 &&& 0x7F7F7F7F7F7F7F7F)).testBit a = true) ↔ pawnGeomDown a ksq := by
  rw [Nat.testBit_or, Bool.or_eq_true, Nat.testBit_and, Nat.testBit_and, testBit_shl,
    testBit_shl, tb_notFileA, tb_notFileH, Nat.testBit_two_pow, Nat.testBit_two_pow]
  simp only [Bool.and_eq_true, decide_eq_true_eq]
  unfold pawnGeomDown
  constructor
  · rintro (⟨⟨h1, h2, h3⟩, h4⟩ | ⟨⟨h1, h2, h3⟩, h4⟩) <;> omega
  · rintro ⟨hr, hc | hc⟩
    · exact Or.inl ⟨⟨ha, by omega, by omega⟩, ha, by omega⟩
    · exact Or.inr ⟨⟨ha, by omega, by omega⟩, ha, by omega⟩

/-- Assembly of the attacker-set computation of `Illegal`: the combined
attacker bitboard is nonzero iff some opposing piece attacks the king
square under the updated occupancy. -/
theorem attacks_iff (p : TBoard) {ksq newocc newopp : Nat} (hksq : ksq < 64)
    (hnewocc : newocc < M64) (hnewopp : newopp < M64)
    (hkocc : newocc.testBit ksq = true) :
    (((KnightDest ksq &&& Knights p) |||
      (GenRook ksq newocc &&& (Rooks p ||| Queens p)) |||
      (GenBishop ksq newocc &&& (Bishops p ||| Queens p)) |||
      (((shl (2 ^ ksq) 9 &&& 0xFEFEFEFEFEFEFEFE) |||
        (shl (2 ^ ksq) 7 &&& 0x7F7F7F7F7F7F7F7F)) &&& Pawns p) |||
      (KingDest ksq &&& Kings p)) &&& newopp) ≠ 0 ↔
    ∃ a, a < 64 ∧ newopp.testBit a = true ∧
      (((Knights p).testBit a = true ∧ knightGeom a ksq) ∨
       ((Rooks p ||| Queens p).testBit a = true ∧ rookAttacked a newocc ksq) ∨
       ((Bishops p ||| Queens p).testBit a = true ∧ bishopAttacked a newocc ksq) ∨
       ((Pawns p).testBit a = true ∧ pawnGeomDown a ksq) ∨
       ((Kings p).testBit a = true ∧ kingGeom a ksq)) := by
  rw [ne_zero_iff_testBit (and_lt64 _ hnewopp)]
  constructor
  · rintro ⟨a, ha, hbit⟩
    refine ⟨a, ha, and_testBit_r hbit, ?_⟩
    have hb := and_testBit_l hbit
    simp only [Nat.testBit_or, Bool.or_eq_true] at hb
    rcases hb with (((hb | hb) | hb) | hb) | hb
    · exact Or.inl ⟨and_testBit_r hb, (knightDest_geom hksq ha).mp (and_testBit_l hb)⟩
    · refine Or.inr (Or.inl ⟨and_testBit_r hb, ?_⟩)
      rw [rookAttacked_symm ha hksq]
      exact (genRook_testBit hksq hnewocc hkocc a).mp (and_testBit_l hb)
    · refine Or.inr (Or.inr (Or.inl ⟨and_testBit_r hb, ?_⟩))
      rw [bishopAttacked_symm ha hksq]
      exact (genBishop_testBit hksq hnewocc hkocc a).mp (and_testBit_l hb)
    · exact Or.inr (Or.inr (Or.inr (Or.inl
        ⟨and_testBit_r hb, (pawn_attack_iff hksq ha).mp (and_testBit_l hb)⟩)))
    · exact Or.inr (Or.inr (Or.inr (Or.inr
        ⟨and_testBit_r hb, (kingDest_geom hksq ha).mp (and_testBit_l hb)⟩)))
  · rintro ⟨a, ha, hopp, hdis⟩
    refine ⟨a, ha, ?_⟩
    rw [Nat.testBit_and, hopp, Bool.and_true]
    simp only [Nat.testBit_or, Bool.or_eq_true]
    rcases hdis with ⟨hpc, hg⟩ | ⟨hpc, hg⟩ | ⟨hpc, hg⟩ | ⟨hpc, hg⟩ | ⟨hpc, hg⟩
    · refine Or.inl (Or.inl (Or.inl (Or.inl ?_)))
      rw [Nat.testBit_and, hpc, Bool.and_true, knightDest_geom hksq ha]
      exact hg
    · refine Or.inl (Or.inl (Or.inl (Or.inr ?_)))
      rw [Nat.testBit_and, hpc, Bool.and_true, genRook_testBit hksq hnewocc hkocc a,
        rookAttacked_symm hksq ha]
      exact hg
    · refine Or.inl (Or.inl (Or.inr ?_))
      rw [Nat.testBit_and, hpc, Bool.and_true, genBishop_testBit hksq hnewocc hkocc a,
        bishopAttacked_symm hksq ha]
      exact hg
    · refine Or.inl (Or.inr ?_)
      rw [Nat.testBit_and, hpc, Bool.and_true, pawn_attack_iff hksq ha]
      exact hg
    · refine Or.inr ?_
      rw [Nat.testBit_and, hpc, Bool.and_true, kingDest_geom hksq ha]
      exact hg

/-- C2: for every Position satisfying the encoding invariants (64-bit fields,
PM a subset of the occupancy, disjoint piece codes, the mover's king a single
bit 2^k, and, when an en-passant capture is pending, no own piece on the
en-passant victim square) and every move m
emitted by the generators, `Illegal` returns nonzero iff applying m — moving
the piece from m.From to m.To, removing any captured piece including the
en-passant victim one rank behind the destination — leaves the mover's king
on a square attacked by an opposing knight, rook/queen, bishop/queen, pawn or
king; `Illegal` is a pure function of the Position, which it does not mutate. -/
theorem illegal_iff (p : TBoard) (m : TMove) (k : Nat)
    (hPM : p.PM < M64) (hP0 : p.P0 < M64) (hP1 : p.P1 < M64) (hP2 : p.P2 < M64)
    (hsub : p.PM &&& Occupation p = p.PM)
    (h7 : p.P0 &&& p.P1 &&& p.P2 = 0)
    (hk : Kings p &&& p.PM = 2 ^ k) (hk64 : k < 64)
    (hEPsq : p.EnPassant < 8 → p.PM.testBit (32 + p.EnPassant) = false)
    (hm : m ∈ GenerateCapture p ++ GenerateQuiets p) :
    Illegal p m ≠ 0 ↔ IllegalSpec p m k := by
  obtain ⟨hF64, hT64, hpiece, hEPfacts⟩ := gen_moveFacts p hPM hP0 hP1 hP2 m hm
  have hocc : Occupation p < M64 := or_lt64 (or_lt64 hP0 hP1) hP2
  have hopp : p.PM ^^^ Occupation p < M64 := xor_lt64 hPM hocc
  have hpF : (2:Nat) ^ m.From < M64 := by rw [← shl_one hF64]; exact shl_lt 1 m.From
  have hpT : (2:Nat) ^ m.To < M64 := by rw [← shl_one hT64]; exact shl_lt 1 m.To
  have hbase : (Occupation p ^^^ 2 ^ m.From) ||| 2 ^ m.To < M64 :=
    or_lt64 (xor_lt64 hocc hpF) hpT
  have hbopp : (p.PM ^^^ Occupation p) &&& bnot (shl 1 m.To % M64) < M64 :=
    and_lt64l hopp _
  simp only [Illegal, IllegalSpec]
  rw [shl_one hF64, shl_one hT64]
  by_cases hisK : m.MoveType &&& 0x07 = KING
  · rw [if_pos hisK, if_pos hisK, if_pos hisK,
      if_neg (fun hc => hc.1 hisK), if_neg (fun hc => hc.1 hisK),
      if_neg (fun hc => hc.1 hisK), if_neg (fun hc => hc.1 hisK)]
    exact attacks_iff p hT64 hbase (and_lt64l hopp _) (testBit_or_two_pow_self _ _)
  · rw [if_neg hisK, if_neg hisK, if_neg hisK, hk, LSB_two_pow hk64]
    have hKk : (Kings p &&& p.PM).testBit k = true := by
      rw [hk]; exact Nat.testBit_two_pow_self
    have hPMk : p.PM.testBit k = true := and_testBit_r hKk
    have hocck : (Occupation p).testBit k = true := PM_occ_testBit hsub hPMk
    have hpc : (BBPieces p (m.MoveType &&& 0x07) &&& p.PM).testBit m.From = true :=
      hpiece.resolve_left hisK
    have hFk : m.From ≠ k := bbpieces_ne_king h7 hisK hF64 hpc (and_testBit_l hKk)
    have hko : (((Occupation p ^^^ 2 ^ m.From) ||| 2 ^ m.To)).testBit k = true := by
      by_cases hTk : m.To = k
      · rw [hTk]; exact testBit_or_two_pow_self _ _
      · rw [testBit_or_two_pow_ne _ (Ne.symm hTk),
          testBit_xor_two_pow_ne _ (Ne.symm hFk)]
        exact hocck
    by_cases hEPz : m.MoveType &&& EP = 0
    · rw [if_neg (fun hc => hc.2 hEPz), if_neg (fun hc => hc.2 hEPz),
        if_neg (fun hc => hc.2 hEPz), if_neg (fun hc => hc.2 hEPz)]
      exact attacks_iff p hk64 hbase (and_lt64l hopp _) hko
    · rw [if_pos ⟨hisK, hEPz⟩, if_pos ⟨hisK, hEPz⟩,
        if_pos ⟨hisK, hEPz⟩, if_pos ⟨hisK, hEPz⟩]
      obtain ⟨hmt25, hep8, hTo40⟩ := hEPfacts hEPz
      rw [pow_shr8 (show 8 ≤ m.To from by omega),
        shl_one (show m.To - 8 < 64 from by omega)]
      have hpT8 : (2:Nat) ^ (m.To - 8) < M64 := by
        rw [← shl_one (show m.To - 8 < 64 from by omega)]
        exact shl_lt 1 (m.To - 8)
      have hTm8k : m.To - 8 ≠ k := by
        intro heq
        rw [show m.To - 8 = 32 + p.EnPassant from by omega] at heq
        have hEPv := hEPsq hep8
        rw [heq, hPMk] at hEPv
        exact absurd hEPv (by simp)
      have hko2 : ((((Occupation p ^^^ 2 ^ m.From) ||| 2 ^ m.To)) ^^^
          2 ^ (m.To - 8)).testBit k = true := by
        rw [testBit_xor_two_pow_ne _ (Ne.symm hTm8k)]
        exact hko
      exact attacks_iff p hk64 (xor_lt64 hbase hpT8)
        (xor_lt64 (and_lt64l hopp _) hpT8) hko2

theorem illegal_iff_witness :
    Illegal sampleBoard { MoveType := KNIGHT, From := 1, To := 16, Prom := EMPTY } ≠ 0 ↔
      IllegalSpec sampleBoard { MoveType := KNIGHT, From := 1, To := 16, Prom := EMPTY } 4 :=
  illegal_iff sampleBoard { MoveType := KNIGHT, From := 1, To := 16, Prom := EMPTY } 4
    (by decide) (by decide) (by decide) (by decide) (by decide) (by decide)
    (by decide) (by decide) (by decide) (by decide)

/-- Bit characterization of the `EnPassantM` adjacency masks. -/
theorem EnPassantM_testBit {f a : Nat} (hf : f < 8) (ha : a < 64) :
    (EnPassantM f).testBit a =
      decide (24 ≤ a ∧ a < 32 ∧ (a % 8 + 1 = f ∨ a % 8 = f + 1)) := by
  have h : ∀ (x : Fin 8) (y : Fin 64),
      (EnPassantM x.val).testBit y.val =
        decide (24 ≤ y.val ∧ y.val < 32 ∧
          (y.val % 8 + 1 = x.val ∨ y.val % 8 = x.val + 1)) := by decide
  exact h ⟨f, hf⟩ ⟨a, ha⟩

/-- The `EnPassantM` entries are 64-bit values. -/
theorem EnPassantM_lt (f : Nat) : EnPassantM f < M64 := by
  by_cases hf : f < 8
  · have h : ∀ (x : Fin 8), EnPassantM x.val < M64 := by decide
    exact h ⟨f, hf⟩
  · unfold EnPassantM
    have hl : EnPassantML.length ≤ f := by
      simp only [EnPassantML, List.length]
      omega
    rw [List.getD_eq_default _ _ hl]
    norm_num [M64]

/-- Masking with 7 is reduction mod 8 (the file of a square). -/
theorem and_seven (n : Nat) : n &&& 7 = n % 8 := by
  have h := Nat.and_pow_two_sub_one_eq_mod n 3
  norm_num at h
  exact h

/-- The side flip leaves the `EnPassant` field alone. -/
theorem changeSide_EnPassant (q : TBoard) : (ChangeSide q).EnPassant = q.EnPassant := rfl

/-- `Make` of a quiet double pawn push: the resulting `EnPassant` field is
the pushed file exactly when the code's adjacency mask test fires. -/
theorem make_doublePush_enPassant (p : TBoard) (m : TMove)
    (hmt : m.MoveType = PAWN) (hF8 : 8 <= m.From) (hF16 : m.From < 16)
    (hTo : m.To = m.From + 16) :
    (Make p m).EnPassant =
      if EnPassantM (m.To &&& 7) &&&
            Pawns { p with PM := p.PM ^^^ (shl 1 m.From ||| shl 1 m.To),
                           P0 := p.P0 ^^^ (shl 1 m.From ||| shl 1 m.To), EnPassant := 8 } &&&
            (p.PM ^^^ (shl 1 m.From ||| shl 1 m.To) ^^^
              Occupation { p with PM := p.PM ^^^ (shl 1 m.From ||| shl 1 m.To),
                                  P0 := p.P0 ^^^ (shl 1 m.From ||| shl 1 m.To), EnPassant := 8 }) ≠ 0
      then m.To % 8 else 8 := by
  simp only [Make, hmt]
  rw [if_pos (show PAWN &&& 0x07 = PAWN from rfl), changeSide_EnPassant]
  simp only [MakePawn, hmt]
  rw [if_neg (show ¬(PAWN &&& EP ≠ 0) from fun h => h rfl),
    if_neg (show ¬(PAWN &&& CAPTURE ≠ 0) from fun h => h rfl),
    if_neg (show ¬(PAWN &&& PROMO ≠ 0) from fun h => h rfl),
    if_neg (show ¬(PAWN &&& CAPTURE ≠ 0) from fun h => h rfl),
    apply_ite (fun q : TBoard => q.EnPassant)]
  simp only []
  by_cases hmask : EnPassantM (m.To &&& 7) &&&
      Pawns { p with PM := p.PM ^^^ (shl 1 m.From ||| shl 1 m.To),
                     P0 := p.P0 ^^^ (shl 1 m.From ||| shl 1 m.To), EnPassant := 8 } &&&
      (p.PM ^^^ (shl 1 m.From ||| shl 1 m.To) ^^^
        Occupation { p with PM := p.PM ^^^ (shl 1 m.From ||| shl 1 m.To),
                            P0 := p.P0 ^^^ (shl 1 m.From ||| shl 1 m.To), EnPassant := 8 }) ≠ 0
  · rw [if_pos ⟨hTo, hmask⟩, if_pos hmask, and_seven]
  · rw [if_neg (fun hc => hmask hc.2), if_neg hmask]

/-- The adjacency-mask test of `Make` holds iff an opposing pawn stands
beside the double-push destination square (mere adjacency on the rank). -/
theorem epMask_iff (p : TBoard) {f t : Nat} (hf8 : 8 <= f) (hf16 : f < 16) (ht : t = f + 16) :
    (EnPassantM (t &&& 7) &&&
      Pawns { p with PM := p.PM ^^^ (shl 1 f ||| shl 1 t),
                     P0 := p.P0 ^^^ (shl 1 f ||| shl 1 t), EnPassant := 8 } &&&
      (p.PM ^^^ (shl 1 f ||| shl 1 t) ^^^
        Occupation { p with PM := p.PM ^^^ (shl 1 f ||| shl 1 t),
                            P0 := p.P0 ^^^ (shl 1 f ||| shl 1 t), EnPassant := 8 }) ≠ 0) ↔
    (∃ a, a < 64 ∧ a / 8 = t / 8 ∧ (a + 1 = t ∨ a = t + 1) ∧
      (Pawns p).testBit a = true ∧ (p.PM ^^^ Occupation p).testBit a = true) := by
  have ht64 : t < 64 := by omega
  have hf64 : f < 64 := by omega
  have hf7 : t &&& 7 < 8 := by rw [and_seven]; omega
  rw [ne_zero_iff_testBit (and_lt64l (and_lt64l (EnPassantM_lt _) _) _)]
  constructor
  · rintro ⟨a, ha, hbit⟩
    have hEPM := and_testBit_l (and_testBit_l hbit)
    have hPw := and_testBit_r (and_testBit_l hbit)
    have hOp := and_testBit_r hbit
    rw [EnPassantM_testBit hf7 ha, decide_eq_true_eq, and_seven] at hEPM
    have haf : a ≠ f := by omega
    have hat : a ≠ t := by omega
    have hpd : (shl 1 f ||| shl 1 t).testBit a = false := by
      rw [shl_one hf64, shl_one ht64, Nat.testBit_or,
        Nat.testBit_two_pow_of_ne (Ne.symm haf), Nat.testBit_two_pow_of_ne (Ne.symm hat)]
      rfl
    refine ⟨a, ha, by omega, by omega, ?_, ?_⟩
    · simp only [Pawns, Nat.testBit_and, Bool.and_eq_true] at hPw ⊢
      obtain ⟨⟨h1, h2⟩, h3⟩ := hPw
      rw [Nat.testBit_xor, hpd, Bool.xor_false] at h1
      exact ⟨⟨h1, h2⟩, h3⟩
    · simp only [Occupation] at hOp ⊢
      rw [Nat.testBit_xor, Nat.testBit_xor, hpd, Bool.xor_false,
        Nat.testBit_or, Nat.testBit_or, Nat.testBit_xor, hpd, Bool.xor_false] at hOp
      rw [Nat.testBit_xor, Nat.testBit_or, Nat.testBit_or]
      exact hOp
  · rintro ⟨a, ha, hrank, hadj, hPw, hOp⟩
    have hr3 : t / 8 = 3 := by omega
    have ha24 : 24 <= a ∧ a < 32 := by omega
    have haf : a ≠ f := by omega
    have hat : a ≠ t := by omega
    have hpd : (shl 1 f ||| shl 1 t).testBit a = false := by
      rw [shl_one hf64, shl_one ht64, Nat.testBit_or,
        Nat.testBit_two_pow_of_ne (Ne.symm haf), Nat.testBit_two_pow_of_ne (Ne.symm hat)]
      rfl
    refine ⟨a, ha, ?_⟩
    rw [Nat.testBit_and, Nat.testBit_and, Bool.and_eq_true, Bool.and_eq_true]
    refine ⟨⟨?_, ?_⟩, ?_⟩
    · rw [EnPassantM_testBit hf7 ha, decide_eq_true_eq, and_seven]
      omega
    · simp only [Pawns, Nat.testBit_and, Bool.and_eq_true] at hPw ⊢
      obtain ⟨⟨h1, h2⟩, h3⟩ := hPw
      refine ⟨⟨?_, h2⟩, h3⟩
      rw [Nat.testBit_xor, hpd, Bool.xor_false]
      exact h1
    · simp only [Occupation] at hOp ⊢
      rw [Nat.testBit_xor, Nat.testBit_or, Nat.testBit_or] at hOp
      rw [Nat.testBit_xor, Nat.testBit_xor, hpd, Bool.xor_false,
        Nat.testBit_or, Nat.testBit_or, Nat.testBit_xor, hpd, Bool.xor_false]
      exact hOp


set_option maxRecDepth 10000 in
/-- C5 counterexample: in `c5Board` the double push b2-b4 is legal and sets
`EnPassant` to file 1, yet the only en-passant recapture (by the pinned a4
pawn) is rejected by `Illegal`, so no legal en-passant capture exists. -/
theorem make_ep_flag_counterexample :
    c5Move ∈ GenerateQuiets c5Board ∧ Illegal c5Board c5Move = 0 ∧
    (Make c5Board c5Move).EnPassant = 1 ∧
    ∀ mv ∈ GenerateCapture (Make c5Board c5Move),
      mv.MoveType &&& EP ≠ 0 → Illegal (Make c5Board c5Move) mv ≠ 0 := by decide

/-- C5 (amended): after `Make` of a double pawn push, `EnPassant` equals the
pushed pawn's file if and only if an opposing pawn stands on an adjacent file
of the destination rank - mere adjacency, with no legality check of the
recapture - and it equals the sentinel 8 otherwise. -/
theorem make_ep_file_iff (p : TBoard) (m : TMove)
    (hmt : m.MoveType = PAWN) (hF8 : 8 <= m.From) (hF16 : m.From < 16)
    (hTo : m.To = m.From + 16) :
    ((Make p m).EnPassant = m.To % 8 ↔
      ∃ a, a < 64 ∧ a / 8 = m.To / 8 ∧ (a + 1 = m.To ∨ a = m.To + 1) ∧
        (Pawns p).testBit a = true ∧ (p.PM ^^^ Occupation p).testBit a = true) ∧
    ((Make p m).EnPassant = m.To % 8 ∨ (Make p m).EnPassant = 8) := by
  have key := make_doublePush_enPassant p m hmt hF8 hF16 hTo
  have h8 : ¬((8 : Nat) = m.To % 8) := by
    have := Nat.mod_lt m.To (show 0 < 8 by norm_num)
    omega
  by_cases hmask : EnPassantM (m.To &&& 7) &&&
      Pawns { p with PM := p.PM ^^^ (shl 1 m.From ||| shl 1 m.To),
                     P0 := p.P0 ^^^ (shl 1 m.From ||| shl 1 m.To), EnPassant := 8 } &&&
      (p.PM ^^^ (shl 1 m.From ||| shl 1 m.To) ^^^
        Occupation { p with PM := p.PM ^^^ (shl 1 m.From ||| shl 1 m.To),
                            P0 := p.P0 ^^^ (shl 1 m.From ||| shl 1 m.To), EnPassant := 8 }) ≠ 0
  · rw [key, if_pos hmask]
    exact ⟨⟨fun _ => (epMask_iff p hF8 hF16 hTo).mp hmask, fun _ => rfl⟩, Or.inl rfl⟩
  · rw [key, if_neg hmask]
    exact ⟨⟨fun h => absurd h h8,
      fun hex => absurd ((epMask_iff p hF8 hF16 hTo).mpr hex) hmask⟩, Or.inr rfl⟩

theorem make_ep_file_iff_witness :
    (((Make c5Board c5Move).EnPassant = c5Move.To % 8 ↔
      ∃ a, a < 64 ∧ a / 8 = c5Move.To / 8 ∧ (a + 1 = c5Move.To ∨ a = c5Move.To + 1) ∧
        (Pawns c5Board).testBit a = true ∧
        (c5Board.PM ^^^ Occupation c5Board).testBit a = true) ∧
     ((Make c5Board c5Move).EnPassant = c5Move.To % 8 ∨
      (Make c5Board c5Move).EnPassant = 8)) :=
  make_ep_file_iff c5Board c5Move rfl (by decide) (by decide) rfl

set_option maxRecDepth 10000 in
/-- C9 counterexample: `c9Board` satisfies PM subset-of occupancy, the
en-passant capture b5xa6 is generated and passes the legality filter, yet
`Make` of it toggles the P0 bit of a5 - a square PM still claims - and the
resulting position violates the invariant. -/
theorem make_pm_subset_counterexample :
    c9Board.PM &&& Occupation c9Board = c9Board.PM ∧
    c9Move ∈ GenerateCapture c9Board ∧ Illegal c9Board c9Move = 0 ∧
    (Make c9Board c9Move).PM &&& Occupation (Make c9Board c9Move) ≠
      (Make c9Board c9Move).PM := by decide

/-- Bitboard subset, pointwise. -/
theorem and_eq_left_iff {x y : Nat} :
    x &&& y = x ↔ ∀ i, x.testBit i = true → y.testBit i = true := by
  constructor
  · intro h i hx
    have hc := congrArg (fun z => Nat.testBit z i) h
    simp only [Nat.testBit_and] at hc
    rw [hx, Bool.true_and] at hc
    exact hc
  · intro h
    apply Nat.eq_of_testBit_eq
    intro i
    rw [Nat.testBit_and]
    cases hx : x.testBit i
    · simp
    · rw [h i hx]
      rfl

/-- Bits of the from/to update mask `part | dest`. -/
theorem pd_testBit {F T : Nat} (hF : F < 64) (hT : T < 64) (i : Nat) :
    (shl 1 F ||| shl 1 T).testBit i = (decide (F = i) || decide (T = i)) := by
  rw [shl_one hF, shl_one hT, Nat.testBit_or, Nat.testBit_two_pow, Nat.testBit_two_pow]

/-- Core subset-preservation step shared by all non-castle `Make` branches:
moving the `PM` bit from `F` to `T` keeps `PM` inside any occupancy `Q` that
contains `T` and retains every other occupied own square. -/
theorem pd_sub_core (p : TBoard) {F T : Nat} (hF : F < 64) (hT : T < 64)
    (hPM64 : p.PM < M64) (hFrom : p.PM.testBit F = true) (Q : Nat)
    (hQT : Q.testBit T = true)
    (hQo : ∀ i, i < 64 → i ≠ F → i ≠ T → p.PM.testBit i = true → Q.testBit i = true) :
    (p.PM ^^^ (shl 1 F ||| shl 1 T)) &&& Q = p.PM ^^^ (shl 1 F ||| shl 1 T) := by
  rw [and_eq_left_iff]
  intro i hi
  rw [Nat.testBit_xor, pd_testBit hF hT] at hi
  by_cases hiT : i = T
  · rw [hiT]
    exact hQT
  · by_cases hiF : i = F
    · subst hiF
      rw [hFrom] at hi
      simp at hi
    · rw [decide_eq_false (fun h : F = i => hiF h.symm),
        decide_eq_false (fun h : T = i => hiT h.symm)] at hi
      simp only [Bool.or_false, Bool.xor_false] at hi
      by_cases hi64 : i < 64
      · exact hQo i hi64 hiF hiT hi
      · rw [testBit_ge64 hPM64 (by omega)] at hi
        exact absurd hi (by simp)

/-- An empty square is empty in every piece plane. -/
theorem occ_false {p : TBoard} {t : Nat} (h : (Occupation p).testBit t = false) :
    p.P0.testBit t = false ∧ p.P1.testBit t = false ∧ p.P2.testBit t = false := by
  simp only [Occupation, Nat.testBit_or, Bool.or_eq_false_iff] at h
  exact ⟨h.1.1, h.1.2, h.2⟩

/-- Clearing a destination bit empties it. -/
theorem clear_bit_self {x T : Nat} (hT : T < 64) :
    (x &&& bnot (shl 1 T)).testBit T = false := by
  rw [Nat.testBit_and, testBit_bnot_lt _ hT, shl_one hT, Nat.testBit_two_pow_self]
  simp

/-- Clearing a destination bit leaves other squares alone. -/
theorem clear_bit_ne {x T i : Nat} (hT : T < 64) (hi : i < 64) (hne : i ≠ T) :
    (x &&& bnot (shl 1 T)).testBit i = x.testBit i := by
  rw [Nat.testBit_and, testBit_bnot_lt _ hi, shl_one hT,
    Nat.testBit_two_pow_of_ne (fun h => hne h.symm)]
  simp

/-- A shifted 0/1 value has no bit outside the shift target. -/
theorem shl_bit_le_one {b : Nat} (hb : b ≤ 1) {T i : Nat} (hiT : i ≠ T) :
    (shl b T).testBit i = false := by
  rw [testBit_shl]
  rcases Nat.lt_or_ge i T with h | h
  · simp only [Bool.and_eq_false_iff]
    right; left
    simp only [decide_eq_false_iff_not]
    omega
  · have h2 : 1 ≤ i - T ∨ b = 0 := by omega
    rcases h2 with h2 | h2
    · have : b.testBit (i - T) = false := by
        apply Nat.testBit_lt_two_pow
        calc b ≤ 1 := hb
        _ < 2 ^ (i - T) := by
          have : (2:Nat) ^ 1 ≤ 2 ^ (i - T) := Nat.pow_le_pow_right (by norm_num) h2
          omega
      rw [this]
      simp
    · subst h2
      rw [Nat.zero_testBit]
      simp

/-- The side-to-move flip preserves PM being a subset of the occupancy. -/
theorem changeSide_preserves_sub (q : TBoard)
    (h : q.PM &&& Occupation q = q.PM) :
    (ChangeSide q).PM &&& Occupation (ChangeSide q) = (ChangeSide q).PM := by
  simp only [ChangeSide, Occupation] at h ⊢
  rw [← RevBB_or, ← RevBB_or, ← RevBB_and]
  congr 1
  rw [and_eq_left_iff] at h ⊢
  intro i hi
  cases hocc : (q.P0 ||| q.P1 ||| q.P2).testBit i
  · rw [Nat.testBit_xor, hocc, Bool.xor_false] at hi
    have h2 := h i hi
    rw [h2] at hocc
    exact absurd hocc (by simp)
  · rfl

/-- An occupied square is set in some piece plane. -/
theorem occ_or {p : TBoard} {i : Nat} (h : (Occupation p).testBit i = true) :
    p.P0.testBit i = true ∨ p.P1.testBit i = true ∨ p.P2.testBit i = true := by
  simp only [Occupation, Nat.testBit_or, Bool.or_eq_true] at h
  rcases h with (h | h) | h
  exacts [Or.inl h, Or.inr (Or.inl h), Or.inr (Or.inr h)]

/-- `Make`, pawn case: the mutated copy keeps PM inside the occupancy. -/
theorem makePawn_preserves_sub (p : TBoard) (m : TMove)
    (hPM64 : p.PM < M64)
    (hsub : p.PM &&& Occupation p = p.PM)
    (hF64 : m.From < 64) (hT64 : m.To < 64) (hFT : m.From ≠ m.To)
    (hFrom : p.PM.testBit m.From = true)
    (hq : m.MoveType &&& CAPTURE = 0 → (Occupation p).testBit m.To = false)
    (hEP : m.MoveType &&& EP ≠ 0 → 8 ≤ m.To ∧ m.From ≠ m.To - 8 ∧
      p.PM.testBit (m.To - 8) = false ∧ (Occupation p).testBit m.To = false)
    (hProm : m.MoveType &&& PROMO ≠ 0 → 2 ≤ m.Prom ∧ m.Prom ≤ 5) :
    (MakePawn p m (shl 1 m.From) (shl 1 m.To)).PM &&&
      Occupation (MakePawn p m (shl 1 m.From) (shl 1 m.To)) =
      (MakePawn p m (shl 1 m.From) (shl 1 m.To)).PM := by
  have hsub' := and_eq_left_iff.mp hsub
  simp only [MakePawn]
  by_cases hEPf : m.MoveType &&& EP ≠ 0
  · rw [if_pos hEPf]
    obtain ⟨hT8, hFV, hPMV, hToE⟩ := hEP hEPf
    obtain ⟨hE0, hE1, hE2⟩ := occ_false hToE
    have hV : (shl 1 m.To >>> 8) = 2 ^ (m.To - 8) := by
      rw [shl_one hT64, pow_shr8 hT8]
    simp only [Occupation]
    apply pd_sub_core p hF64 hT64 hPM64 hFrom
    · rw [Nat.testBit_or, Nat.testBit_or, Nat.testBit_xor, hV,
        Nat.testBit_two_pow_of_ne (show m.To - 8 ≠ m.To by omega),
        Nat.testBit_xor, pd_testBit hF64 hT64,
        decide_eq_false (fun h : m.From = m.To => hFT h),
        decide_eq_true (rfl : m.To = m.To), hE0]
      rfl
    · intro i hi64 hiF hiT hPMi
      by_cases hiV : i = m.To - 8
      · rw [hiV] at hPMi
        rw [hPMi] at hPMV
        exact absurd hPMV (by simp)
      · have hocci := hsub' i hPMi
        rw [Nat.testBit_or, Nat.testBit_or, Nat.testBit_xor, hV,
          Nat.testBit_two_pow_of_ne (fun h => hiV h.symm),
          Nat.testBit_xor, pd_testBit hF64 hT64,
          decide_eq_false (fun h : m.From = i => hiF h.symm),
          decide_eq_false (fun h : m.To = i => hiT h.symm)]
        simp only [Bool.or_false, Bool.xor_false]
        rcases occ_or hocci with h | h | h
        · rw [h]; rfl
        · rw [h]; simp
        · rw [h]; simp
  · rw [if_neg hEPf]
    simp only [Occupation, apply_ite TBoard.PM, apply_ite TBoard.P0, apply_ite TBoard.P1,
      apply_ite TBoard.P2, ite_self]
    by_cases hcap : m.MoveType &&& CAPTURE ≠ 0
    · rw [if_pos hcap, if_pos hcap, if_pos hcap]
      by_cases hPr : m.MoveType &&& PROMO ≠ 0
      · rw [if_pos hPr, if_pos hPr, if_pos hPr]
        refine pd_sub_core p hF64 hT64 hPM64 hFrom _ ?_ ?_
        · have hPromF := hProm hPr
          have h4 : m.Prom = 2 ∨ m.Prom = 3 ∨ m.Prom = 4 ∨ m.Prom = 5 := by omega
          simp only [Nat.testBit_or]
          rcases h4 with h | h | h | h <;> rw [h]
          · rw [show ((2:Nat) >>> 1 &&& 1) = 1 from rfl, shl_one hT64,
              Nat.testBit_two_pow_self]
            simp
          · rw [show ((3:Nat) >>> 1 &&& 1) = 1 from rfl, shl_one hT64,
              Nat.testBit_two_pow_self]
            simp
          · rw [show ((4:Nat) >>> 2) = 1 from rfl, shl_one hT64, Nat.testBit_two_pow_self]
            simp
          · rw [show ((5:Nat) >>> 2) = 1 from rfl, shl_one hT64, Nat.testBit_two_pow_self]
            simp
        · intro i hi64 hiF hiT hPMi
          have hocci := hsub' i hPMi
          have hb0 : m.Prom &&& 1 ≤ 1 := Nat.and_le_right
          have hb1 : (m.Prom >>> 1) &&& 1 ≤ 1 := Nat.and_le_right
          have hb2 : m.Prom >>> 2 ≤ 1 := by
            have h5 := (hProm hPr).2
            rw [Nat.shiftRight_eq_div_pow, show (2:Nat) ^ 2 = 4 from by norm_num]
            omega
          simp only [Nat.testBit_or]
          rw [shl_bit_le_one hb0 hiT, shl_bit_le_one hb1 hiT, shl_bit_le_one hb2 hiT,
            Nat.testBit_xor, clear_bit_ne hT64 hi64 hiT, clear_bit_ne hT64 hi64 hiT,
            clear_bit_ne hT64 hi64 hiT, shl_one hF64,
            Nat.testBit_two_pow_of_ne (fun h : m.From = i => hiF h.symm)]
          simp only [Bool.xor_false, Bool.or_false]
          rcases occ_or hocci with h | h | h <;> rw [h] <;> simp
      · rw [if_neg hPr, if_neg hPr, if_neg hPr]
        refine pd_sub_core p hF64 hT64 hPM64 hFrom _ ?_ ?_
        · rw [Nat.testBit_or, Nat.testBit_or, Nat.testBit_xor, clear_bit_self hT64,
            pd_testBit hF64 hT64, decide_eq_true (rfl : m.To = m.To)]
          simp
        · intro i hi64 hiF hiT hPMi
          have hocci := hsub' i hPMi
          rw [Nat.testBit_or, Nat.testBit_or, Nat.testBit_xor, clear_bit_ne hT64 hi64 hiT,
            pd_testBit hF64 hT64, decide_eq_false (fun h : m.From = i => hiF h.symm),
            decide_eq_false (fun h : m.To = i => hiT h.symm), clear_bit_ne hT64 hi64 hiT,
            clear_bit_ne hT64 hi64 hiT]
          simp only [Bool.or_false, Bool.xor_false]
          rcases occ_or hocci with h | h | h <;> rw [h] <;> simp
    · rw [if_neg hcap, if_neg hcap, if_neg hcap]
      by_cases hPr : m.MoveType &&& PROMO ≠ 0
      · rw [if_pos hPr, if_pos hPr, if_pos hPr]
        refine pd_sub_core p hF64 hT64 hPM64 hFrom _ ?_ ?_
        · have hPromF := hProm hPr
          have h4 : m.Prom = 2 ∨ m.Prom = 3 ∨ m.Prom = 4 ∨ m.Prom = 5 := by omega
          simp only [Nat.testBit_or]
          rcases h4 with h | h | h | h <;> rw [h]
          · rw [show ((2:Nat) >>> 1 &&& 1) = 1 from rfl, shl_one hT64,
              Nat.testBit_two_pow_self]
            simp
          · rw [show ((3:Nat) >>> 1 &&& 1) = 1 from rfl, shl_one hT64,
              Nat.testBit_two_pow_self]
            simp
          · rw [show ((4:Nat) >>> 2) = 1 from rfl, shl_one hT64, Nat.testBit_two_pow_self]
            simp
          · rw [show ((5:Nat) >>> 2) = 1 from rfl, shl_one hT64, Nat.testBit_two_pow_self]
            simp
        · intro i hi64 hiF hiT hPMi
          have hocci := hsub' i hPMi
          have hb0 : m.Prom &&& 1 ≤ 1 := Nat.and_le_right
          have hb1 : (m.Prom >>> 1) &&& 1 ≤ 1 := Nat.and_le_right
          have hb2 : m.Prom >>> 2 ≤ 1 := by
            have h5 := (hProm hPr).2
            rw [Nat.shiftRight_eq_div_pow, show (2:Nat) ^ 2 = 4 from by norm_num]
            omega
          simp only [Nat.testBit_or]
          rw [shl_bit_le_one hb0 hiT, shl_bit_le_one hb1 hiT, shl_bit_le_one hb2 hiT,
            Nat.testBit_xor, shl_one hF64,
            Nat.testBit_two_pow_of_ne (fun h : m.From = i => hiF h.symm)]
          simp only [Bool.xor_false, Bool.or_false]
          rcases occ_or hocci with h | h | h <;> rw [h] <;> simp
      · rw [if_neg hPr, if_neg hPr, if_neg hPr]
        have hToE := hq (by omega)
        obtain ⟨hE0, hE1, hE2⟩ := occ_false hToE
        refine pd_sub_core p hF64 hT64 hPM64 hFrom _ ?_ ?_
        · rw [Nat.testBit_or, Nat.testBit_or, Nat.testBit_xor, hE0,
            pd_testBit hF64 hT64, decide_eq_true (rfl : m.To = m.To)]
          simp
        · intro i hi64 hiF hiT hPMi
          have hocci := hsub' i hPMi
          rw [Nat.testBit_or, Nat.testBit_or, Nat.testBit_xor,
            pd_testBit hF64 hT64, decide_eq_false (fun h : m.From = i => hiF h.symm),
            decide_eq_false (fun h : m.To = i => hiT h.symm)]
          simp only [Bool.or_false, Bool.xor_false]
          rcases occ_or hocci with h | h | h <;> rw [h] <;> simp


/-- Shared step for the slider planes with their selection tests. -/
theorem slider_planes_core (p : TBoard) {F T : Nat} (hF : F < 64) (hT : T < 64)
    (hPM64 : p.PM < M64)
    (hsub' : ∀ i, p.PM.testBit i = true → (Occupation p).testBit i = true)
    (hFrom : p.PM.testBit F = true)
    {c0 c1 c2 : Prop} [Decidable c0] [Decidable c1] [Decidable c2]
    {x0 x1 x2 : Nat}
    (hx0 : ∀ i, i < 64 → i ≠ T → x0.testBit i = p.P0.testBit i)
    (hx1 : ∀ i, i < 64 → i ≠ T → x1.testBit i = p.P1.testBit i)
    (hx2 : ∀ i, i < 64 → i ≠ T → x2.testBit i = p.P2.testBit i)
    (hxT0 : x0.testBit T = false) (hxT1 : x1.testBit T = false) (hxT2 : x2.testBit T = false)
    (hsome : c0 ∨ c1 ∨ c2) :
    (p.PM ^^^ (shl 1 F ||| shl 1 T)) &&&
      ((if c0 then x0 ^^^ (shl 1 F ||| shl 1 T) else x0) |||
       (if c1 then x1 ^^^ (shl 1 F ||| shl 1 T) else x1) |||
       (if c2 then x2 ^^^ (shl 1 F ||| shl 1 T) else x2)) =
      p.PM ^^^ (shl 1 F ||| shl 1 T) := by
  apply pd_sub_core p hF hT hPM64 hFrom
  · simp only [Nat.testBit_or]
    rcases hsome with hc | hc | hc
    · rw [if_pos hc, Nat.testBit_xor, hxT0, pd_testBit hF hT,
        decide_eq_true (rfl : T = T)]
      simp
    · rw [if_pos hc, Nat.testBit_xor, hxT1, pd_testBit hF hT,
        decide_eq_true (rfl : T = T)]
      simp
    · rw [if_pos hc, Nat.testBit_xor, hxT2, pd_testBit hF hT,
        decide_eq_true (rfl : T = T)]
      simp
  · intro i hi64 hiF hiT hPMi
    have hocci := hsub' i hPMi
    have hpdi : (shl 1 F ||| shl 1 T).testBit i = false := by
      rw [pd_testBit hF hT, decide_eq_false (fun h : F = i => hiF h.symm),
        decide_eq_false (fun h : T = i => hiT h.symm)]
      rfl
    simp only [Nat.testBit_or, apply_ite (fun z => Nat.testBit z i), Nat.testBit_xor,
      hpdi, Bool.xor_false, ite_self, hx0 i hi64 hiT, hx1 i hi64 hiT, hx2 i hi64 hiT]
    rcases occ_or hocci with h | h | h <;> rw [h] <;> simp

/-- `Make`, slider case: the mutated copy keeps PM inside the occupancy. -/
theorem makeSlider_preserves_sub (p : TBoard) (m : TMove)
    (hPM64 : p.PM < M64)
    (hsub : p.PM &&& Occupation p = p.PM)
    (hF64 : m.From < 64) (hT64 : m.To < 64)
    (hFrom : p.PM.testBit m.From = true)
    (hq : m.MoveType &&& CAPTURE = 0 → (Occupation p).testBit m.To = false)
    (hKB : KNIGHT ≤ m.MoveType &&& 0x07 ∧ m.MoveType &&& 0x07 ≤ QUEEN) :
    (MakeSlider p m (shl 1 m.From) (shl 1 m.To)).PM &&&
      Occupation (MakeSlider p m (shl 1 m.From) (shl 1 m.To)) =
      (MakeSlider p m (shl 1 m.From) (shl 1 m.To)).PM := by
  have hsub' := and_eq_left_iff.mp hsub
  have ha1 : m.MoveType &&& 1 = m.MoveType &&& 0x07 &&& 1 := by
    rw [Nat.and_assoc, show ((0x07:Nat) &&& 1) = 1 from rfl]
  have ha2 : m.MoveType &&& 2 = m.MoveType &&& 0x07 &&& 2 := by
    rw [Nat.and_assoc, show ((0x07:Nat) &&& 2) = 2 from rfl]
  have ha4 : m.MoveType &&& 4 = m.MoveType &&& 0x07 &&& 4 := by
    rw [Nat.and_assoc, show ((0x07:Nat) &&& 4) = 4 from rfl]
  have hmt4 : m.MoveType &&& 0x07 = 2 ∨ m.MoveType &&& 0x07 = 3 ∨
      m.MoveType &&& 0x07 = 4 ∨ m.MoveType &&& 0x07 = 5 := by
    rcases hKB with ⟨hl, hr⟩
    unfold KNIGHT at hl
    unfold QUEEN at hr
    omega
  have hsome : m.MoveType &&& 1 ≠ 0 ∨ m.MoveType &&& 2 ≠ 0 ∨ m.MoveType &&& 4 ≠ 0 := by
    rcases hmt4 with h | h | h | h
    · refine Or.inr (Or.inl ?_)
      rw [ha2, h]
      decide
    · refine Or.inr (Or.inl ?_)
      rw [ha2, h]
      decide
    · refine Or.inr (Or.inr ?_)
      rw [ha4, h]
      decide
    · refine Or.inr (Or.inr ?_)
      rw [ha4, h]
      decide
  simp only [MakeSlider]
  simp only [Occupation, apply_ite TBoard.PM, apply_ite TBoard.P0, apply_ite TBoard.P1,
    apply_ite TBoard.P2, ite_self]
  by_cases hcap : m.MoveType &&& CAPTURE ≠ 0
  · rw [if_pos hcap, if_pos hcap, if_pos hcap]
    exact slider_planes_core p hF64 hT64 hPM64 hsub' hFrom
      (fun i hi hiT => clear_bit_ne hT64 hi hiT)
      (fun i hi hiT => clear_bit_ne hT64 hi hiT)
      (fun i hi hiT => clear_bit_ne hT64 hi hiT)
      (clear_bit_self hT64) (clear_bit_self hT64) (clear_bit_self hT64) hsome
  · rw [if_neg hcap, if_neg hcap, if_neg hcap]
    obtain ⟨hE0, hE1, hE2⟩ := occ_false (hq (by omega))
    exact slider_planes_core p hF64 hT64 hPM64 hsub' hFrom
      (fun i hi hiT => rfl) (fun i hi hiT => rfl) (fun i hi hiT => rfl)
      hE0 hE1 hE2 hsome

/-- `Make`, king case: the mutated copy keeps PM inside the occupancy. -/
theorem makeKing_preserves_sub (p : TBoard) (m : TMove)
    (hPM64 : p.PM < M64)
    (hsub : p.PM &&& Occupation p = p.PM)
    (hF64 : m.From < 64) (hT64 : m.To < 64)
    (hFrom : p.PM.testBit m.From = true)
    (hq : m.MoveType &&& CAPTURE = 0 → (Occupation p).testBit m.To = false)
    (hCastle : m.MoveType &&& CASTLE ≠ 0 → m.From = 4 ∧
      ((m.To = 6 ∧ p.PM.testBit 7 = true ∧ (Occupation p).testBit 5 = false) ∨
       (m.To ≠ 6 ∧ m.To = 2 ∧ p.PM.testBit 0 = true ∧ (Occupation p).testBit 3 = false))) :
    (MakeKing p m (shl 1 m.From) (shl 1 m.To)).PM &&&
      Occupation (MakeKing p m (shl 1 m.From) (shl 1 m.To)) =
      (MakeKing p m (shl 1 m.From) (shl 1 m.To)).PM := by
  have hsub' := and_eq_left_iff.mp hsub
  simp only [MakeKing]
  simp only [Occupation, apply_ite TBoard.PM, apply_ite TBoard.P0, apply_ite TBoard.P1,
    apply_ite TBoard.P2, ite_self]
  by_cases hcap : m.MoveType &&& CAPTURE ≠ 0
  · rw [if_pos hcap, if_pos hcap, if_pos hcap, if_pos hcap, if_pos hcap]
    apply pd_sub_core p hF64 hT64 hPM64 hFrom
    · rw [Nat.testBit_or, Nat.testBit_or, Nat.testBit_xor, clear_bit_self hT64,
        clear_bit_self hT64, pd_testBit hF64 hT64, decide_eq_true (rfl : m.To = m.To)]
      simp
    · intro i hi64 hiF hiT hPMi
      rw [Nat.testBit_or, Nat.testBit_or, Nat.testBit_xor, Nat.testBit_xor,
        clear_bit_ne hT64 hi64 hiT, clear_bit_ne hT64 hi64 hiT, clear_bit_ne hT64 hi64 hiT,
        pd_testBit hF64 hT64, decide_eq_false (fun h : m.From = i => hiF h.symm),
        decide_eq_false (fun h : m.To = i => hiT h.symm)]
      simp only [Bool.or_false, Bool.xor_false]
      rcases occ_or (hsub' i hPMi) with h | h | h <;> rw [h] <;> simp
  · rw [if_neg hcap, if_neg hcap, if_neg hcap, if_neg hcap, if_neg hcap]
    by_cases hcst : m.MoveType &&& CASTLE ≠ 0
    · obtain ⟨hF4, hrest⟩ := hCastle hcst
      rw [hF4] at hFrom
      by_cases hTo6 : m.To = 6
      · rw [if_pos hcst, if_pos hcst, if_pos hTo6, if_pos hTo6]
        rcases hrest with ⟨_, hR7, h5occ⟩ | ⟨hne6, _⟩
        · have hPM5 : p.PM.testBit 5 = false := by
            cases h : p.PM.testBit 5
            · rfl
            · have h2 := hsub' 5 h
              rw [h2] at h5occ
              exact absurd h5occ (by simp)
          have hP25 : p.P2.testBit 5 = false := by
            cases h : p.P2.testBit 5
            · rfl
            · have h2 : (Occupation p).testBit 5 = true := by
                simp only [Occupation, Nat.testBit_or]
                rw [h]
                simp
              rw [h2] at h5occ
              exact absurd h5occ (by simp)
          have hocc6 := hq (by omega)
          rw [hTo6] at hocc6
          obtain ⟨h60, h61, h62⟩ := occ_false hocc6
          rw [hF4, hTo6]
          rw [and_eq_left_iff]
          intro i hi
          have hA0 : ∀ j : Nat, (160 : Nat).testBit j =
              (decide (5 = j) || decide (7 = j)) := by
            intro j
            rw [show (160:Nat) = 2 ^ 5 ||| 2 ^ 7 from rfl, Nat.testBit_or,
              Nat.testBit_two_pow, Nat.testBit_two_pow]
          rw [Nat.testBit_xor, Nat.testBit_xor,
            pd_testBit (show (4:Nat) < 64 by norm_num) (show (6:Nat) < 64 by norm_num),
            hA0] at hi
          rw [Nat.testBit_or, Nat.testBit_or, Nat.testBit_xor, Nat.testBit_xor,
            Nat.testBit_xor,
            pd_testBit (show (4:Nat) < 64 by norm_num) (show (6:Nat) < 64 by norm_num),
            hA0]
          by_cases h4i : i = 4
          · subst h4i
            rw [hFrom] at hi
            simp at hi
          · by_cases h6i : i = 6
            · subst h6i
              simp [h61]
            · by_cases h5i : i = 5
              · subst h5i
                simp [hP25]
              · by_cases h7i : i = 7
                · subst h7i
                  rw [hR7] at hi
                  simp at hi
                · simp only [decide_eq_false (fun h : (4:Nat) = i => h4i h.symm),
                    decide_eq_false (fun h : (6:Nat) = i => h6i h.symm),
                    decide_eq_false (fun h : (5:Nat) = i => h5i h.symm),
                    decide_eq_false (fun h : (7:Nat) = i => h7i h.symm),
                    Bool.or_false, Bool.xor_false] at hi ⊢
                  rcases occ_or (hsub' i hi) with h | h | h <;> rw [h] <;> simp
        · exact absurd hTo6 hne6
      · rw [if_pos hcst, if_pos hcst, if_neg hTo6, if_neg hTo6]
        rcases hrest with ⟨h6, _⟩ | ⟨_, hTo2, hR0, h3occ⟩
        · exact absurd h6 hTo6
        · have hPM3 : p.PM.testBit 3 = false := by
            cases h : p.PM.testBit 3
            · rfl
            · have h2 := hsub' 3 h
              rw [h2] at h3occ
              exact absurd h3occ (by simp)
          have hP23 : p.P2.testBit 3 = false := by
            cases h : p.P2.testBit 3
            · rfl
            · have h2 : (Occupation p).testBit 3 = true := by
                simp only [Occupation, Nat.testBit_or]
                rw [h]
                simp
              rw [h2] at h3occ
              exact absurd h3occ (by simp)
          have hocc2 := hq (by omega)
          rw [hTo2] at hocc2
          obtain ⟨h20, h21, h22⟩ := occ_false hocc2
          rw [hF4, hTo2]
          rw [and_eq_left_iff]
          intro i hi
          have hA9 : ∀ j : Nat, (9 : Nat).testBit j =
              (decide (0 = j) || decide (3 = j)) := by
            intro j
            rw [show (9:Nat) = 2 ^ 0 ||| 2 ^ 3 from rfl, Nat.testBit_or,
              Nat.testBit_two_pow, Nat.testBit_two_pow]
          rw [Nat.testBit_xor, Nat.testBit_xor,
            pd_testBit (show (4:Nat) < 64 by norm_num) (show (2:Nat) < 64 by norm_num),
            hA9] at hi
          rw [Nat.testBit_or, Nat.testBit_or, Nat.testBit_xor, Nat.testBit_xor,
            Nat.testBit_xor,
            pd_testBit (show (4:Nat) < 64 by norm_num) (show (2:Nat) < 64 by norm_num),
            hA9]
          by_cases h4i : i = 4
          · subst h4i
            rw [hFrom] at hi
            simp at hi
          · by_cases h2i : i = 2
            · subst h2i
              simp [h21]
            · by_cases h3i : i = 3
              · subst h3i
                simp [hP23]
              · by_cases h0i : i = 0
                · subst h0i
                  rw [hR0] at hi
                  simp at hi
                · simp only [decide_eq_false (fun h : (4:Nat) = i => h4i h.symm),
                    decide_eq_false (fun h : (2:Nat) = i => h2i h.symm),
                    decide_eq_false (fun h : (3:Nat) = i => h3i h.symm),
                    decide_eq_false (fun h : (0:Nat) = i => h0i h.symm),
                    Bool.or_false, Bool.xor_false] at hi ⊢
                  rcases occ_or (hsub' i hi) with h | h | h <;> rw [h] <;> simp
    · rw [if_neg hcst, if_neg hcst]
      obtain ⟨hE0, hE1, hE2⟩ := occ_false (hq (by omega))
      apply pd_sub_core p hF64 hT64 hPM64 hFrom
      · rw [Nat.testBit_or, Nat.testBit_or, Nat.testBit_xor, hE1,
          pd_testBit hF64 hT64, decide_eq_true (rfl : m.To = m.To)]
        simp
      · intro i hi64 hiF hiT hPMi
        rw [Nat.testBit_or, Nat.testBit_or, Nat.testBit_xor, Nat.testBit_xor,
          pd_testBit hF64 hT64, decide_eq_false (fun h : m.From = i => hiF h.symm),
          decide_eq_false (fun h : m.To = i => hiT h.symm)]
        simp only [Bool.or_false, Bool.xor_false]
        rcases occ_or (hsub' i hPMi) with h | h | h <;> rw [h] <;> simp

/-- C9 (amended): the side-to-move flip always preserves the invariant
PM subset-of P0|P1|P2, and `Make` preserves it for every sanely applied move:
own piece on the origin, quiet destinations empty, for en-passant an
occupied-by-opponent victim square (PM clear there) and empty target, promotion
pieces in knight..queen, and castle moves from e1 with the rook corner held by
the mover and the rook transit square empty. Mere PM-subset of the source
position is not enough: the en-passant branch of Make toggles the victim
square's pawn plane unconditionally (see the counterexample). -/
theorem make_preserves_pm_subset (p : TBoard) (m : TMove)
    (hPM64 : p.PM < M64)
    (hsub : p.PM &&& Occupation p = p.PM)
    (hF64 : m.From < 64) (hT64 : m.To < 64) (hFT : m.From ≠ m.To)
    (hFrom : p.PM.testBit m.From = true)
    (hq : m.MoveType &&& CAPTURE = 0 → (Occupation p).testBit m.To = false)
    (hEP : m.MoveType &&& EP ≠ 0 → 8 ≤ m.To ∧ m.From ≠ m.To - 8 ∧
      p.PM.testBit (m.To - 8) = false ∧ (Occupation p).testBit m.To = false)
    (hProm : m.MoveType &&& PROMO ≠ 0 → 2 ≤ m.Prom ∧ m.Prom ≤ 5)
    (hCastle : m.MoveType &&& CASTLE ≠ 0 → m.From = 4 ∧
      ((m.To = 6 ∧ p.PM.testBit 7 = true ∧ (Occupation p).testBit 5 = false) ∨
       (m.To ≠ 6 ∧ m.To = 2 ∧ p.PM.testBit 0 = true ∧ (Occupation p).testBit 3 = false))) :
    (Make p m).PM &&& Occupation (Make p m) = (Make p m).PM := by
  simp only [Make]
  by_cases h1 : m.MoveType &&& 0x07 = PAWN
  · rw [if_pos h1]
    exact changeSide_preserves_sub _
      (makePawn_preserves_sub p m hPM64 hsub hF64 hT64 hFT hFrom hq hEP hProm)
  · rw [if_neg h1]
    by_cases h2 : m.MoveType &&& 0x07 = KING
    · rw [if_pos h2]
      exact changeSide_preserves_sub _
        (makeKing_preserves_sub p m hPM64 hsub hF64 hT64 hFrom hq hCastle)
    · rw [if_neg h2]
      by_cases h3 : KNIGHT ≤ m.MoveType &&& 0x07 ∧ m.MoveType &&& 0x07 ≤ QUEEN
      · rw [if_pos h3]
        exact changeSide_preserves_sub _
          (makeSlider_preserves_sub p m hPM64 hsub hF64 hT64 hFrom hq h3)
      · rw [if_neg h3]
        exact hsub

theorem make_preserves_pm_subset_witness :
    (Make sampleBoard sampleMove).PM &&& Occupation (Make sampleBoard sampleMove) =
      (Make sampleBoard sampleMove).PM :=
  make_preserves_pm_subset sampleBoard sampleMove (by decide) (by decide) (by decide)
    (by decide) (by decide) (by decide) (by decide) (by decide) (by decide) (by decide)

/-- Decrementing an odd number only clears bit 0. -/
theorem odd_pred_testBit {m : Nat} (hm : m % 2 = 1) {k : Nat} (hk : 1 ≤ k) :
    (m - 1).testBit k = m.testBit k := by
  obtain ⟨r, hr⟩ : ∃ r, m = 2 * r + 1 := ⟨m / 2, by omega⟩
  subst hr
  obtain ⟨k', hk'⟩ : ∃ k', k = k' + 1 := ⟨k - 1, by omega⟩
  subst hk'
  rw [show 2 * r + 1 - 1 = 2 * r from by omega, Nat.testBit_add_one, Nat.testBit_add_one,
    show 2 * r / 2 = r from by omega, show (2 * r + 1) / 2 = r from by omega]

/-- `ExtractLSB` (two's-complement AND) isolates the lowest set bit. -/
theorem ExtractLSB_eq {x : Nat} (hx : x < M64) (hne : x ≠ 0) : ExtractLSB x = 2 ^ LSB x := by
  obtain ⟨hbit, hmin⟩ := LSB_spec hne hx
  have hl64 : LSB x < 64 := by
    by_contra hc
    rw [testBit_ge64 hx (by omega)] at hbit
    exact absurd hbit (by simp)
  have hmod : x % 2 ^ LSB x = 0 := by
    apply Nat.eq_of_testBit_eq
    intro j
    rw [Nat.testBit_mod_two_pow, Nat.zero_testBit]
    by_cases hj : j < LSB x
    · rw [hmin j hj]
      simp
    · simp [hj]
  have hxd : x = 2 ^ LSB x * (x / 2 ^ LSB x) := by
    conv_lhs => rw [← Nat.div_add_mod x (2 ^ LSB x)]
    rw [hmod, Nat.add_zero]
  have hmodd : (x / 2 ^ LSB x) % 2 = 1 := by
    have h0 : (x / 2 ^ LSB x).testBit 0 = x.testBit (LSB x) := by
      rw [← Nat.shiftRight_eq_div_pow, Nat.testBit_shiftRight, Nat.add_zero]
    rw [hbit, Nat.testBit_zero] at h0
    exact of_decide_eq_true h0
  have hm1 : 1 ≤ x / 2 ^ LSB x := by
    rcases Nat.eq_zero_or_pos (x / 2 ^ LSB x) with h0 | h1
    · rw [h0, Nat.mul_zero] at hxd
      exact absurd hxd hne
    · exact h1
  have hx1 : x - 1 = 2 ^ LSB x * (x / 2 ^ LSB x - 1) + (2 ^ LSB x - 1) := by
    have h2l : 1 ≤ 2 ^ LSB x := Nat.one_le_two_pow
    conv_lhs => rw [hxd]
    obtain ⟨m', hm'⟩ : ∃ m', x / 2 ^ LSB x = m' + 1 := ⟨x / 2 ^ LSB x - 1, by omega⟩
    rw [hm', Nat.add_sub_cancel, Nat.mul_add, Nat.mul_one]
    omega
  have hpred : ∀ i, (x - 1).testBit i =
      if i < LSB x then true else (x / 2 ^ LSB x - 1).testBit (i - LSB x) := by
    intro i
    rw [hx1, Nat.testBit_mul_pow_two_add _
      (Nat.sub_lt (Nat.pos_pow_of_pos _ (by norm_num)) (by norm_num))]
    by_cases hi : i < LSB x
    · rw [if_pos hi, if_pos hi, Nat.testBit_two_pow_sub_one, decide_eq_true hi]
    · rw [if_neg hi, if_neg hi]
  unfold ExtractLSB neg64
  have hx1lt : x - 1 < 2 ^ 64 := by
    rw [M64_eq] at hx
    omega
  have hneg : (M64 - x) % M64 = M64 - x := by
    apply Nat.mod_eq_of_lt
    unfold M64
    omega
  rw [hneg]
  apply Nat.eq_of_testBit_eq
  intro i
  have hsub : M64 - x = 2 ^ 64 - ((x - 1) + 1) := by
    rw [M64_eq]
    omega
  rw [Nat.testBit_and, hsub, Nat.testBit_two_pow_sub_succ hx1lt, Nat.testBit_two_pow]
  by_cases hil : i < LSB x
  · rw [hmin i hil, decide_eq_false (by omega : ¬ LSB x = i)]
    simp
  · by_cases hie : i = LSB x
    · subst hie
      rw [hbit, hpred, if_neg (lt_irrefl (LSB x)), Nat.sub_self, Nat.testBit_zero,
        decide_eq_false (by omega : ¬(x / 2 ^ LSB x - 1) % 2 = 1),
        decide_eq_true (rfl : LSB x = LSB x)]
      simp [hl64]
    · have hxi : x.testBit i = (x / 2 ^ LSB x).testBit (i - LSB x) := by
        conv_lhs => rw [hxd]
        rw [show 2 ^ LSB x * (x / 2 ^ LSB x) = 2 ^ LSB x * (x / 2 ^ LSB x) + 0 from
          (Nat.add_zero _).symm,
          Nat.testBit_mul_pow_two_add _ (Nat.pos_pow_of_pos _ (by norm_num)),
          if_neg (by omega)]
      rw [hpred, if_neg (by omega), odd_pred_testBit hmodd (by omega), hxi,
        decide_eq_false (fun h : LSB x = i => hie h.symm)]
      cases (x / 2 ^ LSB x).testBit (i - LSB x) <;> simp

/-- Bit-level reading of `ExtractLSB`: the minimal set bit survives. -/
theorem ExtractLSB_testBit {x : Nat} (hx : x < M64) (a : Nat) :
    (ExtractLSB x).testBit a = true ↔
      x.testBit a = true ∧ ∀ j, j < a → x.testBit j = false := by
  by_cases hne : x = 0
  · subst hne
    simp [ExtractLSB, neg64, Nat.zero_testBit]
  · rw [ExtractLSB_eq hx hne, Nat.testBit_two_pow]
    constructor
    · intro h
      obtain ⟨hbit, hmin⟩ := LSB_spec hne hx
      have he : LSB x = a := of_decide_eq_true h
      rw [← he]
      exact ⟨hbit, fun j hj => hmin j (by omega)⟩
    · rintro ⟨ha, hmin⟩
      rw [LSB_eq hx ha hmin]
      simp

theorem tb_vC (j : Nat) :
    Nat.testBit 0x0404040404040400 j = decide (j < 64 ∧ j % 8 = 2 ∧ 8 ≤ j) := by
  by_cases hj : j < 64
  · have h := (by decide : ∀ jj : Fin 64,
      Nat.testBit 0x0404040404040400 jj.val = decide (jj.val % 8 = 2 ∧ 8 ≤ jj.val))
    have h2 : Nat.testBit 0x0404040404040400 j = decide (j % 8 = 2 ∧ 8 ≤ j) := h ⟨j, hj⟩
    rw [h2]
    exact decide_eq_decide.mpr (by omega)
  · rw [testBit_ge64 (by decide) (by omega)]
    have hh : ¬ (j < 64 ∧ j % 8 = 2 ∧ 8 ≤ j) := by omega
    simp [hh]

theorem tb_vD (j : Nat) :
    Nat.testBit 0x0808080808080800 j = decide (j < 64 ∧ j % 8 = 3 ∧ 8 ≤ j) := by
  by_cases hj : j < 64
  · have h := (by decide : ∀ jj : Fin 64,
      Nat.testBit 0x0808080808080800 jj.val = decide (jj.val % 8 = 3 ∧ 8 ≤ jj.val))
    have h2 : Nat.testBit 0x0808080808080800 j = decide (j % 8 = 3 ∧ 8 ≤ j) := h ⟨j, hj⟩
    rw [h2]
    exact decide_eq_decide.mpr (by omega)
  · rw [testBit_ge64 (by decide) (by omega)]
    have hh : ¬ (j < 64 ∧ j % 8 = 3 ∧ 8 ≤ j) := by omega
    simp [hh]

theorem tb_vE (j : Nat) :
    Nat.testBit 0x1010101010101000 j = decide (j < 64 ∧ j % 8 = 4 ∧ 8 ≤ j) := by
  by_cases hj : j < 64
  · have h := (by decide : ∀ jj : Fin 64,
      Nat.testBit 0x1010101010101000 jj.val = decide (jj.val % 8 = 4 ∧ 8 ≤ jj.val))
    have h2 : Nat.testBit 0x1010101010101000 j = decide (j % 8 = 4 ∧ 8 ≤ j) := h ⟨j, hj⟩
    rw [h2]
    exact decide_eq_decide.mpr (by omega)
  · rw [testBit_ge64 (by decide) (by omega)]
    have hh : ¬ (j < 64 ∧ j % 8 = 4 ∧ 8 ≤ j) := by omega
    simp [hh]

theorem tb_vF (j : Nat) :
    Nat.testBit 0x2020202020202000 j = decide (j < 64 ∧ j % 8 = 5 ∧ 8 ≤ j) := by
  by_cases hj : j < 64
  · have h := (by decide : ∀ jj : Fin 64,
      Nat.testBit 0x2020202020202000 jj.val = decide (jj.val % 8 = 5 ∧ 8 ≤ jj.val))
    have h2 : Nat.testBit 0x2020202020202000 j = decide (j % 8 = 5 ∧ 8 ≤ j) := h ⟨j, hj⟩
    rw [h2]
    exact decide_eq_decide.mpr (by omega)
  · rw [testBit_ge64 (by decide) (by omega)]
    have hh : ¬ (j < 64 ∧ j % 8 = 5 ∧ 8 ≤ j) := by omega
    simp [hh]

theorem tb_vG (j : Nat) :
    Nat.testBit 0x4040404040404000 j = decide (j < 64 ∧ j % 8 = 6 ∧ 8 ≤ j) := by
  by_cases hj : j < 64
  · have h := (by decide : ∀ jj : Fin 64,
      Nat.testBit 0x4040404040404000 jj.val = decide (jj.val % 8 = 6 ∧ 8 ≤ jj.val))
    have h2 : Nat.testBit 0x4040404040404000 j = decide (j % 8 = 6 ∧ 8 ≤ j) := h ⟨j, hj⟩
    rw [h2]
    exact decide_eq_decide.mpr (by omega)
  · rw [testBit_ge64 (by decide) (by omega)]
    have hh : ¬ (j < 64 ∧ j % 8 = 6 ∧ 8 ≤ j) := by omega
    simp [hh]

theorem tb_east (j : Nat) :
    Nat.testBit 0xE0 j = decide (j < 8 ∧ 4 < j) := by
  by_cases hj : j < 64
  · have h := (by decide : ∀ jj : Fin 64,
      Nat.testBit 0xE0 jj.val = decide (jj.val < 8 ∧ 4 < jj.val))
    exact h ⟨j, hj⟩
  · rw [testBit_ge64 (by decide) (by omega)]
    have hh : ¬ (j < 8 ∧ 4 < j) := by omega
    simp [hh]

theorem tb_west (j : Nat) :
    Nat.testBit 0x0F j = decide (j < 4) := by
  by_cases hj : j < 64
  · have h := (by decide : ∀ jj : Fin 64, Nat.testBit 0x0F jj.val = decide (jj.val < 4))
    exact h ⟨j, hj⟩
  · rw [testBit_ge64 (by decide) (by omega)]
    have hh : ¬ (j < 4) := by omega
    simp [hh]

theorem tb_nwC (j : Nat) :
    Nat.testBit 0x0000000000010200 j = decide (j < 64 ∧ 8 ≤ j ∧ j % 8 + j / 8 = 2) := by
  by_cases hj : j < 64
  · have h := (by decide : ∀ jj : Fin 64, Nat.testBit 0x0000000000010200 jj.val =
      decide (8 ≤ jj.val ∧ jj.val % 8 + jj.val / 8 = 2))
    have h2 : Nat.testBit 0x0000000000010200 j = decide (8 ≤ j ∧ j % 8 + j / 8 = 2) :=
      h ⟨j, hj⟩
    rw [h2]
    exact decide_eq_decide.mpr (by omega)
  · rw [testBit_ge64 (by decide) (by omega)]
    have hh : ¬ (j < 64 ∧ 8 ≤ j ∧ j % 8 + j / 8 = 2) := by omega
    simp [hh]

theorem tb_nwD (j : Nat) :
    Nat.testBit 0x0000000001020400 j = decide (j < 64 ∧ 8 ≤ j ∧ j % 8 + j / 8 = 3) := by
  by_cases hj : j < 64
  · have h := (by decide : ∀ jj : Fin 64, Nat.testBit 0x0000000001020400 jj.val =
      decide (8 ≤ jj.val ∧ jj.val % 8 + jj.val / 8 = 3))
    have h2 : Nat.testBit 0x0000000001020400 j = decide (8 ≤ j ∧ j % 8 + j / 8 = 3) :=
      h ⟨j, hj⟩
    rw [h2]
    exact decide_eq_decide.mpr (by omega)
  · rw [testBit_ge64 (by decide) (by omega)]
    have hh : ¬ (j < 64 ∧ 8 ≤ j ∧ j % 8 + j / 8 = 3) := by omega
    simp [hh]

theorem tb_nwE (j : Nat) :
    Nat.testBit 0x0000000102040800 j = decide (j < 64 ∧ 8 ≤ j ∧ j % 8 + j / 8 = 4) := by
  by_cases hj : j < 64
  · have h := (by decide : ∀ jj : Fin 64, Nat.testBit 0x0000000102040800 jj.val =
      decide (8 ≤ jj.val ∧ jj.val % 8 + jj.val / 8 = 4))
    have h2 : Nat.testBit 0x0000000102040800 j = decide (8 ≤ j ∧ j % 8 + j / 8 = 4) :=
      h ⟨j, hj⟩
    rw [h2]
    exact decide_eq_decide.mpr (by omega)
  · rw [testBit_ge64 (by decide) (by omega)]
    have hh : ¬ (j < 64 ∧ 8 ≤ j ∧ j % 8 + j / 8 = 4) := by omega
    simp [hh]

theorem tb_nwF (j : Nat) :
    Nat.testBit 0x0000010204081000 j = decide (j < 64 ∧ 8 ≤ j ∧ j % 8 + j / 8 = 5) := by
  by_cases hj : j < 64
  · have h := (by decide : ∀ jj : Fin 64, Nat.testBit 0x0000010204081000 jj.val =
      decide (8 ≤ jj.val ∧ jj.val % 8 + jj.val / 8 = 5))
    have h2 : Nat.testBit 0x0000010204081000 j = decide (8 ≤ j ∧ j % 8 + j / 8 = 5) :=
      h ⟨j, hj⟩
    rw [h2]
    exact decide_eq_decide.mpr (by omega)
  · rw [testBit_ge64 (by decide) (by omega)]
    have hh : ¬ (j < 64 ∧ 8 ≤ j ∧ j % 8 + j / 8 = 5) := by omega
    simp [hh]

theorem tb_nwG (j : Nat) :
    Nat.testBit 0x0001020408102000 j = decide (j < 64 ∧ 8 ≤ j ∧ j % 8 + j / 8 = 6) := by
  by_cases hj : j < 64
  · have h := (by decide : ∀ jj : Fin 64, Nat.testBit 0x0001020408102000 jj.val =
      decide (8 ≤ jj.val ∧ jj.val % 8 + jj.val / 8 = 6))
    have h2 : Nat.testBit 0x0001020408102000 j = decide (8 ≤ j ∧ j % 8 + j / 8 = 6) :=
      h ⟨j, hj⟩
    rw [h2]
    exact decide_eq_decide.mpr (by omega)
  · rw [testBit_ge64 (by decide) (by omega)]
    have hh : ¬ (j < 64 ∧ 8 ≤ j ∧ j % 8 + j / 8 = 6) := by omega
    simp [hh]

theorem tb_neC (j : Nat) :
    Nat.testBit 0x0000804020100800 j = decide (j < 64 ∧ 8 ≤ j ∧ j % 8 = j / 8 + 2) := by
  by_cases hj : j < 64
  · have h := (by decide : ∀ jj : Fin 64, Nat.testBit 0x0000804020100800 jj.val =
      decide (8 ≤ jj.val ∧ jj.val % 8 = jj.val / 8 + 2))
    have h2 : Nat.testBit 0x0000804020100800 j = decide (8 ≤ j ∧ j % 8 = j / 8 + 2) :=
      h ⟨j, hj⟩
    rw [h2]
    exact decide_eq_decide.mpr (by omega)
  · rw [testBit_ge64 (by decide) (by omega)]
    have hh : ¬ (j < 64 ∧ 8 ≤ j ∧ j % 8 = j / 8 + 2) := by omega
    simp [hh]

theorem tb_neD (j : Nat) :
    Nat.testBit 0x0000008040201000 j = decide (j < 64 ∧ 8 ≤ j ∧ j % 8 = j / 8 + 3) := by
  by_cases hj : j < 64
  · have h := (by decide : ∀ jj : Fin 64, Nat.testBit 0x0000008040201000 jj.val =
      decide (8 ≤ jj.val ∧ jj.val % 8 = jj.val / 8 + 3))
    have h2 : Nat.testBit 0x0000008040201000 j = decide (8 ≤ j ∧ j % 8 = j / 8 + 3) :=
      h ⟨j, hj⟩
    rw [h2]
    exact decide_eq_decide.mpr (by omega)
  · rw [testBit_ge64 (by decide) (by omega)]
    have hh : ¬ (j < 64 ∧ 8 ≤ j ∧ j % 8 = j / 8 + 3) := by omega
    simp [hh]

theorem tb_neE (j : Nat) :
    Nat.testBit 0x0000000080402000 j = decide (j < 64 ∧ 8 ≤ j ∧ j % 8 = j / 8 + 4) := by
  by_cases hj : j < 64
  · have h := (by decide : ∀ jj : Fin 64, Nat.testBit 0x0000000080402000 jj.val =
      decide (8 ≤ jj.val ∧ jj.val % 8 = jj.val / 8 + 4))
    have h2 : Nat.testBit 0x0000000080402000 j = decide (8 ≤ j ∧ j % 8 = j / 8 + 4) :=
      h ⟨j, hj⟩
    rw [h2]
    exact decide_eq_decide.mpr (by omega)
  · rw [testBit_ge64 (by decide) (by omega)]
    have hh : ¬ (j < 64 ∧ 8 ≤ j ∧ j % 8 = j / 8 + 4) := by omega
    simp [hh]

theorem tb_neF (j : Nat) :
    Nat.testBit 0x0000000000804000 j = decide (j < 64 ∧ 8 ≤ j ∧ j % 8 = j / 8 + 5) := by
  by_cases hj : j < 64
  · have h := (by decide : ∀ jj : Fin 64, Nat.testBit 0x0000000000804000 jj.val =
      decide (8 ≤ jj.val ∧ jj.val % 8 = jj.val / 8 + 5))
    have h2 : Nat.testBit 0x0000000000804000 j = decide (8 ≤ j ∧ j % 8 = j / 8 + 5) :=
      h ⟨j, hj⟩
    rw [h2]
    exact decide_eq_decide.mpr (by omega)
  · rw [testBit_ge64 (by decide) (by omega)]
    have hh : ¬ (j < 64 ∧ 8 ≤ j ∧ j % 8 = j / 8 + 5) := by omega
    simp [hh]

theorem tb_neG (j : Nat) :
    Nat.testBit 0x8000 j = decide (j < 64 ∧ 8 ≤ j ∧ j % 8 = j / 8 + 6) := by
  by_cases hj : j < 64
  · have h := (by decide : ∀ jj : Fin 64, Nat.testBit 0x8000 jj.val =
      decide (8 ≤ jj.val ∧ jj.val % 8 = jj.val / 8 + 6))
    have h2 : Nat.testBit 0x8000 j = decide (8 ≤ j ∧ j % 8 = j / 8 + 6) := h ⟨j, hj⟩
    rw [h2]
    exact decide_eq_decide.mpr (by omega)
  · rw [testBit_ge64 (by decide) (by omega)]
    have hh : ¬ (j < 64 ∧ 8 ≤ j ∧ j % 8 = j / 8 + 6) := by omega
    simp [hh]

theorem tb_knL (j : Nat) :
    Nat.testBit 0x00000000003E7700 j =
      decide (j < 64 ∧ (knightGeom j 2 ∨ knightGeom j 3 ∨ knightGeom j 4)) := by
  by_cases hj : j < 64
  · have h := (by decide : ∀ jj : Fin 64, Nat.testBit 0x00000000003E7700 jj.val =
      decide (knightGeom jj.val 2 ∨ knightGeom jj.val 3 ∨ knightGeom jj.val 4))
    have h2 : Nat.testBit 0x00000000003E7700 j =
        decide (knightGeom j 2 ∨ knightGeom j 3 ∨ knightGeom j 4) := h ⟨j, hj⟩
    rw [h2]
    exact decide_eq_decide.mpr (by constructor <;> intro hx <;> [exact ⟨hj, hx⟩; exact hx.2])
  · rw [testBit_ge64 (by decide) (by omega)]
    have hh : ¬ (j < 64 ∧ (knightGeom j 2 ∨ knightGeom j 3 ∨ knightGeom j 4)) := by
      intro hx
      omega
    simp [hh]

theorem tb_knS (j : Nat) :
    Nat.testBit 0x0000000000F8DC00 j =
      decide (j < 64 ∧ (knightGeom j 4 ∨ knightGeom j 5 ∨ knightGeom j 6)) := by
  by_cases hj : j < 64
  · have h := (by decide : ∀ jj : Fin 64, Nat.testBit 0x0000000000F8DC00 jj.val =
      decide (knightGeom jj.val 4 ∨ knightGeom jj.val 5 ∨ knightGeom jj.val 6))
    have h2 : Nat.testBit 0x0000000000F8DC00 j =
        decide (knightGeom j 4 ∨ knightGeom j 5 ∨ knightGeom j 6) := h ⟨j, hj⟩
    rw [h2]
    exact decide_eq_decide.mpr (by constructor <;> intro hx <;> [exact ⟨hj, hx⟩; exact hx.2])
  · rw [testBit_ge64 (by decide) (by omega)]
    have hh : ¬ (j < 64 ∧ (knightGeom j 4 ∨ knightGeom j 5 ∨ knightGeom j 6)) := by
      intro hx
      omega
    simp [hh]

theorem tb_pwL (j : Nat) :
    Nat.testBit 0x0000000000003E00 j =
      decide (j < 64 ∧ (pawnGeomDown j 2 ∨ pawnGeomDown j 3 ∨ pawnGeomDown j 4)) := by
  by_cases hj : j < 64
  · have h := (by decide : ∀ jj : Fin 64, Nat.testBit 0x0000000000003E00 jj.val =
      decide (pawnGeomDown jj.val 2 ∨ pawnGeomDown jj.val 3 ∨ pawnGeomDown jj.val 4))
    have h2 : Nat.testBit 0x0000000000003E00 j =
        decide (pawnGeomDown j 2 ∨ pawnGeomDown j 3 ∨ pawnGeomDown j 4) := h ⟨j, hj⟩
    rw [h2]
    exact decide_eq_decide.mpr (by constructor <;> intro hx <;> [exact ⟨hj, hx⟩; exact hx.2])
  · rw [testBit_ge64 (by decide) (by omega)]
    have hh : ¬ (j < 64 ∧ (pawnGeomDown j 2 ∨ pawnGeomDown j 3 ∨ pawnGeomDown j 4)) := by
      intro hx
      omega
    simp [hh]

theorem tb_pwS (j : Nat) :
    Nat.testBit 0x000000000000F800 j =
      decide (j < 64 ∧ (pawnGeomDown j 4 ∨ pawnGeomDown j 5 ∨ pawnGeomDown j 6)) := by
  by_cases hj : j < 64
  · have h := (by decide : ∀ jj : Fin 64, Nat.testBit 0x000000000000F800 jj.val =
      decide (pawnGeomDown jj.val 4 ∨ pawnGeomDown jj.val 5 ∨ pawnGeomDown jj.val 6))
    have h2 : Nat.testBit 0x000000000000F800 j =
        decide (pawnGeomDown j 4 ∨ pawnGeomDown j 5 ∨ pawnGeomDown j 6) := h ⟨j, hj⟩
    rw [h2]
    exact decide_eq_decide.mpr (by constructor <;> intro hx <;> [exact ⟨hj, hx⟩; exact hx.2])
  · rw [testBit_ge64 (by decide) (by omega)]
    have hh : ¬ (j < 64 ∧ (pawnGeomDown j 4 ∨ pawnGeomDown j 5 ∨ pawnGeomDown j 6)) := by
      intro hx
      omega
    simp [hh]

theorem tb_kgL (j : Nat) :
    Nat.testBit 0x0000000000000600 j = decide (j = 9 ∨ j = 10) := by
  by_cases hj : j < 64
  · have h := (by decide : ∀ jj : Fin 64,
      Nat.testBit 0x0000000000000600 jj.val = decide (jj.val = 9 ∨ jj.val = 10))
    exact h ⟨j, hj⟩
  · rw [testBit_ge64 (by decide) (by omega)]
    have hh : ¬ (j = 9 ∨ j = 10) := by omega
    simp [hh]

theorem tb_kgS (j : Nat) :
    Nat.testBit 0x0000000000004000 j = decide (j = 14) := by
  by_cases hj : j < 64
  · have h := (by decide : ∀ jj : Fin 64,
      Nat.testBit 0x0000000000004000 jj.val = decide (jj.val = 14))
    exact h ⟨j, hj⟩
  · rw [testBit_ge64 (by decide) (by omega)]
    have hh : ¬ (j = 14) := by omega
    simp [hh]

theorem tb_e0 (j : Nat) :
    Nat.testBit 0x0E j = decide (j = 1 ∨ j = 2 ∨ j = 3) := by
  by_cases hj : j < 64
  · have h := (by decide : ∀ jj : Fin 64,
      Nat.testBit 0x0E jj.val = decide (jj.val = 1 ∨ jj.val = 2 ∨ jj.val = 3))
    exact h ⟨j, hj⟩
  · rw [testBit_ge64 (by decide) (by omega)]
    have hh : ¬ (j = 1 ∨ j = 2 ∨ j = 3) := by omega
    simp [hh]

theorem tb_60 (j : Nat) :
    Nat.testBit 0x60 j = decide (j = 5 ∨ j = 6) := by
  by_cases hj : j < 64
  · have h := (by decide : ∀ jj : Fin 64,
      Nat.testBit 0x60 jj.val = decide (jj.val = 5 ∨ jj.val = 6))
    exact h ⟨j, hj⟩
  · rw [testBit_ge64 (by decide) (by omega)]
    have hh : ¬ (j = 5 ∨ j = 6) := by omega
    simp [hh]

/-- A masked-occupancy `ExtractLSB` scan holds a square iff it is the
nearest occupied square of the scan set. -/
theorem scanLSB_iff {mask occ : Nat} (hocc : occ < M64) {R : Nat → Prop}
    [DecidablePred R] (hchar : ∀ j, mask.testBit j = decide (R j)) (a : Nat) :
    (ExtractLSB (mask &&& occ)).testBit a = true ↔
      R a ∧ occ.testBit a = true ∧ ∀ j, j < a → R j → occ.testBit j = false := by
  rw [ExtractLSB_testBit (and_lt64 _ hocc)]
  constructor
  · rintro ⟨hbit, hmin⟩
    rw [Nat.testBit_and, hchar, Bool.and_eq_true, decide_eq_true_eq] at hbit
    refine ⟨hbit.1, hbit.2, ?_⟩
    intro j hj hRj
    have h2 := hmin j hj
    rw [Nat.testBit_and, hchar, decide_eq_true hRj, Bool.true_and] at h2
    exact h2
  · rintro ⟨hR, hocca, hmin⟩
    refine ⟨?_, ?_⟩
    · rw [Nat.testBit_and, hchar, decide_eq_true hR, hocca]
      rfl
    · intro j hj
      rw [Nat.testBit_and, hchar]
      by_cases hRj : R j
      · rw [hmin j hj hRj]
        simp
      · rw [decide_eq_false hRj]
        simp

/-- The westward rank scan of the short-castle test (MSB with an a1
sentinel) holds a square iff it is the nearest occupied square west of e1. -/
theorem westScan_iff {occ : Nat} (a : Nat) :
    (shl 1 (MSB (0x0F &&& (occ ||| 0x1)))).testBit a = true ↔
      a < 4 ∧ (occ.testBit a = true ∨ a = 0) ∧
      ∀ j, a < j → j < 4 → occ.testBit j = false := by
  have hbb : 0x0F &&& (occ ||| 0x1) < M64 := and_lt64l (by decide) _
  have hchar : ∀ y, (0x0F &&& (occ ||| 0x1)).testBit y = true ↔
      (y < 4 ∧ (occ.testBit y = true ∨ y = 0)) := by
    intro y
    rw [Nat.testBit_and, tb_west, Nat.testBit_or,
      show (0x1:Nat) = 2 ^ 0 from rfl, Nat.testBit_two_pow]
    simp only [Bool.and_eq_true, Bool.or_eq_true, decide_eq_true_eq]
    constructor
    · rintro ⟨h1, h2 | h2⟩
      · exact ⟨h1, Or.inl h2⟩
      · exact ⟨h1, Or.inr h2.symm⟩
    · rintro ⟨h1, h2 | h2⟩
      · exact ⟨h1, Or.inl h2⟩
      · exact ⟨h1, Or.inr h2.symm⟩
  obtain ⟨⟨hm4, hmo⟩, _, hmax⟩ := MSB_of_iff hbb hchar (t := 0) ⟨by norm_num, Or.inr rfl⟩
  have hm64 : MSB (0x0F &&& (occ ||| 0x1)) < 64 := by omega
  rw [shl_one hm64, Nat.testBit_two_pow]
  constructor
  · intro h
    have he : MSB (0x0F &&& (occ ||| 0x1)) = a := of_decide_eq_true h
    refine ⟨he ▸ hm4, he ▸ hmo, ?_⟩
    intro j hj hj4
    cases hoj : occ.testBit j
    · rfl
    · exact absurd ⟨hj4, Or.inl hoj⟩ (hmax j (by omega))
  · rintro ⟨ha4, hao, hmin⟩
    obtain ⟨_, hle, _⟩ := MSB_of_iff hbb hchar (t := a) ⟨ha4, hao⟩
    have hge : MSB (0x0F &&& (occ ||| 0x1)) ≤ a := by
      by_contra hc
      have hM1 : 1 ≤ MSB (0x0F &&& (occ ||| 0x1)) := by omega
      rcases hmo with hom | hom
      · have := hmin _ (by omega) hm4
        rw [this] at hom
        exact absurd hom (by simp)
      · omega
    have he : MSB (0x0F &&& (occ ||| 0x1)) = a := by omega
    rw [he]
    simp

/-- A nearest-occupied square up a file is exactly a rook-ray attacker of
the file's rank-1 square from above. -/
theorem vglue {occ : Nat} {f a : Nat} (hf : f < 8) :
    ((a < 64 ∧ a % 8 = f ∧ 8 ≤ a) ∧ occ.testBit a = true ∧
      (∀ j, j < a → (j < 64 ∧ j % 8 = f ∧ 8 ≤ j) → occ.testBit j = false)) ↔
    (a < 64 ∧ occ.testBit a = true ∧ 8 ≤ a ∧ a % 8 = f ∧ rookAttacked a occ f) := by
  unfold rookAttacked rookBetween sameFile sameRank
  constructor
  · rintro ⟨⟨h64, hmod, h8⟩, hocca, hmin⟩
    refine ⟨h64, hocca, h8, hmod, by omega, by omega, Or.inl (by omega), ?_⟩
    intro y hy hbet
    rcases hbet with ⟨h1, h2, h3, h4⟩ | ⟨h1, h2, h3, h4⟩
    · exact hmin y (by omega) ⟨hy, by omega, by omega⟩
    · exact absurd h1 (by omega)
  · rintro ⟨h64, hocca, h8, hmod, _, _, _, hemp⟩
    refine ⟨⟨h64, hmod, h8⟩, hocca, ?_⟩
    intro j hj hjc
    exact hemp j hjc.1 (Or.inl ⟨by omega, by omega, by omega, by omega⟩)

/-- A nearest-occupied square east of e1 is exactly a rook-ray attacker of
e1 from the east. -/
theorem eglue {occ a : Nat} :
    ((a < 8 ∧ 4 < a) ∧ occ.testBit a = true ∧
      (∀ j, j < a → (j < 8 ∧ 4 < j) → occ.testBit j = false)) ↔
    (a < 64 ∧ occ.testBit a = true ∧ a / 8 = 0 ∧ 4 < a ∧ rookAttacked a occ 4) := by
  unfold rookAttacked rookBetween sameFile sameRank
  constructor
  · rintro ⟨⟨h8, h4⟩, hocca, hmin⟩
    refine ⟨by omega, hocca, by omega, h4, by omega, by omega, Or.inr (by omega), ?_⟩
    intro y hy hbet
    rcases hbet with ⟨h1, h2, h3, h4'⟩ | ⟨h1, h2, h3, h4'⟩
    · exact absurd h1 (by omega)
    · exact hmin y (by omega) ⟨by omega, by omega⟩
  · rintro ⟨h64, hocca, hr0, h4, _, _, _, hemp⟩
    refine ⟨⟨by omega, h4⟩, hocca, ?_⟩
    intro j hj hjc
    exact hemp j (by omega) (Or.inr ⟨by omega, by omega, by omega, by omega⟩)

/-- A nearest-occupied square west of e1 is exactly a rook-ray attacker of
e1 from the west. -/
theorem wglue {occ a : Nat} (hocca : occ.testBit a = true) :
    (a < 4 ∧ (occ.testBit a = true ∨ a = 0) ∧
      (∀ j, a < j → j < 4 → occ.testBit j = false)) ↔
    (a < 4 ∧ a / 8 = 0 ∧ rookAttacked a occ 4) := by
  unfold rookAttacked rookBetween sameFile sameRank
  constructor
  · rintro ⟨h4, _, hmin⟩
    refine ⟨h4, by omega, by omega, by omega, Or.inr (by omega), ?_⟩
    intro y hy hbet
    rcases hbet with ⟨h1, h2, h3, h4'⟩ | ⟨h1, h2, h3, h4'⟩
    · exact absurd h1 (by omega)
    · exact hmin y (by omega) (by omega)
  · rintro ⟨h4, hr0, _, _, _, hemp⟩
    refine ⟨h4, Or.inl hocca, ?_⟩
    intro j hj hj4
    exact hemp j (by omega) (Or.inr ⟨by omega, by omega, by omega, by omega⟩)

/-- A nearest-occupied square up a north-west ray is exactly a bishop-ray
attacker of the ray's rank-1 base. -/
theorem nwglue {occ : Nat} {b a : Nat} (hb : 2 ≤ b) (hb8 : b < 8) :
    ((a < 64 ∧ 8 ≤ a ∧ a % 8 + a / 8 = b) ∧ occ.testBit a = true ∧
      (∀ j, j < a → (j < 64 ∧ 8 ≤ j ∧ j % 8 + j / 8 = b) → occ.testBit j = false)) ↔
    (a < 64 ∧ occ.testBit a = true ∧ 8 ≤ a ∧ a % 8 + a / 8 = b ∧
      bishopAttacked a occ b) := by
  unfold bishopAttacked bishopBetween sameDiag sameAnti
  constructor
  · rintro ⟨⟨h64, h8, hsum⟩, hocca, hmin⟩
    refine ⟨h64, hocca, h8, hsum, by omega, by omega, Or.inr (by omega), ?_⟩
    intro y hy hbet
    rcases hbet with ⟨h1, h2, h3, h4⟩ | ⟨h1, h2, h3, h4⟩
    · exact absurd h1 (by omega)
    · exact hmin y (by omega) ⟨hy, by omega, by omega⟩
  · rintro ⟨h64, hocca, h8, hsum, _, _, _, hemp⟩
    refine ⟨⟨h64, h8, hsum⟩, hocca, ?_⟩
    intro j hj hjc
    exact hemp j hjc.1 (Or.inr ⟨by omega, by omega, by omega, by omega⟩)

/-- A nearest-occupied square up a north-east ray is exactly a bishop-ray
attacker of the ray's rank-1 base. -/
theorem neglue {occ : Nat} {b a : Nat} (hb : 2 ≤ b) (hb8 : b < 8) :
    ((a < 64 ∧ 8 ≤ a ∧ a % 8 = a / 8 + b) ∧ occ.testBit a = true ∧
      (∀ j, j < a → (j < 64 ∧ 8 ≤ j ∧ j % 8 = j / 8 + b) → occ.testBit j = false)) ↔
    (a < 64 ∧ occ.testBit a = true ∧ 8 ≤ a ∧ a % 8 = a / 8 + b ∧
      bishopAttacked a occ b) := by
  unfold bishopAttacked bishopBetween sameDiag sameAnti
  constructor
  · rintro ⟨⟨h64, h8, hdif⟩, hocca, hmin⟩
    refine ⟨h64, hocca, h8, hdif, by omega, by omega, Or.inl (by omega), ?_⟩
    intro y hy hbet
    rcases hbet with ⟨h1, h2, h3, h4⟩ | ⟨h1, h2, h3, h4⟩
    · exact hmin y (by omega) ⟨hy, by omega, by omega⟩
    · exact absurd h1 (by omega)
  · rintro ⟨h64, hocca, h8, hdif, _, _, _, hemp⟩
    refine ⟨⟨h64, h8, hdif⟩, hocca, ?_⟩
    intro j hj hjc
    exact hemp j hjc.1 (Or.inl ⟨by omega, by omega, by omega, by omega⟩)

theorem rq_occ {p : TBoard} {a : Nat}
    (h : (Rooks p ||| Queens p).testBit a = true) :
    (Occupation p).testBit a = true := by
  simp only [Occupation, Rooks, Queens, Nat.testBit_or, Bool.or_eq_true] at h ⊢
  rcases h with h | h
  · exact Or.inr (and_testBit_r h)
  · exact Or.inr (and_testBit_r h)

theorem bq_occ {p : TBoard} {a : Nat}
    (h : (Bishops p ||| Queens p).testBit a = true) :
    (Occupation p).testBit a = true := by
  simp only [Occupation, Bishops, Queens, Nat.testBit_or, Bool.or_eq_true] at h ⊢
  rcases h with h | h
  · exact Or.inl (Or.inl (and_testBit_l h))
  · exact Or.inl (Or.inl (and_testBit_l h))

theorem kn_occ {p : TBoard} {a : Nat} (h : (Knights p).testBit a = true) :
    (Occupation p).testBit a = true := by
  simp only [Occupation, Knights, Nat.testBit_or]
  rw [and_testBit_r (and_testBit_l h)]
  simp

theorem pw_occ {p : TBoard} {a : Nat} (h : (Pawns p).testBit a = true) :
    (Occupation p).testBit a = true := by
  simp only [Occupation, Pawns, Nat.testBit_or]
  rw [and_testBit_l (and_testBit_l h)]
  simp

theorem kg_occ {p : TBoard} {a : Nat} (h : (Kings p).testBit a = true) :
    (Occupation p).testBit a = true := by
  simp only [Occupation, Kings, Nat.testBit_or]
  rw [and_testBit_l h]
  simp

/-- The long-castle attack scan fires exactly on `longCastleUnsafe`. -/
theorem longScan_iff (p : TBoard) (hPM : p.PM < M64) (hP0 : p.P0 < M64)
    (hP1 : p.P1 < M64) (hP2 : p.P2 < M64) :
    ((ExtractLSB (0x1010101010101000 &&& Occupation p) |||
      ExtractLSB (0x0808080808080800 &&& Occupation p) |||
      ExtractLSB (0x0404040404040400 &&& Occupation p) |||
      ExtractLSB (0x00000000000000E0 &&& Occupation p)) &&& (Rooks p ||| Queens p) |||
     (ExtractLSB (0x0000000102040800 &&& Occupation p) |||
      ExtractLSB (0x0000000001020400 &&& Occupation p) |||
      ExtractLSB (0x0000000000010200 &&& Occupation p) |||
      ExtractLSB (0x0000000080402000 &&& Occupation p) |||
      ExtractLSB (0x0000008040201000 &&& Occupation p) |||
      ExtractLSB (0x0000804020100800 &&& Occupation p)) &&& (Bishops p ||| Queens p) |||
     0x00000000003E7700 &&& Knights p ||| 0x0000000000003E00 &&& Pawns p |||
     Kings p &&& 0x0000000000000600) &&& (Occupation p ^^^ p.PM) ≠ 0 ↔
    longCastleUnsafe p := by
  have hocc : Occupation p < M64 := or_lt64 (or_lt64 hP0 hP1) hP2
  rw [ne_zero_iff_testBit (and_lt64 _ (xor_lt64 hocc hPM))]
  unfold longCastleUnsafe
  constructor
  · rintro ⟨a, ha, hbit⟩
    refine ⟨a, ha, ?_, ?_⟩
    · have h2 := and_testBit_r hbit
      rw [Nat.xor_comm] at h2
      exact h2
    · have hb := and_testBit_l hbit
      simp only [Nat.testBit_or, Bool.or_eq_true] at hb
      rcases hb with (((hb | hb) | hb) | hb) | hb
      · have hRQ := and_testBit_r hb
        have hsc := and_testBit_l hb
        refine Or.inl ⟨hRQ, ?_⟩
        simp only [Nat.testBit_or, Bool.or_eq_true] at hsc
        rcases hsc with ((hs | hs) | hs) | hs
        · have h4 := (vglue (show (4:Nat) < 8 by norm_num)).mp
            ((scanLSB_iff hocc tb_vE a).mp hs)
          exact Or.inr (Or.inr (Or.inl ⟨h4.2.2.1, h4.2.2.2.1, h4.2.2.2.2⟩))
        · have h4 := (vglue (show (3:Nat) < 8 by norm_num)).mp
            ((scanLSB_iff hocc tb_vD a).mp hs)
          exact Or.inr (Or.inl ⟨h4.2.2.1, h4.2.2.2.1, h4.2.2.2.2⟩)
        · have h4 := (vglue (show (2:Nat) < 8 by norm_num)).mp
            ((scanLSB_iff hocc tb_vC a).mp hs)
          exact Or.inl ⟨h4.2.2.1, h4.2.2.2.1, h4.2.2.2.2⟩
        · have h4 := eglue.mp ((scanLSB_iff hocc tb_east a).mp hs)
          exact Or.inr (Or.inr (Or.inr ⟨h4.2.2.1, h4.2.2.2.1, h4.2.2.2.2⟩))
      · have hBQ := and_testBit_r hb
        have hsc := and_testBit_l hb
        refine Or.inr (Or.inl ⟨hBQ, ?_⟩)
        simp only [Nat.testBit_or, Bool.or_eq_true] at hsc
        rcases hsc with ((((hs | hs) | hs) | hs) | hs) | hs
        · exact Or.inr (Or.inr ((nwglue (by norm_num) (by norm_num)).mp
            ((scanLSB_iff hocc tb_nwE a).mp hs)).2.2.2.2)
        · exact Or.inr (Or.inl ((nwglue (by norm_num) (by norm_num)).mp
            ((scanLSB_iff hocc tb_nwD a).mp hs)).2.2.2.2)
        · exact Or.inl ((nwglue (by norm_num) (by norm_num)).mp
            ((scanLSB_iff hocc tb_nwC a).mp hs)).2.2.2.2
        · exact Or.inr (Or.inr ((neglue (by norm_num) (by norm_num)).mp
            ((scanLSB_iff hocc tb_neE a).mp hs)).2.2.2.2)
        · exact Or.inr (Or.inl ((neglue (by norm_num) (by norm_num)).mp
            ((scanLSB_iff hocc tb_neD a).mp hs)).2.2.2.2)
        · exact Or.inl ((neglue (by norm_num) (by norm_num)).mp
            ((scanLSB_iff hocc tb_neC a).mp hs)).2.2.2.2
      · have hKn := and_testBit_r hb
        have hmask := and_testBit_l hb
        rw [tb_knL] at hmask
        exact Or.inr (Or.inr (Or.inl ⟨hKn, (of_decide_eq_true hmask).2⟩))
      · have hPw := and_testBit_r hb
        have hmask := and_testBit_l hb
        rw [tb_pwL] at hmask
        exact Or.inr (Or.inr (Or.inr (Or.inl ⟨hPw, (of_decide_eq_true hmask).2⟩)))
      · have hKg := and_testBit_l hb
        have hmask := and_testBit_r hb
        rw [tb_kgL] at hmask
        exact Or.inr (Or.inr (Or.inr (Or.inr ⟨hKg, of_decide_eq_true hmask⟩)))
  · rintro ⟨a, ha, hopp, hfam⟩
    refine ⟨a, ha, ?_⟩
    rw [Nat.testBit_and]
    have hoppbit : (Occupation p ^^^ p.PM).testBit a = true := by
      rw [Nat.xor_comm]
      exact hopp
    rw [hoppbit, Bool.and_true]
    simp only [Nat.testBit_or, Bool.or_eq_true]
    rcases hfam with ⟨hRQ, hray⟩ | ⟨hBQ, hray⟩ | ⟨hKn, hg⟩ | ⟨hPw, hg⟩ | ⟨hKg, hg⟩
    · refine Or.inl (Or.inl (Or.inl (Or.inl ?_)))
      rw [Nat.testBit_and, hRQ, Bool.and_true]
      have hocca := rq_occ hRQ
      simp only [Nat.testBit_or, Bool.or_eq_true]
      rcases hray with ⟨h8, hm, hra⟩ | ⟨h8, hm, hra⟩ | ⟨h8, hm, hra⟩ | ⟨hr0, h4, hra⟩
      · exact Or.inl (Or.inr ((scanLSB_iff hocc tb_vC a).mpr
          ((vglue (show (2:Nat) < 8 by norm_num)).mpr ⟨ha, hocca, h8, hm, hra⟩)))
      · exact Or.inl (Or.inl (Or.inr ((scanLSB_iff hocc tb_vD a).mpr
          ((vglue (show (3:Nat) < 8 by norm_num)).mpr ⟨ha, hocca, h8, hm, hra⟩))))
      · exact Or.inl (Or.inl (Or.inl ((scanLSB_iff hocc tb_vE a).mpr
          ((vglue (show (4:Nat) < 8 by norm_num)).mpr ⟨ha, hocca, h8, hm, hra⟩))))
      · exact Or.inr ((scanLSB_iff hocc tb_east a).mpr
          (eglue.mpr ⟨ha, hocca, hr0, h4, hra⟩))
    · refine Or.inl (Or.inl (Or.inl (Or.inr ?_)))
      rw [Nat.testBit_and, hBQ, Bool.and_true]
      have hocca := bq_occ hBQ
      simp only [Nat.testBit_or, Bool.or_eq_true]
      rcases hray with hra | hra | hra
      · have hra2 := hra
        unfold bishopAttacked sameDiag sameAnti at hra2
        obtain ⟨hb64, hba, hcl, hemp⟩ := hra2
        rcases hcl with hd | hd
        · refine Or.inr ((scanLSB_iff hocc tb_neC a).mpr
            ((neglue (by norm_num) (by norm_num)).mpr
              ⟨ha, hocca, by omega, by omega, hra⟩))
        · refine Or.inl (Or.inl (Or.inl (Or.inr ((scanLSB_iff hocc tb_nwC a).mpr
            ((nwglue (by norm_num) (by norm_num)).mpr
              ⟨ha, hocca, by omega, by omega, hra⟩)))))
      · have hra2 := hra
        unfold bishopAttacked sameDiag sameAnti at hra2
        obtain ⟨hb64, hba, hcl, hemp⟩ := hra2
        rcases hcl with hd | hd
        · refine Or.inl (Or.inr ((scanLSB_iff hocc tb_neD a).mpr
            ((neglue (by norm_num) (by norm_num)).mpr
              ⟨ha, hocca, by omega, by omega, hra⟩)))
        · refine Or.inl (Or.inl (Or.inl (Or.inl (Or.inr ((scanLSB_iff hocc tb_nwD a).mpr
            ((nwglue (by norm_num) (by norm_num)).mpr
              ⟨ha, hocca, by omega, by omega, hra⟩))))))
      · have hra2 := hra
        unfold bishopAttacked sameDiag sameAnti at hra2
        obtain ⟨hb64, hba, hcl, hemp⟩ := hra2
        rcases hcl with hd | hd
        · refine Or.inl (Or.inl (Or.inr ((scanLSB_iff hocc tb_neE a).mpr
            ((neglue (by norm_num) (by norm_num)).mpr
              ⟨ha, hocca, by omega, by omega, hra⟩))))
        · refine Or.inl (Or.inl (Or.inl (Or.inl (Or.inl ((scanLSB_iff hocc tb_nwE a).mpr
            ((nwglue (by norm_num) (by norm_num)).mpr
              ⟨ha, hocca, by omega, by omega, hra⟩))))))
    · refine Or.inl (Or.inl (Or.inr ?_))
      rw [Nat.testBit_and, hKn, Bool.and_true, tb_knL]
      exact decide_eq_true ⟨ha, hg⟩
    · refine Or.inl (Or.inr ?_)
      rw [Nat.testBit_and, hPw, Bool.and_true, tb_pwL]
      exact decide_eq_true ⟨ha, hg⟩
    · refine Or.inr ?_
      rw [Nat.testBit_and, hKg, tb_kgL, Bool.true_and]
      exact decide_eq_true hg

/-- The short-castle attack scan fires exactly on `shortCastleUnsafe`. -/
theorem shortScan_iff (p : TBoard) (hPM : p.PM < M64) (hP0 : p.P0 < M64)
    (hP1 : p.P1 < M64) (hP2 : p.P2 < M64) :
    ((ExtractLSB (0x1010101010101000 &&& Occupation p) |||
      ExtractLSB (0x2020202020202000 &&& Occupation p) |||
      ExtractLSB (0x4040404040404000 &&& Occupation p) |||
      shl 1 (MSB (0x000000000000000F &&& (Occupation p ||| 0x1)))) &&&
        (Rooks p ||| Queens p) |||
     (ExtractLSB (0x0000000102040800 &&& Occupation p) |||
      ExtractLSB (0x0000010204081000 &&& Occupation p) |||
      ExtractLSB (0x0001020408102000 &&& Occupation p) |||
      ExtractLSB (0x0000000080402000 &&& Occupation p) |||
      ExtractLSB (0x0000000000804000 &&& Occupation p) |||
      0x0000000000008000) &&& (Bishops p ||| Queens p) |||
     0x0000000000F8DC00 &&& Knights p ||| 0x000000000000F800 &&& Pawns p |||
     Kings p &&& 0x0000000000004000) &&& (Occupation p ^^^ p.PM) ≠ 0 ↔
    shortCastleUnsafe p := by
  have hocc : Occupation p < M64 := or_lt64 (or_lt64 hP0 hP1) hP2
  rw [ne_zero_iff_testBit (and_lt64 _ (xor_lt64 hocc hPM))]
  unfold shortCastleUnsafe
  constructor
  · rintro ⟨a, ha, hbit⟩
    refine ⟨a, ha, ?_, ?_⟩
    · have h2 := and_testBit_r hbit
      rw [Nat.xor_comm] at h2
      exact h2
    · have hb := and_testBit_l hbit
      simp only [Nat.testBit_or, Bool.or_eq_true] at hb
      rcases hb with (((hb | hb) | hb) | hb) | hb
      · have hRQ := and_testBit_r hb
        have hsc := and_testBit_l hb
        refine Or.inl ⟨hRQ, ?_⟩
        simp only [Nat.testBit_or, Bool.or_eq_true] at hsc
        rcases hsc with ((hs | hs) | hs) | hs
        · have h4 := (vglue (show (4:Nat) < 8 by norm_num)).mp
            ((scanLSB_iff hocc tb_vE a).mp hs)
          exact Or.inl ⟨h4.2.2.1, h4.2.2.2.1, h4.2.2.2.2⟩
        · have h4 := (vglue (show (5:Nat) < 8 by norm_num)).mp
            ((scanLSB_iff hocc tb_vF a).mp hs)
          exact Or.inr (Or.inl ⟨h4.2.2.1, h4.2.2.2.1, h4.2.2.2.2⟩)
        · have h4 := (vglue (show (6:Nat) < 8 by norm_num)).mp
            ((scanLSB_iff hocc tb_vG a).mp hs)
          exact Or.inr (Or.inr (Or.inl ⟨h4.2.2.1, h4.2.2.2.1, h4.2.2.2.2⟩))
        · have hocca := rq_occ hRQ
          have h3 := (westScan_iff a).mp hs
          have h4 := (wglue hocca).mp h3
          exact Or.inr (Or.inr (Or.inr ⟨h4.1, h4.2.1, h4.2.2⟩))
      · have hBQ := and_testBit_r hb
        have hsc := and_testBit_l hb
        have hocca := bq_occ hBQ
        refine Or.inr (Or.inl ⟨hBQ, ?_⟩)
        simp only [Nat.testBit_or, Bool.or_eq_true] at hsc
        rcases hsc with ((((hs | hs) | hs) | hs) | hs) | hs
        · exact Or.inl ((nwglue (by norm_num) (by norm_num)).mp
            ((scanLSB_iff hocc tb_nwE a).mp hs)).2.2.2.2
        · exact Or.inr (Or.inl ((nwglue (by norm_num) (by norm_num)).mp
            ((scanLSB_iff hocc tb_nwF a).mp hs)).2.2.2.2)
        · exact Or.inr (Or.inr ((nwglue (by norm_num) (by norm_num)).mp
            ((scanLSB_iff hocc tb_nwG a).mp hs)).2.2.2.2)
        · exact Or.inl ((neglue (by norm_num) (by norm_num)).mp
            ((scanLSB_iff hocc tb_neE a).mp hs)).2.2.2.2
        · exact Or.inr (Or.inl ((neglue (by norm_num) (by norm_num)).mp
            ((scanLSB_iff hocc tb_neF a).mp hs)).2.2.2.2)
        · rw [tb_neG] at hs
          have hch := of_decide_eq_true hs
          refine Or.inr (Or.inr ((neglue (show (2:Nat) ≤ 6 by norm_num)
            (show (6:Nat) < 8 by norm_num)).mp ⟨hch, hocca, ?_⟩).2.2.2.2)
          intro j hj hjc
          exact absurd hjc (by omega)
      · have hKn := and_testBit_r hb
        have hmask := and_testBit_l hb
        rw [tb_knS] at hmask
        exact Or.inr (Or.inr (Or.inl ⟨hKn, (of_decide_eq_true hmask).2⟩))
      · have hPw := and_testBit_r hb
        have hmask := and_testBit_l hb
        rw [tb_pwS] at hmask
        exact Or.inr (Or.inr (Or.inr (Or.inl ⟨hPw, (of_decide_eq_true hmask).2⟩)))
      · have hKg := and_testBit_l hb
        have hmask := and_testBit_r hb
        rw [tb_kgS] at hmask
        exact Or.inr (Or.inr (Or.inr (Or.inr ⟨hKg, of_decide_eq_true hmask⟩)))
  · rintro ⟨a, ha, hopp, hfam⟩
    refine ⟨a, ha, ?_⟩
    rw [Nat.testBit_and]
    have hoppbit : (Occupation p ^^^ p.PM).testBit a = true := by
      rw [Nat.xor_comm]
      exact hopp
    rw [hoppbit, Bool.and_true]
    simp only [Nat.testBit_or, Bool.or_eq_true]
    rcases hfam with ⟨hRQ, hray⟩ | ⟨hBQ, hray⟩ | ⟨hKn, hg⟩ | ⟨hPw, hg⟩ | ⟨hKg, hg⟩
    · refine Or.inl (Or.inl (Or.inl (Or.inl ?_)))
      rw [Nat.testBit_and, hRQ, Bool.and_true]
      have hocca := rq_occ hRQ
      simp only [Nat.testBit_or, Bool.or_eq_true]
      rcases hray with ⟨h8, hm, hra⟩ | ⟨h8, hm, hra⟩ | ⟨h8, hm, hra⟩ | ⟨h4, hr0, hra⟩
      · exact Or.inl (Or.inl (Or.inl ((scanLSB_iff hocc tb_vE a).mpr
          ((vglue (show (4:Nat) < 8 by norm_num)).mpr ⟨ha, hocca, h8, hm, hra⟩))))
      · exact Or.inl (Or.inl (Or.inr ((scanLSB_iff hocc tb_vF a).mpr
          ((vglue (show (5:Nat) < 8 by norm_num)).mpr ⟨ha, hocca, h8, hm, hra⟩))))
      · exact Or.inl (Or.inr ((scanLSB_iff hocc tb_vG a).mpr
          ((vglue (show (6:Nat) < 8 by norm_num)).mpr ⟨ha, hocca, h8, hm, hra⟩)))
      · exact Or.inr ((westScan_iff a).mpr ((wglue hocca).mpr ⟨h4, hr0, hra⟩))
    · refine Or.inl (Or.inl (Or.inl (Or.inr ?_)))
      rw [Nat.testBit_and, hBQ, Bool.and_true]
      have hocca := bq_occ hBQ
      simp only [Nat.testBit_or, Bool.or_eq_true]
      rcases hray with hra | hra | hra
      · have hra2 := hra
        unfold bishopAttacked sameDiag sameAnti at hra2
        obtain ⟨hb64, hba, hcl, hemp⟩ := hra2
        rcases hcl with hd | hd
        · refine Or.inl (Or.inl (Or.inr ((scanLSB_iff hocc tb_neE a).mpr
            ((neglue (by norm_num) (by norm_num)).mpr
              ⟨ha, hocca, by omega, by omega, hra⟩))))
        · refine Or.inl (Or.inl (Or.inl (Or.inl (Or.inl ((scanLSB_iff hocc tb_nwE a).mpr
            ((nwglue (by norm_num) (by norm_num)).mpr
              ⟨ha, hocca, by omega, by omega, hra⟩))))))
      · have hra2 := hra
        unfold bishopAttacked sameDiag sameAnti at hra2
        obtain ⟨hb64, hba, hcl, hemp⟩ := hra2
        rcases hcl with hd | hd
        · refine Or.inl (Or.inr ((scanLSB_iff hocc tb_neF a).mpr
            ((neglue (by norm_num) (by norm_num)).mpr
              ⟨ha, hocca, by omega, by omega, hra⟩)))
        · refine Or.inl (Or.inl (Or.inl (Or.inl (Or.inr ((scanLSB_iff hocc tb_nwF a).mpr
            ((nwglue (by norm_num) (by norm_num)).mpr
              ⟨ha, hocca, by omega, by omega, hra⟩))))))
      · have hra2 := hra
        unfold bishopAttacked sameDiag sameAnti at hra2
        obtain ⟨hb64, hba, hcl, hemp⟩ := hra2
        rcases hcl with hd | hd
        · refine Or.inr ?_
          rw [tb_neG]
          exact decide_eq_true ⟨ha, by omega, by omega⟩
        · refine Or.inl (Or.inl (Or.inl (Or.inr ((scanLSB_iff hocc tb_nwG a).mpr
            ((nwglue (by norm_num) (by norm_num)).mpr
              ⟨ha, hocca, by omega, by omega, hra⟩)))))
    · refine Or.inl (Or.inl (Or.inr ?_))
      rw [Nat.testBit_and, hKn, Bool.and_true, tb_knS]
      exact decide_eq_true ⟨ha, hg⟩
    · refine Or.inl (Or.inr ?_)
      rw [Nat.testBit_and, hPw, Bool.and_true, tb_pwS]
      exact decide_eq_true ⟨ha, hg⟩
    · refine Or.inr ?_
      rw [Nat.testBit_and, hKg, tb_kgS, Bool.true_and]
      exact decide_eq_true hg

theorem and_0E_iff {occ : Nat} : occ &&& 0x0E = 0 ↔
    (occ.testBit 1 = false ∧ occ.testBit 2 = false ∧ occ.testBit 3 = false) := by
  constructor
  · intro h
    have hb : ∀ b : Nat, (occ &&& 0x0E).testBit b = false := by
      intro b
      rw [h]
      exact Nat.zero_testBit b
    have h1 := hb 1
    have h2 := hb 2
    have h3 := hb 3
    rw [Nat.testBit_and, tb_e0] at h1 h2 h3
    simp at h1 h2 h3
    exact ⟨h1, h2, h3⟩
  · rintro ⟨h1, h2, h3⟩
    apply Nat.eq_of_testBit_eq
    intro j
    rw [Nat.testBit_and, tb_e0, Nat.zero_testBit]
    by_cases hj1 : j = 1
    · subst hj1
      rw [h1]
      rfl
    · by_cases hj2 : j = 2
      · subst hj2
        rw [h2]
        rfl
      · by_cases hj3 : j = 3
        · subst hj3
          rw [h3]
          rfl
        · rw [decide_eq_false (by omega : ¬(j = 1 ∨ j = 2 ∨ j = 3))]
          simp

theorem and_60_iff {occ : Nat} : occ &&& 0x60 = 0 ↔
    (occ.testBit 5 = false ∧ occ.testBit 6 = false) := by
  constructor
  · intro h
    have hb : ∀ b : Nat, (occ &&& 0x60).testBit b = false := by
      intro b
      rw [h]
      exact Nat.zero_testBit b
    have h5 := hb 5
    have h6 := hb 6
    rw [Nat.testBit_and, tb_60] at h5 h6
    simp at h5 h6
    exact ⟨h5, h6⟩
  · rintro ⟨h5, h6⟩
    apply Nat.eq_of_testBit_eq
    intro j
    rw [Nat.testBit_and, tb_60, Nat.zero_testBit]
    by_cases hj5 : j = 5
    · subst hj5
      rw [h5]
      rfl
    · by_cases hj6 : j = 6
      · subst hj6
        rw [h6]
        rfl
      · rw [decide_eq_false (by omega : ¬(j = 5 ∨ j = 6))]
        simp

/-- C4 (amended): `GenerateQuiets` emits the long (resp. short) castle iff
the corresponding right bit is set, the squares between king and rook are
empty, and no opposing piece is seen by the code's partial attack scan
(`longCastleUnsafe` / `shortCastleUnsafe`): upward file scans, upward
diagonal scans, fixed knight/pawn masks, two king squares, and - on the long
side - only the eastward rank ray, so a rank attack from the west (see the
counterexample) and several opposing-king placements are not rejected. -/
theorem generateQuiets_castle_iff (p : TBoard) (hPM : p.PM < M64) (hP0 : p.P0 < M64)
    (hP1 : p.P1 < M64) (hP2 : p.P2 < M64) :
    (({ MoveType := KING ||| CASTLE, From := 4, To := 2, Prom := EMPTY } : TMove) ∈
        GenerateQuiets p ↔
      CastleLM p ≠ 0 ∧
      ((Occupation p).testBit 1 = false ∧ (Occupation p).testBit 2 = false ∧
        (Occupation p).testBit 3 = false) ∧
      ¬ longCastleUnsafe p) ∧
    (({ MoveType := KING ||| CASTLE, From := 4, To := 6, Prom := EMPTY } : TMove) ∈
        GenerateQuiets p ↔
      CastleSM p ≠ 0 ∧
      ((Occupation p).testBit 5 = false ∧ (Occupation p).testBit 6 = false) ∧
      ¬ shortCastleUnsafe p) := by
  unfold GenerateQuiets
  simp only [List.mem_append]
  constructor
  · constructor
    · rintro ((((h | h) | h) | h) | h)
      · exfalso
        rw [List.mem_flatMap] at h
        obtain ⟨piece, hpl, hmq⟩ := h
        have hmt := (mem_quietMovesFor hPM hP0 hP1 hP2 hmq).1
        simp only [List.mem_cons, List.not_mem_nil, or_false] at hpl
        rcases hpl with rfl | rfl | rfl | rfl | rfl <;> exact absurd hmt (by decide)
      · exfalso
        rw [List.mem_map] at h
        obtain ⟨t, _, heq⟩ := h
        exact absurd (congrArg TMove.MoveType heq)
          (show ¬((PAWN : Nat) = KING ||| CASTLE) by decide)
      · exfalso
        rw [List.mem_map] at h
        obtain ⟨t, _, heq⟩ := h
        exact absurd (congrArg TMove.MoveType heq)
          (show ¬((PAWN : Nat) = KING ||| CASTLE) by decide)
      · by_cases hc1 : CastleLM p ≠ 0 ∧ Occupation p &&& 0x0E = 0
        · rw [if_pos hc1] at h
          by_cases hc2 : ((ExtractLSB (0x1010101010101000 &&& Occupation p) |||
              ExtractLSB (0x0808080808080800 &&& Occupation p) |||
              ExtractLSB (0x0404040404040400 &&& Occupation p) |||
              ExtractLSB (0x00000000000000E0 &&& Occupation p)) &&&
                (Rooks p ||| Queens p) |||
             (ExtractLSB (0x0000000102040800 &&& Occupation p) |||
              ExtractLSB (0x0000000001020400 &&& Occupation p) |||
              ExtractLSB (0x0000000000010200 &&& Occupation p) |||
              ExtractLSB (0x0000000080402000 &&& Occupation p) |||
              ExtractLSB (0x0000008040201000 &&& Occupation p) |||
              ExtractLSB (0x0000804020100800 &&& Occupation p)) &&&
                (Bishops p ||| Queens p) |||
             0x00000000003E7700 &&& Knights p ||| 0x0000000000003E00 &&& Pawns p |||
             Kings p &&& 0x0000000000000600) &&& (Occupation p ^^^ p.PM) = 0
          · refine ⟨hc1.1, and_0E_iff.mp hc1.2, ?_⟩
            intro hu
            exact absurd hc2 ((longScan_iff p hPM hP0 hP1 hP2).mpr hu)
          · rw [if_neg hc2] at h
            exact absurd h (List.not_mem_nil _)
        · rw [if_neg hc1] at h
          exact absurd h (List.not_mem_nil _)
      · exfalso
        by_cases hc1 : CastleSM p ≠ 0 ∧ Occupation p &&& 0x60 = 0
        · rw [if_pos hc1] at h
          by_cases hc2 : ((ExtractLSB (0x1010101010101000 &&& Occupation p) |||
              ExtractLSB (0x2020202020202000 &&& Occupation p) |||
              ExtractLSB (0x4040404040404000 &&& Occupation p) |||
              shl 1 (MSB (0x000000000000000F &&& (Occupation p ||| 0x1)))) &&&
                (Rooks p ||| Queens p) |||
             (ExtractLSB (0x0000000102040800 &&& Occupation p) |||
              ExtractLSB (0x0000010204081000 &&& Occupation p) |||
              ExtractLSB (0x0001020408102000 &&& Occupation p) |||
              ExtractLSB (0x0000000080402000 &&& Occupation p) |||
              ExtractLSB (0x0000000000804000 &&& Occupation p) |||
              0x0000000000008000) &&& (Bishops p ||| Queens p) |||
             0x0000000000F8DC00 &&& Knights p ||| 0x000000000000F800 &&& Pawns p |||
             Kings p &&& 0x0000000000004000) &&& (Occupation p ^^^ p.PM) = 0
          · rw [if_pos hc2] at h
            rw [List.mem_singleton] at h
            exact absurd (congrArg TMove.To h) (by decide)
          · rw [if_neg hc2] at h
            exact absurd h (List.not_mem_nil _)
        · rw [if_neg hc1] at h
          exact absurd h (List.not_mem_nil _)
    · rintro ⟨hcl, hemp, hsafe⟩
      refine Or.inl (Or.inr ?_)
      have hc2 : ((ExtractLSB (0x1010101010101000 &&& Occupation p) |||
          ExtractLSB (0x0808080808080800 &&& Occupation p) |||
          ExtractLSB (0x0404040404040400 &&& Occupation p) |||
          ExtractLSB (0x00000000000000E0 &&& Occupation p)) &&& (Rooks p ||| Queens p) |||
         (ExtractLSB (0x0000000102040800 &&& Occupation p) |||
          ExtractLSB (0x0000000001020400 &&& Occupation p) |||
          ExtractLSB (0x0000000000010200 &&& Occupation p) |||
          ExtractLSB (0x0000000080402000 &&& Occupation p) |||
          ExtractLSB (0x0000008040201000 &&& Occupation p) |||
          ExtractLSB (0x0000804020100800 &&& Occupation p)) &&& (Bishops p ||| Queens p) |||
         0x00000000003E7700 &&& Knights p ||| 0x0000000000003E00 &&& Pawns p |||
         Kings p &&& 0x0000000000000600) &&& (Occupation p ^^^ p.PM) = 0 := by
        by_contra hne
        exact hsafe ((longScan_iff p hPM hP0 hP1 hP2).mp hne)
      rw [if_pos ⟨hcl, and_0E_iff.mpr hemp⟩, if_pos hc2]
      exact List.mem_singleton.mpr rfl
  · constructor
    · rintro ((((h | h) | h) | h) | h)
      · exfalso
        rw [List.mem_flatMap] at h
        obtain ⟨piece, hpl, hmq⟩ := h
        have hmt := (mem_quietMovesFor hPM hP0 hP1 hP2 hmq).1
        simp only [List.mem_cons, List.not_mem_nil, or_false] at hpl
        rcases hpl with rfl | rfl | rfl | rfl | rfl <;> exact absurd hmt (by decide)
      · exfalso
        rw [List.mem_map] at h
        obtain ⟨t, _, heq⟩ := h
        exact absurd (congrArg TMove.MoveType heq)
          (show ¬((PAWN : Nat) = KING ||| CASTLE) by decide)
      · exfalso
        rw [List.mem_map] at h
        obtain ⟨t, _, heq⟩ := h
        exact absurd (congrArg TMove.MoveType heq)
          (show ¬((PAWN : Nat) = KING ||| CASTLE) by decide)
      · exfalso
        by_cases hc1 : CastleLM p ≠ 0 ∧ Occupation p &&& 0x0E = 0
        · rw [if_pos hc1] at h
          by_cases hc2 : ((ExtractLSB (0x1010101010101000 &&& Occupation p) |||
              ExtractLSB (0x0808080808080800 &&& Occupation p) |||
              ExtractLSB (0x0404040404040400 &&& Occupation p) |||
              ExtractLSB (0x00000000000000E0 &&& Occupation p)) &&&
                (Rooks p ||| Queens p) |||
             (ExtractLSB (0x0000000102040800 &&& Occupation p) |||
              ExtractLSB (0x0000000001020400 &&& Occupation p) |||
              ExtractLSB (0x0000000000010200 &&& Occupation p) |||
              ExtractLSB (0x0000000080402000 &&& Occupation p) |||
              ExtractLSB (0x0000008040201000 &&& Occupation p) |||
              ExtractLSB (0x0000804020100800 &&& Occupation p)) &&&
                (Bishops p ||| Queens p) |||
             0x00000000003E7700 &&& Knights p ||| 0x0000000000003E00 &&& Pawns p |||
             Kings p &&& 0x0000000000000600) &&& (Occupation p ^^^ p.PM) = 0
          · rw [if_pos hc2] at h
            rw [List.mem_singleton] at h
            exact absurd (congrArg TMove.To h) (by decide)
          · rw [if_neg hc2] at h
            exact absurd h (List.not_mem_nil _)
        · rw [if_neg hc1] at h
          exact absurd h (List.not_mem_nil _)
      · by_cases hc1 : CastleSM p ≠ 0 ∧ Occupation p &&& 0x60 = 0
        · rw [if_pos hc1] at h
          by_cases hc2 : ((ExtractLSB (0x1010101010101000 &&& Occupation p) |||
              ExtractLSB (0x2020202020202000 &&& Occupation p) |||
              ExtractLSB (0x4040404040404000 &&& Occupation p) |||
              shl 1 (MSB (0x000000000000000F &&& (Occupation p ||| 0x1)))) &&&
                (Rooks p ||| Queens p) |||
             (ExtractLSB (0x0000000102040800 &&& Occupation p) |||
              ExtractLSB (0x0000010204081000 &&& Occupation p) |||
              ExtractLSB (0x0001020408102000 &&& Occupation p) |||
              ExtractLSB (0x0000000080402000 &&& Occupation p) |||
              ExtractLSB (0x0000000000804000 &&& Occupation p) |||
              0x0000000000008000) &&& (Bishops p ||| Queens p) |||
             0x0000000000F8DC00 &&& Knights p ||| 0x000000000000F800 &&& Pawns p |||
             Kings p &&& 0x0000000000004000) &&& (Occupation p ^^^ p.PM) = 0
          · refine ⟨hc1.1, and_60_iff.mp hc1.2, ?_⟩
            intro hu
            exact absurd hc2 ((shortScan_iff p hPM hP0 hP1 hP2).mpr hu)
          · rw [if_neg hc2] at h
            exact absurd h (List.not_mem_nil _)
        · rw [if_neg hc1] at h
          exact absurd h (List.not_mem_nil _)
    · rintro ⟨hcs, hemp, hsafe⟩
      refine Or.inr ?_
      have hc2 : ((ExtractLSB (0x1010101010101000 &&& Occupation p) |||
          ExtractLSB (0x2020202020202000 &&& Occupation p) |||
          ExtractLSB (0x4040404040404000 &&& Occupation p) |||
          shl 1 (MSB (0x000000000000000F &&& (Occupation p ||| 0x1)))) &&&
            (Rooks p ||| Queens p) |||
         (ExtractLSB (0x0000000102040800 &&& Occupation p) |||
          ExtractLSB (0x0000010204081000 &&& Occupation p) |||
          ExtractLSB (0x0001020408102000 &&& Occupation p) |||
          ExtractLSB (0x0000000080402000 &&& Occupation p) |||
          ExtractLSB (0x0000000000804000 &&& Occupation p) |||
          0x0000000000008000) &&& (Bishops p ||| Queens p) |||
         0x0000000000F8DC00 &&& Knights p ||| 0x000000000000F800 &&& Pawns p |||
         Kings p &&& 0x0000000000004000) &&& (Occupation p ^^^ p.PM) = 0 := by
        by_contra hne
        exact hsafe ((shortScan_iff p hPM hP0 hP1 hP2).mp hne)
      rw [if_pos ⟨hcs, and_60_iff.mpr hemp⟩, if_pos hc2]
      exact List.mem_singleton.mpr rfl

set_option maxRecDepth 10000 in
/-- C4 counterexample: in `c4board` the long castle is emitted although the
opposing rook on a1 attacks the king's start square e1 along the empty first
rank, refuting the claim that castling is offered only when no king-path
square is attacked. -/
theorem castle_attack_counterexample :
    ({ MoveType := KING ||| CASTLE, From := 4, To := 2, Prom := EMPTY } : TMove) ∈
      GenerateQuiets c4board ∧
    (Rooks c4board ||| Queens c4board).testBit 0 = true ∧
    (c4board.PM ^^^ Occupation c4board).testBit 0 = true ∧
    rookAttacked 0 (Occupation c4board) 4 := by decide

theorem generateQuiets_castle_iff_witness :
    (({ MoveType := KING ||| CASTLE, From := 4, To := 2, Prom := EMPTY } : TMove) ∈
        GenerateQuiets sampleBoard ↔
      CastleLM sampleBoard ≠ 0 ∧
      ((Occupation sampleBoard).testBit 1 = false ∧
        (Occupation sampleBoard).testBit 2 = false ∧
        (Occupation sampleBoard).testBit 3 = false) ∧
      ¬ longCastleUnsafe sampleBoard) ∧
    (({ MoveType := KING ||| CASTLE, From := 4, To := 6, Prom := EMPTY } : TMove) ∈
        GenerateQuiets sampleBoard ↔
      CastleSM sampleBoard ≠ 0 ∧
      ((Occupation sampleBoard).testBit 5 = false ∧
        (Occupation sampleBoard).testBit 6 = false) ∧
      ¬ shortCastleUnsafe sampleBoard) :=
  generateQuiets_castle_iff sampleBoard (by decide) (by decide) (by decide) (by decide)
